import Mathlib

/-! # eigenut: block matrices and the block Kronecker product `Identity(s) [X] Matrix`

A shallow embedding of `include/eigenut/blockmatrix_kronecker.h` and of the matrix
utilities of `include/eigenut/misc.h`.

* Scalars are integers: the products and sums of the dense library are exact.
* A dense matrix is a shape together with a coefficient function; a write to a
  sub-rectangle is a pointwise update, a `for` loop is a fold over its index range,
  and an output argument (`result`, `output`) is passed in and handed back.
* Sizes and loop indices (`std::ptrdiff_t`, `int`) are unbounded naturals/integers; the
  one subtraction of `std::size_t` values, in `selectRows`, is taken modulo `2^64`.
* `EIGENUT_ASSERT` throws; a throwing call is `Except.error` with the message of the
  assertion, and a method with an output argument returns the status together with the
  final value of that argument.
-/

namespace eigenut

/-! ## The dense linear-algebra collaborator -/

/-- Dense dynamically sized matrix: shape and coefficients. Only the coefficients
`coeff i j` with `i < rows` and `j < cols` belong to the matrix. -/
structure DenseMatrix where
  rows : Nat
  cols : Nat
  coeff : Nat → Nat → Int

/-- Dense dynamically sized column vector. -/
structure DenseVector where
  size : Nat
  coeff : Nat → Int

/-- Vector of `int` indices (`Eigen::VectorXi`). -/
structure IndexVector where
  size : Nat
  coeff : Nat → Int

namespace DenseMatrix

/-- Default-constructed matrix: `0 x 0`. -/
def empty : DenseMatrix := ⟨0, 0, fun _ _ => 0⟩

/-- The call `m.resize(r, c)`: the shape changes, nothing is written. The coefficients
are whatever the storage holds afterwards; here, what it held before. -/
def resize (m : DenseMatrix) (r c : Nat) : DenseMatrix := ⟨r, c, m.coeff⟩

/-- The call `m.setZero(r, c)`: resize and fill with zeros. -/
def setZero (_m : DenseMatrix) (r c : Nat) : DenseMatrix := ⟨r, c, fun _ _ => 0⟩

/-- Read of the view `m.block(r0, c0, nr, nc)`. -/
def block (m : DenseMatrix) (r0 c0 nr nc : Nat) : DenseMatrix :=
  ⟨nr, nc, fun i j => m.coeff (r0 + i) (c0 + j)⟩

/-- Assignment `m.block(r0, c0, nr, nc) = b`. -/
def setBlock (m : DenseMatrix) (r0 c0 nr nc : Nat) (b : DenseMatrix) : DenseMatrix :=
  ⟨m.rows, m.cols, fun i j =>
    if r0 ≤ i ∧ i < r0 + nr ∧ c0 ≤ j ∧ j < c0 + nc then b.coeff (i - r0) (j - c0)
    else m.coeff i j⟩

/-- Matrix product `a * b`. -/
def mul (a b : DenseMatrix) : DenseMatrix :=
  ⟨a.rows, b.cols, fun i j => ∑ k in Finset.range a.cols, a.coeff i k * b.coeff k j⟩

/-- Product `x * b` of a scalar and a matrix. -/
def scale (x : Int) (b : DenseMatrix) : DenseMatrix :=
  ⟨b.rows, b.cols, fun i j => x * b.coeff i j⟩

/-- Matrix-vector product `a * v`. -/
def mulVec (a : DenseMatrix) (v : DenseVector) : DenseVector :=
  ⟨a.rows, fun i => ∑ k in Finset.range a.cols, a.coeff i k * v.coeff k⟩

/-- Assignment `m(r, c) = x` of one coefficient. -/
def setCoeff (m : DenseMatrix) (r c : Nat) (x : Int) : DenseMatrix :=
  ⟨m.rows, m.cols, fun i j => if i = r ∧ j = c then x else m.coeff i j⟩

/-- The `n x n` identity matrix of the dense library. -/
def Identity (n : Nat) : DenseMatrix := ⟨n, n, fun i j => if i = j then 1 else 0⟩

/-- The number of coefficients `m.size()`. -/
def size (m : DenseMatrix) : Nat := m.rows * m.cols

/-- The call `m.conservativeResize(r, c)`: the shape changes, and the coefficients that are
inside the old and the new shape are kept. -/
def conservativeResize (m : DenseMatrix) (r c : Nat) : DenseMatrix := ⟨r, c, m.coeff⟩

/-- The view `m.transpose()`. -/
def transpose (m : DenseMatrix) : DenseMatrix := ⟨m.cols, m.rows, fun i j => m.coeff j i⟩

/-- The view `m.bottomRows(n)`, the last `n` rows. -/
def bottomRows (m : DenseMatrix) (n : Nat) : DenseMatrix :=
  ⟨n, m.cols, fun i j => m.coeff (m.rows - n + i) j⟩

/-- The view `m.col(j)`, one column as a matrix of one column. -/
def col (m : DenseMatrix) (j : Nat) : DenseMatrix := ⟨m.rows, 1, fun i _ => m.coeff i j⟩

/-- The coefficient `m.data()[k]` of the storage of a column-major matrix: the coefficient
`(r, c)` is stored at `r + c*rows`. -/
def data (m : DenseMatrix) (k : Nat) : Int := m.coeff (k % m.rows) (k / m.rows)

/-- Two matrices are the same matrix: same shape, same coefficients inside it. -/
def Same (a b : DenseMatrix) : Prop :=
  a.rows = b.rows ∧ a.cols = b.cols ∧ ∀ i < a.rows, ∀ j < a.cols, a.coeff i j = b.coeff i j

end DenseMatrix

namespace DenseVector

/-- Default-constructed vector: size `0`. -/
def empty : DenseVector := ⟨0, fun _ => 0⟩

/-- The call `v.resize(n)`: the size changes, nothing is written. -/
def resize (v : DenseVector) (n : Nat) : DenseVector := ⟨n, v.coeff⟩

/-- The call `v.setZero(n)`. -/
def setZero (_v : DenseVector) (n : Nat) : DenseVector := ⟨n, fun _ => 0⟩

/-- Read of the view `v.segment(start, n)`. -/
def segment (v : DenseVector) (start n : Nat) : DenseVector :=
  ⟨n, fun i => v.coeff (start + i)⟩

/-- Assignment `v.segment(start, n) = w`. -/
def setSegment (v : DenseVector) (start n : Nat) (w : DenseVector) : DenseVector :=
  ⟨v.size, fun i => if start ≤ i ∧ i < start + n then w.coeff (i - start) else v.coeff i⟩

/-- Update `v.segment(start, n) += w`. -/
def addSegment (v : DenseVector) (start n : Nat) (w : DenseVector) : DenseVector :=
  ⟨v.size, fun i =>
    if start ≤ i ∧ i < start + n then v.coeff i + w.coeff (i - start) else v.coeff i⟩

/-- Product `x * v` of a scalar and a vector. -/
def scale (x : Int) (v : DenseVector) : DenseVector := ⟨v.size, fun i => x * v.coeff i⟩

/-- Two vectors are the same vector: same size, same coefficients inside it. -/
def Same (a b : DenseVector) : Prop :=
  a.size = b.size ∧ ∀ i < a.size, a.coeff i = b.coeff i

end DenseVector

namespace IndexVector

/-- The call `indices.resize(n)`. -/
def resize (v : IndexVector) (n : Nat) : IndexVector := ⟨n, v.coeff⟩

/-- The integer sequence `Eigen::VectorXi::LinSpaced(size, low, high)` for
`size <= high - low + 1`, as the source calls it: entry `i` is
`low + i * ((high - low) / (size - 1))`, the quotient being taken over `1` when
`size <= 1`. -/
def LinSpaced (size : Nat) (low high : Int) : IndexVector :=
  ⟨size, fun i => low + (i : Int) * ((high - low) / (if size ≤ 1 then 1 else (size : Int) - 1))⟩

/-- Assignment `v.segment(start, n) = w`. -/
def setSegment (v : IndexVector) (start n : Nat) (w : IndexVector) : IndexVector :=
  ⟨v.size, fun i => if start ≤ i ∧ i < start + n then w.coeff (i - start) else v.coeff i⟩

end IndexVector

/-- The product `PermutationWrapper(indices).transpose() * m`: row `i` of the product is
row `indices[i]` of `m`. -/
def applyTransposedPermutation (indices : IndexVector) (m : DenseMatrix) : DenseMatrix :=
  ⟨indices.size, m.cols, fun i j => m.coeff (indices.coeff i).toNat j⟩

/-- Outcome of a call with an output argument: whether it returned or threw, and the
value the output argument holds afterwards. -/
abbrev Outcome (σ : Type) : Type := Except String Unit × σ

/-- Passes of a loop over the indices of a list; a pass that throws ends the loop and
leaves the state as that pass left it. -/
def forLoopAux {σ : Type} (body : σ → Nat → Outcome σ) : List Nat → σ → Outcome σ
  | [], st => (.ok (), st)
  | k :: ks, st =>
    match body st k with
    | (.ok _, st1) => forLoopAux body ks st1
    | (.error e, st1) => (.error e, st1)

/-- The loop `for (k = lo; k < hi; ++k) body`, each pass of which may throw. -/
def forLoop {σ : Type} (lo hi : Nat) (body : σ → Nat → Outcome σ) (st : σ) : Outcome σ :=
  forLoopAux body (List.range' lo (hi - lo)) st

/-- The loop `for (k = 0; k < n; ++k) body` with a body that cannot throw. -/
def forEach {σ : Type} (n : Nat) (body : σ → Nat → σ) (st : σ) : σ :=
  (List.range n).foldl body st

/-! ## Block matrices (`blockmatrix_base.h`) -/

/-- Modelled from the spec: the sparsity patterns of `types.h`, which is not among the
sources; the source names `NONE` (Full), `DIAGONAL` and `LEFT_LOWER_TRIANGULAR`. It is the
template parameter `t_sparsity_type`. -/
inductive MatrixSparsityType where
  | NONE
  | DIAGONAL
  | LEFT_LOWER_TRIANGULAR
  deriving DecidableEq

/-- Modelled from the spec: a block dimension as configured in a template parameter
(`t_block_rows_num`, `t_block_cols_num`), a fixed number or
`MatrixBlockSizeType::DYNAMIC`; `types.h` is not among the sources. -/
inductive MatrixBlockSizeType where
  | FIXED (n : Int)
  | DYNAMIC
  deriving DecidableEq

/-- Modelled from the spec: the block size resolver of `blockmatrix_base.h`, which is not
among the sources. A fixed positive configured value needs the runtime value absent
(`MatrixBlockSizeType::UNDEFINED`, here `none`) or equal to it and is returned; a dynamic
one needs a positive runtime value, which is returned. -/
def resolve (configured : MatrixBlockSizeType) (runtime : Option Int) : Except String Nat :=
  match configured with
  | .FIXED c =>
    if c ≤ 0 then .error "ConfigurationError: non-positive block size"
    else
      match runtime with
      | none => .ok c.toNat
      | some r => if r = c then .ok c.toNat else .error "ConfigurationError: block size mismatch"
  | .DYNAMIC =>
    match runtime with
    | none => .error "ConfigurationError: block size is not set"
    | some r => if 0 < r then .ok r.toNat else .error "ConfigurationError: non-positive block size"

/-- Modelled from the spec: the state of a `BlockMatrixBase<t_MatrixType, t_block_rows_num,
t_block_cols_num, t_sparsity_type>` of `blockmatrix_base.h`, which is not among the
sources: its template parameters and the members the Kronecker classes import with
`using` (`matrix_`, `block_rows_num_`, `block_cols_num_`, `num_blocks_vert_`,
`num_blocks_hor_`).
`block_rows_num_` and `block_cols_num_` are the resolved block dimensions, the values of
`EIGENUT_BLOCKMATRIX_BLOCK_ROWS_NUM` and `EIGENUT_BLOCKMATRIX_BLOCK_COLS_NUM`. -/
structure BlockMatrixBase where
  t_block_rows_num : MatrixBlockSizeType
  t_block_cols_num : MatrixBlockSizeType
  t_sparsity_type : MatrixSparsityType
  matrix_ : DenseMatrix
  block_rows_num_ : Nat
  block_cols_num_ : Nat
  num_blocks_vert_ : Nat
  num_blocks_hor_ : Nat

namespace BlockMatrixBase

/-- Modelled from the spec: the constructor of `BlockMatrixBase` over a raw buffer
(`blockmatrix_base.h` is not among the sources). Both block dimensions are resolved, the
raw shape has to be an exact multiple of them, and the block counts are the quotients. -/
def construct (t_block_rows_num t_block_cols_num : MatrixBlockSizeType)
    (t_sparsity_type : MatrixSparsityType) (matrix : DenseMatrix)
    (block_rows_num block_cols_num : Option Int) : Except String BlockMatrixBase :=
  match resolve t_block_rows_num block_rows_num with
  | .error e => .error e
  | .ok br =>
    match resolve t_block_cols_num block_cols_num with
    | .error e => .error e
    | .ok bc =>
      if matrix.rows % br ≠ 0 then .error "ConfigurationError: wrong block size"
      else if matrix.cols % bc ≠ 0 then .error "ConfigurationError: wrong block size"
      else .ok ⟨t_block_rows_num, t_block_cols_num, t_sparsity_type, matrix, br, bc,
                matrix.rows / br, matrix.cols / bc⟩

/-- Modelled from the spec: the constructor of a block matrix that takes block sizes only
(`GenericBlockMatrix<..> M(block_rows_num, block_cols_num)` of the tests; `blockmatrix.h`
is not among the sources): the block matrix over an owned, empty buffer. -/
def constructWithBlockSize (t_block_rows_num t_block_cols_num : MatrixBlockSizeType)
    (t_sparsity_type : MatrixSparsityType) (block_rows_num block_cols_num : Option Int) :
    Except String BlockMatrixBase :=
  construct t_block_rows_num t_block_cols_num t_sparsity_type DenseMatrix.empty
    block_rows_num block_cols_num

/-- Modelled from the spec: the constructor without arguments, `GenericBlockMatrix<..> M`
of the tests (`blockmatrix.h` and `blockmatrix_base.h` are not among the sources), over an
owned, empty buffer. The spec has no words of its own for this constructor; as in every
construction, each block dimension goes through `resolve` (4.1), here with the runtime
value absent. A fixed dimension is then its configured value, which has to be positive; a
dynamic one is the configuration error of `resolve` (4.1, section 7). The tests also
construct matrices with dynamic dimensions this way and expect no failure, which the words
of the spec do not provide for; no theorem uses that case. -/
def constructDefault (t_block_rows_num t_block_cols_num : MatrixBlockSizeType)
    (t_sparsity_type : MatrixSparsityType) : Except String BlockMatrixBase :=
  match resolve t_block_rows_num none with
  | .error e => .error e
  | .ok br =>
    match resolve t_block_cols_num none with
    | .error e => .error e
    | .ok bc => .ok ⟨t_block_rows_num, t_block_cols_num, t_sparsity_type, DenseMatrix.empty,
                    br, bc, 0, 0⟩

/-- Modelled from the spec: `setBlockSize(block_rows_num, block_cols_num)`
(`blockmatrix_base.h` is not among the sources) resolves both block dimensions again; the
prior contents are invalidated, here the buffer is left with no block. A failed call
leaves the block matrix as it was. -/
def setBlockSize (b : BlockMatrixBase) (block_rows_num block_cols_num : Option Int) :
    Outcome BlockMatrixBase :=
  match resolve b.t_block_rows_num block_rows_num with
  | .error e => (.error e, b)
  | .ok br =>
    match resolve b.t_block_cols_num block_cols_num with
    | .error e => (.error e, b)
    | .ok bc =>
      (.ok (), { b with
        block_rows_num_ := br
        block_cols_num_ := bc
        num_blocks_vert_ := 0
        num_blocks_hor_ := 0
        matrix_ := DenseMatrix.empty })

/-- Modelled from the spec: accessor `getBlockRowsNum()`. -/
def getBlockRowsNum (b : BlockMatrixBase) : Nat := b.block_rows_num_

/-- Modelled from the spec: accessor `getBlockColsNum()`. -/
def getBlockColsNum (b : BlockMatrixBase) : Nat := b.block_cols_num_

/-- Modelled from the spec: accessor `getNumberOfBlocksVertical()`. -/
def getNumberOfBlocksVertical (b : BlockMatrixBase) : Nat := b.num_blocks_vert_

/-- Modelled from the spec: accessor `getNumberOfBlocksHorizontal()`. -/
def getNumberOfBlocksHorizontal (b : BlockMatrixBase) : Nat := b.num_blocks_hor_

/-- Modelled from the spec: accessor `getNumberOfRows()`, the rows of the raw buffer. -/
def getNumberOfRows (b : BlockMatrixBase) : Nat := b.matrix_.rows

/-- Modelled from the spec: accessor `getNumberOfColumns()`, the columns of the raw
buffer. -/
def getNumberOfColumns (b : BlockMatrixBase) : Nat := b.matrix_.cols

/-- Modelled from the spec: the sparsity predicate on block coordinates. -/
def validCoordinate (b : BlockMatrixBase) (i j : Nat) : Bool :=
  match b.t_sparsity_type with
  | .NONE => true
  | .DIAGONAL => decide (i = j)
  | .LEFT_LOWER_TRIANGULAR => decide (j ≤ i)

/-- Modelled from the spec: block access `(*this)(i, j)`, the view of raw rows
`[i*block_rows, (i+1)*block_rows)` and raw columns `[j*block_cols, (j+1)*block_cols)`;
it throws for a coordinate outside the sparsity pattern. -/
def operatorCall (b : BlockMatrixBase) (i j : Nat) : Except String DenseMatrix :=
  if b.validCoordinate i j then
    .ok (b.matrix_.block (i * b.block_rows_num_) (j * b.block_cols_num_)
          b.block_rows_num_ b.block_cols_num_)
  else .error "IndexError: block is outside the sparsity pattern"

/-- Modelled from the spec: single-index access `(*this)(i)` to the `i`-th diagonal
block. -/
def operatorCallDiagonal (b : BlockMatrixBase) (i : Nat) : DenseMatrix :=
  b.matrix_.block (i * b.block_rows_num_) (i * b.block_cols_num_)
    b.block_rows_num_ b.block_cols_num_

/-- Modelled from the spec: `column(j, first)`, one view of the blocks of block column
`j` from block row `first` down, stacked. -/
def columnFrom (b : BlockMatrixBase) (j first : Nat) : DenseMatrix :=
  b.matrix_.block (first * b.block_rows_num_) (j * b.block_cols_num_)
    ((b.num_blocks_vert_ - first) * b.block_rows_num_) b.block_cols_num_

/-- Modelled from the spec: `column(j)`, one view of all the blocks of block column `j`. -/
def column (b : BlockMatrixBase) (j : Nat) : DenseMatrix := b.columnFrom j 0

/-- Modelled from the spec: `resize(num_blocks_vert, num_blocks_hor)` reshapes the buffer
to `num_blocks_vert*block_rows x num_blocks_hor*block_cols`, by the `resize` of the dense
library. -/
def resize (b : BlockMatrixBase) (num_blocks_vert num_blocks_hor : Nat) : BlockMatrixBase :=
  { b with
    num_blocks_vert_ := num_blocks_vert
    num_blocks_hor_ := num_blocks_hor
    matrix_ := b.matrix_.resize (num_blocks_vert * b.block_rows_num_)
                (num_blocks_hor * b.block_cols_num_) }

/-- Modelled from the spec: `setZero(num_blocks_vert, num_blocks_hor)` reshapes the buffer
as `resize` does and fills it with zeros. -/
def setZero (b : BlockMatrixBase) (num_blocks_vert num_blocks_hor : Nat) : BlockMatrixBase :=
  { b with
    num_blocks_vert_ := num_blocks_vert
    num_blocks_hor_ := num_blocks_hor
    matrix_ := b.matrix_.setZero (num_blocks_vert * b.block_rows_num_)
                (num_blocks_hor * b.block_cols_num_) }

/-- Modelled from the spec: the assignment `(*this)(i, j) = value` through the view of
block `(i, j)`, on a block matrix without sparsity. -/
def assignBlock (b : BlockMatrixBase) (i j : Nat) (value : DenseMatrix) : BlockMatrixBase :=
  { b with
    matrix_ := b.matrix_.setBlock (i * b.block_rows_num_) (j * b.block_cols_num_)
                b.block_rows_num_ b.block_cols_num_ value }

/-- The invariant of a constructed block matrix, from the data model of the spec: positive
block dimensions, and a raw shape of `num_blocks_vert_ x num_blocks_hor_` blocks. -/
def Valid (b : BlockMatrixBase) : Prop :=
  0 < b.block_rows_num_ ∧ 0 < b.block_cols_num_ ∧
  b.matrix_.rows = b.num_blocks_vert_ * b.block_rows_num_ ∧
  b.matrix_.cols = b.num_blocks_hor_ * b.block_cols_num_

/-- A diagonal block matrix: diagonal sparsity and as many block columns as block rows
(`dbm.getNumberOfBlocksHorizontal() = num_blocks_hor_`, as the source notes next to the
check `num_blocks_hor_ == dbm.getNumberOfBlocksVertical()`). -/
def ValidDiagonal (b : BlockMatrixBase) : Prop :=
  b.Valid ∧ b.t_sparsity_type = MatrixSparsityType.DIAGONAL ∧
  b.num_blocks_hor_ = b.num_blocks_vert_

/-- The dense block-diagonal matrix that a diagonal block matrix stands for, the
`D.evaluate()` of the spec: the diagonal blocks of the raw buffer, zeros everywhere else. -/
def evaluateDiagonal (b : BlockMatrixBase) : DenseMatrix :=
  ⟨b.matrix_.rows, b.matrix_.cols, fun i j =>
    if i / b.block_rows_num_ = j / b.block_cols_num_ then b.matrix_.coeff i j else 0⟩

instance (b : BlockMatrixBase) : Decidable b.Valid :=
  inferInstanceAs (Decidable (0 < b.block_rows_num_ ∧ 0 < b.block_cols_num_ ∧
    b.matrix_.rows = b.num_blocks_vert_ * b.block_rows_num_ ∧
    b.matrix_.cols = b.num_blocks_hor_ * b.block_cols_num_))

instance (b : BlockMatrixBase) : Decidable b.ValidDiagonal :=
  inferInstanceAs (Decidable (b.Valid ∧ b.t_sparsity_type = MatrixSparsityType.DIAGONAL ∧
    b.num_blocks_hor_ = b.num_blocks_vert_))

end BlockMatrixBase

/-! ## The block Kronecker product (`blockmatrix_kronecker.h`) -/

/-- The state of a `BlockKroneckerProductBase`: the block matrix it derives from and the
member `identity_size_`. -/
structure BlockKroneckerProductBase extends BlockMatrixBase where
  identity_size_ : Nat

namespace BlockKroneckerProductBase

/-- The constructor `BlockKroneckerProductBase(matrix, identity_size, block_rows_num,
block_cols_num)`, the same in the four specialisations: the parent is constructed first,
then `identity_size > 1` is asserted and the value is stored. -/
def construct (t_block_rows_num t_block_cols_num : MatrixBlockSizeType)
    (t_sparsity_type : MatrixSparsityType) (matrix : DenseMatrix) (identity_size : Int)
    (block_rows_num block_cols_num : Option Int) : Except String BlockKroneckerProductBase :=
  match BlockMatrixBase.construct t_block_rows_num t_block_cols_num t_sparsity_type matrix
      block_rows_num block_cols_num with
  | .error e => .error e
  | .ok parent =>
    if identity_size > 1 then .ok ⟨parent, identity_size.toNat⟩
    else .error "Identity size cannot be less than 2."

/-- The constructor called with the raw matrix only: `identity_size` takes its default
argument `1`, the block sizes take `MatrixBlockSizeType::UNDEFINED`. -/
def constructDefault (t_block_rows_num t_block_cols_num : MatrixBlockSizeType)
    (t_sparsity_type : MatrixSparsityType) (matrix : DenseMatrix) :
    Except String BlockKroneckerProductBase :=
  construct t_block_rows_num t_block_cols_num t_sparsity_type matrix 1 none none

/-- The invariant of a constructed Kronecker product: a valid block matrix and an
identity size of at least two. -/
def Valid (K : BlockKroneckerProductBase) : Prop :=
  K.toBlockMatrixBase.Valid ∧ 2 ≤ K.identity_size_

instance (K : BlockKroneckerProductBase) : Decidable K.Valid :=
  inferInstanceAs (Decidable (K.toBlockMatrixBase.Valid ∧ 2 ≤ K.identity_size_))

/-- The body of the innermost loop of `evaluateWithoutInitialization`:
`out.block((primary_block_row + k)*BLOCK_ROWS, (primary_block_col + k)*BLOCK_COLS,
BLOCK_ROWS, BLOCK_COLS) = (*this)(i, j)`. -/
def evaluateStep (K : BlockKroneckerProductBase) (i j : Nat) (out : DenseMatrix) (k : Nat) :
    Outcome DenseMatrix :=
  let primary_block_col := j * K.identity_size_
  let primary_block_row := i * K.identity_size_
  match K.operatorCall i j with
  | .error e => (.error e, out)
  | .ok b =>
    (.ok (), out.setBlock ((primary_block_row + k) * K.block_rows_num_)
      ((primary_block_col + k) * K.block_cols_num_) K.block_rows_num_ K.block_cols_num_ b)

/-- Primary template, `evaluateWithoutInitialization(output)` (lines 54-76). -/
def evaluateWithoutInitialization (K : BlockKroneckerProductBase) (output : DenseMatrix) :
    Outcome DenseMatrix :=
  forLoop 0 K.num_blocks_hor_ (fun out j =>
    forLoop 0 K.num_blocks_vert_ (fun out i =>
      forLoop 0 K.identity_size_ (K.evaluateStep i j) out) out) output

/-- Primary template, `evaluate(output)` on a plain matrix (lines 268-274). -/
def evaluateInto (K : BlockKroneckerProductBase) (output : DenseMatrix) : Outcome DenseMatrix :=
  K.evaluateWithoutInitialization
    (output.setZero (K.identity_size_ * K.matrix_.rows) (K.identity_size_ * K.matrix_.cols))

/-- Primary template, `evaluate()` (lines 252-257). -/
def evaluate (K : BlockKroneckerProductBase) : Except String DenseMatrix :=
  match K.evaluateInto DenseMatrix.empty with
  | (.ok _, output) => .ok output
  | (.error e, _) => .error e

/-- The permutation indices built in `multiplyRight(result, dbm)` (lines 115-128, and
again 420-433). -/
def permutationIndices (K : BlockKroneckerProductBase) : IndexVector :=
  let indices : IndexVector := IndexVector.resize ⟨0, fun _ => 0⟩ (K.identity_size_ * K.matrix_.rows)
  forEach K.identity_size_ (fun indices i =>
    forEach K.num_blocks_vert_ (fun indices j =>
      indices.setSegment (j * K.block_rows_num_ * K.identity_size_ + i * K.block_rows_num_)
        K.block_rows_num_
        (IndexVector.LinSpaced K.block_rows_num_
          ((i : Int) * K.matrix_.rows + (j : Int) * K.block_rows_num_)
          ((i : Int) * K.matrix_.rows + ((j : Int) + 1) * K.block_rows_num_ - 1))) indices)
    indices

/-- Primary template, `multiplyRight(result, dbm)` with a diagonal block matrix
(lines 94-146). -/
def multiplyRight (K : BlockKroneckerProductBase) (result : DenseMatrix) (dbm : BlockMatrixBase) :
    Outcome DenseMatrix :=
  if dbm.getBlockRowsNum ≠ K.block_cols_num_ * K.identity_size_ then
    (.error "Block sizes do not match.", result)
  else if K.num_blocks_hor_ ≠ dbm.getNumberOfBlocksVertical then
    (.error "Numbers of blocks do not match.", result)
  else if K.num_blocks_hor_ * K.block_cols_num_ * K.identity_size_ ≠ dbm.getNumberOfRows then
    (.error "Sizes of matrices do not match.", result)
  else
    let result := result.resize (K.identity_size_ * K.matrix_.rows) dbm.getNumberOfColumns
    if K.num_blocks_hor_ ≠ 0 then
      let indices := K.permutationIndices
      let dbm_block_cols := dbm.getNumberOfColumns / K.num_blocks_hor_
      let result :=
        forEach K.identity_size_ (fun result i =>
          forEach K.num_blocks_hor_ (fun result j =>
            result.setBlock (i * K.matrix_.rows) (dbm_block_cols * j) K.matrix_.rows dbm_block_cols
              ((K.column j).mul
                ((dbm.operatorCallDiagonal j).block (i * K.block_cols_num_) 0
                  K.block_cols_num_ dbm_block_cols))) result) result
      (.ok (), applyTransposedPermutation indices result)
    else (.ok (), result)

/-- One pass of the outer loop of `multiplyRight(result, vector)` (lines 229-241); the
state is `result` and `vector_part`. -/
def multiplyRightVectorStep (K : BlockKroneckerProductBase) (vector : DenseVector)
    (st : DenseVector × DenseVector) (i : Nat) : DenseVector × DenseVector :=
  let vector_part :=
    forEach K.num_blocks_hor_ (fun vector_part j =>
      vector_part.setSegment (j * K.block_cols_num_) K.block_cols_num_
        (vector.segment (j * K.block_cols_num_ * K.identity_size_ + i * K.block_cols_num_)
          K.block_cols_num_)) st.2
  let result_part := K.matrix_.mulVec vector_part
  let result :=
    forEach K.num_blocks_vert_ (fun result j =>
      result.setSegment (j * K.block_rows_num_ * K.identity_size_ + i * K.block_rows_num_)
        K.block_rows_num_ (result_part.segment (j * K.block_rows_num_) K.block_rows_num_)) st.1
  (result, vector_part)

/-- Primary template, `multiplyRight(result, vector)` (lines 212-243); the
lower-triangular specialisation has the same body (lines 465-496). -/
def multiplyRightVector (K : BlockKroneckerProductBase) (result vector : DenseVector) :
    Outcome DenseVector :=
  let result := result.resize (K.identity_size_ * K.matrix_.rows)
  let vector_part := DenseVector.empty.resize K.matrix_.cols
  (.ok (), (forEach K.identity_size_ (K.multiplyRightVectorStep vector) (result, vector_part)).1)

end BlockKroneckerProductBase

/-! ### Specialisation for `MatrixSparsityType::LEFT_LOWER_TRIANGULAR` -/

namespace BlockKroneckerProductBase.LowerTriangular

/-- Lower-triangular specialisation, `evaluateWithoutInitialization(output)`
(lines 360-382): the loop over block rows starts at `i = j`. -/
def evaluateWithoutInitialization (K : BlockKroneckerProductBase) (output : DenseMatrix) :
    Outcome DenseMatrix :=
  forLoop 0 K.num_blocks_hor_ (fun out j =>
    forLoop j K.num_blocks_vert_ (fun out i =>
      forLoop 0 K.identity_size_ (K.evaluateStep i j) out) out) output

/-- Lower-triangular specialisation, `evaluate(output)` on a plain matrix
(lines 521-527). -/
def evaluateInto (K : BlockKroneckerProductBase) (output : DenseMatrix) : Outcome DenseMatrix :=
  evaluateWithoutInitialization K
    (output.setZero (K.identity_size_ * K.matrix_.rows) (K.identity_size_ * K.matrix_.cols))

/-- Lower-triangular specialisation, `evaluate()` (lines 505-510). -/
def evaluate (K : BlockKroneckerProductBase) : Except String DenseMatrix :=
  match evaluateInto K DenseMatrix.empty with
  | (.ok _, output) => .ok output
  | (.error e, _) => .error e

/-- Lower-triangular specialisation, `multiplyRight(result, dbm)` with a diagonal block
matrix (lines 400-451). -/
def multiplyRight (K : BlockKroneckerProductBase) (result : DenseMatrix) (dbm : BlockMatrixBase) :
    Outcome DenseMatrix :=
  if dbm.getBlockRowsNum ≠ K.block_cols_num_ * K.identity_size_ then
    (.error "Block sizes do not match.", result)
  else if K.num_blocks_hor_ ≠ dbm.getNumberOfBlocksVertical then
    (.error "Numbers of blocks do not match.", result)
  else if K.num_blocks_hor_ * K.block_cols_num_ * K.identity_size_ ≠ dbm.getNumberOfRows then
    (.error "Sizes of matrices do not match.", result)
  else
    let result := result.setZero (K.identity_size_ * K.matrix_.rows) dbm.getNumberOfColumns
    if K.num_blocks_hor_ ≠ 0 then
      let indices := K.permutationIndices
      let dbm_block_cols := dbm.getNumberOfColumns / K.num_blocks_hor_
      let result :=
        forEach K.identity_size_ (fun result i =>
          forEach K.num_blocks_hor_ (fun result j =>
            result.setBlock (i * K.matrix_.rows + j * K.block_rows_num_) (dbm_block_cols * j)
              ((K.num_blocks_vert_ - j) * K.block_rows_num_) dbm_block_cols
              ((K.columnFrom j j).mul
                ((dbm.operatorCallDiagonal j).block (i * K.block_cols_num_) 0
                  K.block_cols_num_ dbm_block_cols))) result) result
      (.ok (), applyTransposedPermutation indices result)
    else (.ok (), result)

/-- Lower-triangular specialisation, `multiplyRight(result, vector)` (lines 465-496): the
body is that of the primary template. -/
def multiplyRightVector (K : BlockKroneckerProductBase) (result vector : DenseVector) :
    Outcome DenseVector :=
  let result := result.resize (K.identity_size_ * K.matrix_.rows)
  let vector_part := DenseVector.empty.resize K.matrix_.cols
  (.ok (), (forEach K.identity_size_ (K.multiplyRightVectorStep vector) (result, vector_part)).1)

end BlockKroneckerProductBase.LowerTriangular

/-! ### Specialisation for `1 x 1` blocks -/

namespace BlockKroneckerProductBase.Block1x1

/-- The scalar `(*this)(i, j)` of a block matrix with `1 x 1` blocks. -/
def scalarAt (K : BlockKroneckerProductBase) (i j : Nat) : Except String Int :=
  match K.operatorCall i j with
  | .error e => .error e
  | .ok b => .ok (b.coeff 0 0)

/-- The body of the innermost loop of `evaluateWithoutInitialization` for `1 x 1` blocks:
`out(primary_block_row + k, primary_block_col + k) = (*this)(i, j)`. -/
def evaluateStep (K : BlockKroneckerProductBase) (i j : Nat) (out : DenseMatrix) (k : Nat) :
    Outcome DenseMatrix :=
  let primary_block_col := j * K.identity_size_
  let primary_block_row := i * K.identity_size_
  match scalarAt K i j with
  | .error e => (.error e, out)
  | .ok x => (.ok (), out.setCoeff (primary_block_row + k) (primary_block_col + k) x)

/-- Specialisation for `1 x 1` blocks, `evaluateWithoutInitialization(output)`
(lines 607-627). -/
def evaluateWithoutInitialization (K : BlockKroneckerProductBase) (output : DenseMatrix) :
    Outcome DenseMatrix :=
  forLoop 0 K.num_blocks_hor_ (fun out j =>
    forLoop 0 K.num_blocks_vert_ (fun out i =>
      forLoop 0 K.identity_size_ (evaluateStep K i j) out) out) output

/-- Specialisation for `1 x 1` blocks, `evaluate(output)` on a plain matrix
(lines 740-746). -/
def evaluateInto (K : BlockKroneckerProductBase) (output : DenseMatrix) : Outcome DenseMatrix :=
  evaluateWithoutInitialization K
    (output.setZero (K.identity_size_ * K.matrix_.rows) (K.identity_size_ * K.matrix_.cols))

/-- Specialisation for `1 x 1` blocks, `evaluate()` (lines 724-729). -/
def evaluate (K : BlockKroneckerProductBase) : Except String DenseMatrix :=
  match evaluateInto K DenseMatrix.empty with
  | (.ok _, output) => .ok output
  | (.error e, _) => .error e

/-- The body of the loops that fill `result_bmi` in `multiplyRight(result, dbm)`:
`result_bmi(i,j) = (*this)(i,j) * dbm(j)`. -/
def multiplyRightStep (K : BlockKroneckerProductBase) (dbm : BlockMatrixBase) (j : Nat)
    (result_bmi : BlockMatrixBase) (i : Nat) : Outcome BlockMatrixBase :=
  match scalarAt K i j with
  | .error e => (.error e, result_bmi)
  | .ok x => (.ok (), result_bmi.assignBlock i j (DenseMatrix.scale x (dbm.operatorCallDiagonal j)))

/-- Specialisation for `1 x 1` blocks, `multiplyRight(result, dbm)` with a diagonal block
matrix (lines 645-681). `result_bmi` is a block matrix without sparsity over `result`, its
block size given by the template parameters of `dbm`. -/
def multiplyRight (K : BlockKroneckerProductBase) (result : DenseMatrix) (dbm : BlockMatrixBase) :
    Outcome DenseMatrix :=
  if dbm.getBlockRowsNum ≠ K.identity_size_ then
    (.error "Block sizes do not match.", result)
  else if K.num_blocks_hor_ ≠ dbm.getNumberOfBlocksVertical then
    (.error "Numbers of blocks do not match.", result)
  else if K.num_blocks_hor_ * K.identity_size_ ≠ dbm.getNumberOfRows then
    (.error "Sizes of matrices do not match.", result)
  else
    match BlockMatrixBase.construct dbm.t_block_rows_num dbm.t_block_cols_num
        MatrixSparsityType.NONE result none none with
    | .error e => (.error e, result)
    | .ok result_bmi =>
      let result_bmi := result_bmi.resize K.num_blocks_vert_ dbm.getNumberOfBlocksHorizontal
      if K.num_blocks_hor_ ≠ 0 then
        let out :=
          forLoop 0 dbm.getNumberOfBlocksHorizontal (fun result_bmi j =>
            forLoop 0 K.num_blocks_vert_ (multiplyRightStep K dbm j) result_bmi) result_bmi
        (out.1, out.2.matrix_)
      else (.ok (), result_bmi.matrix_)

/-- The body of the loops of `multiplyRight(result, vector)`:
`result.segment(i*identity_size_, identity_size_) += (*this)(i,j) *
vector.segment(j*identity_size_, identity_size_)`. -/
def multiplyRightVectorStep (K : BlockKroneckerProductBase) (vector : DenseVector) (j : Nat)
    (result : DenseVector) (i : Nat) : Outcome DenseVector :=
  match scalarAt K i j with
  | .error e => (.error e, result)
  | .ok x =>
    (.ok (), result.addSegment (i * K.identity_size_) K.identity_size_
      (DenseVector.scale x (vector.segment (j * K.identity_size_) K.identity_size_)))

/-- Specialisation for `1 x 1` blocks, `multiplyRight(result, vector)` (lines 696-715). -/
def multiplyRightVector (K : BlockKroneckerProductBase) (result vector : DenseVector) :
    Outcome DenseVector :=
  let result := result.setZero (K.identity_size_ * K.matrix_.rows)
  forLoop 0 K.num_blocks_hor_ (fun result j =>
    forLoop 0 K.num_blocks_vert_ (multiplyRightVectorStep K vector j) result) result

end BlockKroneckerProductBase.Block1x1

/-! ### Specialisation for `1 x 1` blocks and `MatrixSparsityType::LEFT_LOWER_TRIANGULAR` -/

namespace BlockKroneckerProductBase.Block1x1LowerTriangular

/-- Specialisation for `1 x 1` blocks and lower-triangular sparsity,
`evaluateWithoutInitialization(output)` (lines 824-844): the loop over rows starts at
`i = j`. -/
def evaluateWithoutInitialization (K : BlockKroneckerProductBase) (output : DenseMatrix) :
    Outcome DenseMatrix :=
  forLoop 0 K.num_blocks_hor_ (fun out j =>
    forLoop j K.num_blocks_vert_ (fun out i =>
      forLoop 0 K.identity_size_ (Block1x1.evaluateStep K i j) out) out) output

/-- Specialisation for `1 x 1` blocks and lower-triangular sparsity, `evaluate(output)` on a
plain matrix (lines 974-980). -/
def evaluateInto (K : BlockKroneckerProductBase) (output : DenseMatrix) : Outcome DenseMatrix :=
  evaluateWithoutInitialization K
    (output.setZero (K.identity_size_ * K.matrix_.rows) (K.identity_size_ * K.matrix_.cols))

/-- Specialisation for `1 x 1` blocks and lower-triangular sparsity, `evaluate()`
(lines 958-963). -/
def evaluate (K : BlockKroneckerProductBase) : Except String DenseMatrix :=
  match evaluateInto K DenseMatrix.empty with
  | (.ok _, output) => .ok output
  | (.error e, _) => .error e

/-- Specialisation for `1 x 1` blocks and lower-triangular sparsity,
`multiplyRight(result, dbm)` with a diagonal block matrix (lines 862-899). -/
def multiplyRight (K : BlockKroneckerProductBase) (result : DenseMatrix) (dbm : BlockMatrixBase) :
    Outcome DenseMatrix :=
  if dbm.getBlockRowsNum ≠ K.identity_size_ then
    (.error "Block sizes do not match.", result)
  else if K.num_blocks_hor_ ≠ dbm.getNumberOfBlocksVertical then
    (.error "Numbers of blocks do not match.", result)
  else if K.num_blocks_hor_ * K.identity_size_ ≠ dbm.getNumberOfRows then
    (.error "Sizes of matrices do not match.", result)
  else
    match BlockMatrixBase.construct dbm.t_block_rows_num dbm.t_block_cols_num
        MatrixSparsityType.NONE result none none with
    | .error e => (.error e, result)
    | .ok result_bmi =>
      let result_bmi := result_bmi.setZero K.num_blocks_vert_ dbm.getNumberOfBlocksHorizontal
      if K.num_blocks_hor_ ≠ 0 then
        let out :=
          forLoop 0 dbm.getNumberOfBlocksHorizontal (fun result_bmi j =>
            forLoop j K.num_blocks_vert_ (Block1x1.multiplyRightStep K dbm j) result_bmi)
            result_bmi
        (out.1, out.2.matrix_)
      else (.ok (), result_bmi.matrix_)

/-- The body of the loops that fill `result_bmi` in `multiplyLeft(result, dbm)`:
`result_bmi(i,j) = dbm(i) * (*this)(i,j)`. -/
def multiplyLeftStep (K : BlockKroneckerProductBase) (dbm : BlockMatrixBase) (j : Nat)
    (result_bmi : BlockMatrixBase) (i : Nat) : Outcome BlockMatrixBase :=
  match Block1x1.scalarAt K i j with
  | .error e => (.error e, result_bmi)
  | .ok x => (.ok (), result_bmi.assignBlock i j (DenseMatrix.scale x (dbm.operatorCallDiagonal i)))

/-- Specialisation for `1 x 1` blocks and lower-triangular sparsity,
`multiplyLeft(result, dbm)` with a diagonal block matrix (lines 914-949). -/
def multiplyLeft (K : BlockKroneckerProductBase) (result : DenseMatrix) (dbm : BlockMatrixBase) :
    Outcome DenseMatrix :=
  if dbm.getBlockRowsNum ≠ K.identity_size_ then
    (.error "Block sizes do not match.", result)
  else if K.num_blocks_hor_ ≠ dbm.getNumberOfBlocksVertical then
    (.error "Numbers of blocks do not match.", result)
  else if K.num_blocks_hor_ * K.identity_size_ ≠ dbm.getNumberOfRows then
    (.error "Sizes of matrices do not match.", result)
  else
    match BlockMatrixBase.construct dbm.t_block_rows_num dbm.t_block_cols_num
        MatrixSparsityType.NONE result none none with
    | .error e => (.error e, result)
    | .ok result_bmi =>
      let result_bmi := result_bmi.setZero K.num_blocks_vert_ dbm.getNumberOfBlocksHorizontal
      if K.num_blocks_hor_ ≠ 0 then
        let out :=
          forLoop 0 K.num_blocks_hor_ (fun result_bmi j =>
            forLoop j dbm.getNumberOfBlocksVertical (multiplyLeftStep K dbm j) result_bmi)
            result_bmi
        (out.1, out.2.matrix_)
      else (.ok (), result_bmi.matrix_)

end BlockKroneckerProductBase.Block1x1LowerTriangular

/-! ## Matrix utilities (`misc.h`) -/

/-- The call `getATA(result, A)` (`misc.h`, lines 82-93): `result` is resized to
`cols(A) x cols(A)`, and pass `i` of the loop assigns
`A.transpose().bottomRows(num_el-i) * A.col(i)` to the part of column `i` from the
diagonal down. -/
def getATA (result A : DenseMatrix) : DenseMatrix :=
  let num_el := A.cols
  let result := result.resize num_el num_el
  forEach num_el (fun result i =>
    result.setBlock i i (num_el - i) 1
      ((A.transpose.bottomRows (num_el - i)).mul (A.col i))) result

/-- The replicating overload `makeBlockDiagonal(input_matrix, num_copies)` (`misc.h`,
lines 301-330), for a non-negative `num_copies`: the empty matrix for `0`, the input for
`1`, and otherwise the zero-filled `num_copies*rows x num_copies*cols` matrix with the
input assigned to the diagonal blocks. -/
def makeBlockDiagonal (input_matrix : DenseMatrix) (num_copies : Nat) : DenseMatrix :=
  match num_copies with
  | 0 => DenseMatrix.empty
  | 1 => input_matrix
  | _ =>
    forEach num_copies (fun output i =>
      output.setBlock (i * input_matrix.rows) (i * input_matrix.cols)
        input_matrix.rows input_matrix.cols input_matrix)
      (DenseMatrix.empty.setZero (num_copies * input_matrix.rows)
        (num_copies * input_matrix.cols))

/-- The loop of `concatenateMatricesVertically` that erases the matrices without
coefficients (`misc.h`, lines 363-370):
`for (i = 0; i < number_of_matrices; ++i) if (!nonempty_matrices[i].size())
{ nonempty_matrices.erase(begin() + i); --number_of_matrices; }`.
The state is `i`, `nonempty_matrices` and `number_of_matrices`; the first argument counts
the passes that may still be made. `i` grows at every pass and `number_of_matrices`
never does, so `number_of_matrices - i` passes are enough for the loop to end. -/
def eraseEmptyLoop : Nat → Nat → List DenseMatrix → Nat → List DenseMatrix × Nat
  | 0, _, nonempty_matrices, number_of_matrices => (nonempty_matrices, number_of_matrices)
  | fuel + 1, i, nonempty_matrices, number_of_matrices =>
    if i < number_of_matrices then
      if (nonempty_matrices.getD i DenseMatrix.empty).size = 0 then
        eraseEmptyLoop fuel (i + 1) (nonempty_matrices.eraseIdx i) (number_of_matrices - 1)
      else eraseEmptyLoop fuel (i + 1) nonempty_matrices number_of_matrices
    else (nonempty_matrices, number_of_matrices)

/-- The call `concatenateMatricesVertically(result, matrices)` (`misc.h`, lines 346-398). -/
def concatenateMatricesVertically (result : DenseMatrix) (matrices : List DenseMatrix) :
    Outcome DenseMatrix :=
  if matrices.length > 0 then
    let erased := eraseEmptyLoop matrices.length 0 matrices matrices.length
    let nonempty_matrices := erased.1
    let number_of_matrices := erased.2
    if number_of_matrices = 0 then (.ok (), result.resize 0 0)
    else
      let number_of_cols := (nonempty_matrices.getD 0 DenseMatrix.empty).cols
      let counted :=
        forLoop 0 number_of_matrices (fun total_number_of_rows i =>
          if number_of_cols ≠ (nonempty_matrices.getD i DenseMatrix.empty).cols then
            (.error "Inconsistent size of input matrices.", total_number_of_rows)
          else
            (.ok (), total_number_of_rows + (nonempty_matrices.getD i DenseMatrix.empty).rows))
          0
      match counted with
      | (.error e, _) => (.error e, result)
      | (.ok _, total_number_of_rows) =>
        let result := result.resize total_number_of_rows number_of_cols
        let filled :=
          forEach number_of_matrices (fun (st : DenseMatrix × Nat) i =>
            (st.1.setBlock st.2 0 (nonempty_matrices.getD i DenseMatrix.empty).rows
                number_of_cols (nonempty_matrices.getD i DenseMatrix.empty),
              st.2 + (nonempty_matrices.getD i DenseMatrix.empty).rows)) (result, 0)
        (.ok (), filled.1)
  else (.ok (), result.resize 0 0)

/-- The value of `row_index` before pass `k` of the loop that fills `result` in
`concatenateMatricesVertically` (`misc.h`, lines 387-392), which is also the value of
`total_number_of_rows` before pass `k` of the loop of lines 379-383: the rows of the first
`k` matrices. -/
def stackedRowIndex (nonempty_matrices : List DenseMatrix) : Nat → Nat
  | 0 => 0
  | k + 1 => stackedRowIndex nonempty_matrices k
      + (nonempty_matrices.getD k DenseMatrix.empty).rows

/-- The call `concatenateMatricesHorizontally(result, matrix1, matrix2)` (`misc.h`,
lines 412-442). `result << matrix1, matrix2` fills `result` from the left: `matrix1`, then
`matrix2` from column `cols(matrix1)` on. -/
def concatenateMatricesHorizontally (result matrix1 matrix2 : DenseMatrix) :
    Outcome DenseMatrix :=
  if matrix1.rows = 0 then (.ok (), matrix2)
  else if matrix2.rows = 0 then (.ok (), matrix1)
  else
    let number_of_rows := matrix1.rows
    let number_of_cols := matrix1.cols + matrix2.cols
    if number_of_rows ≠ matrix2.rows then
      (.error "Inconsistent size of input matrices.", result)
    else
      let result := result.resize number_of_rows number_of_cols
      (.ok (), (result.setBlock 0 0 matrix1.rows matrix1.cols matrix1).setBlock
        0 matrix1.cols matrix2.rows matrix2.cols matrix2)

/-- The call `removeRow(matrix, row_to_remove)` (`misc.h`, lines 515-532) for a
non-negative index. The rows below the removed one are copied one row up, each coefficient
being read before it is overwritten, and `conservativeResize` drops the last row.
`number_of_rows` is `-1` for a matrix without rows; the dense library defines no size below
zero, and the model stops there with an error of its own. -/
def removeRow (matrix : DenseMatrix) (row_to_remove : Nat) : Outcome DenseMatrix :=
  if ¬ (row_to_remove ≤ matrix.rows) then
    (.error "The index of a removed row is greater than the size of the matrix.", matrix)
  else
    let number_of_rows : Int := (matrix.rows : Int) - 1
    let number_of_cols := matrix.cols
    let matrix :=
      if (row_to_remove : Int) < number_of_rows then
        matrix.setBlock row_to_remove 0 (number_of_rows - row_to_remove).toNat number_of_cols
          (matrix.block (row_to_remove + 1) 0 (number_of_rows - row_to_remove).toNat
            number_of_cols)
      else matrix
    if number_of_rows < 0 then (.error "dense library: negative size", matrix)
    else (.ok (), matrix.conservativeResize number_of_rows.toNat number_of_cols)

/-- The call `removeColumn(matrix, column_to_remove)` (`misc.h`, lines 547-564) for a
non-negative index. The assertion compares the index with `matrix.rows()`. The columns to
the right of the removed one are copied one column to the left, each coefficient being read
before it is overwritten, and `conservativeResize` drops the last column.
`number_of_cols` is `-1` for a matrix without columns; the dense library defines no size
below zero, and the model stops there with an error of its own. -/
def removeColumn (matrix : DenseMatrix) (column_to_remove : Nat) : Outcome DenseMatrix :=
  if ¬ (column_to_remove ≤ matrix.rows) then
    (.error "The index of a removed column is greater than the size of the matrix.", matrix)
  else
    let number_of_rows := matrix.rows
    let number_of_cols : Int := (matrix.cols : Int) - 1
    let matrix :=
      if (column_to_remove : Int) < number_of_cols then
        matrix.setBlock 0 column_to_remove number_of_rows
          (number_of_cols - column_to_remove).toNat
          (matrix.block 0 (column_to_remove + 1) number_of_rows
            (number_of_cols - column_to_remove).toNat)
      else matrix
    if number_of_cols < 0 then (.error "dense library: negative size", matrix)
    else (.ok (), matrix.conservativeResize number_of_rows number_of_cols.toNat)

/-- The call `convertLLTtoSymmetric(matrix)` (`misc.h`, lines 190-199): pass `i` of the loop
assigns to the part of row `i` right of the diagonal the same part of row `i` of
`matrix.transpose()`. The loop makes `num_el - 1` passes, none for `num_el = 0`. -/
def convertLLTtoSymmetric (matrix : DenseMatrix) : DenseMatrix :=
  let num_el := matrix.cols
  forEach (num_el - 1) (fun matrix i =>
    matrix.setBlock i (i + 1) 1 (num_el - i - 1)
      (matrix.transpose.block i (i + 1) 1 (num_el - i - 1))) matrix

/-- The call `concatenateMatricesHorizontally(result, matrix1, matrix2, matrix3)`, the
overload with three inputs (`misc.h`, lines 459-500). -/
def concatenateMatricesHorizontally3 (result matrix1 matrix2 matrix3 : DenseMatrix) :
    Outcome DenseMatrix :=
  if matrix1.rows = 0 then concatenateMatricesHorizontally result matrix2 matrix3
  else if matrix2.rows = 0 then concatenateMatricesHorizontally result matrix1 matrix3
  else if matrix3.rows = 0 then concatenateMatricesHorizontally result matrix1 matrix2
  else
    let number_of_rows := matrix1.rows
    let number_of_cols := matrix1.cols + matrix2.cols + matrix3.cols
    if ¬ (number_of_rows = matrix2.rows ∧ number_of_rows = matrix3.rows) then
      (.error "Inconsistent size of input matrices.", result)
    else
      let result := result.resize number_of_rows number_of_cols
      (.ok (), ((result.setBlock 0 0 matrix1.rows matrix1.cols matrix1).setBlock
        0 matrix1.cols matrix2.rows matrix2.cols matrix2).setBlock
        0 (matrix1.cols + matrix2.cols) matrix3.rows matrix3.cols matrix3)

/-- The call `multiplyBlockKroneckerIdentity(input, input_block_rows, input_block_cols,
identity_size)` (`misc.h`, lines 580-618), for positive block dimensions. -/
def multiplyBlockKroneckerIdentity (input : DenseMatrix)
    (input_block_rows input_block_cols identity_size : Nat) : Except String DenseMatrix :=
  if input.rows % input_block_rows ≠ 0 then .error "Wrong block size."
  else if input.cols % input_block_cols ≠ 0 then .error "Wrong block size."
  else
    let num_blocks_vert := input.rows / input_block_rows
    let num_blocks_hor := input.cols / input_block_cols
    let output_block_rows := identity_size * input_block_rows
    let output_block_cols := identity_size * input_block_cols
    let output :=
      DenseMatrix.empty.setZero (identity_size * input.rows) (identity_size * input.cols)
    .ok (forEach num_blocks_vert (fun output i =>
      forEach num_blocks_hor (fun output j =>
        forEach identity_size (fun output k =>
          output.setBlock (i * output_block_rows + k * input_block_rows)
            (j * output_block_cols + k * input_block_cols) input_block_rows input_block_cols
            (input.block (i * input_block_rows) (j * input_block_cols) input_block_rows
              input_block_cols)) output) output) output)

/-- The call `selectRows(matrix, row_step, first_row)` (`misc.h`, lines 638-652) on a
column-major matrix, for `row_step >= 1`: a map over the storage of `matrix` from
`data() + first_row` on, with the inner stride `row_step` and the outer stride `rows`, so
that its coefficient `(i, j)` is `data()[first_row + i*row_step + j*rows]`. The number of
rows is `ceil((rows - first_row) / row_step)`; the difference is taken in `std::size_t`, of
64 bits, and the quotient exactly, as the division in `double` gives it for sizes below
`2^53`. -/
def selectRows (matrix : DenseMatrix) (row_step first_row : Nat) : DenseMatrix :=
  let difference := (((matrix.rows : Int) - (first_row : Int)) % 2 ^ 64).toNat
  ⟨(Int.ceil ((difference : ℚ) / (row_step : ℚ))).toNat, matrix.cols,
    fun i j => matrix.data (first_row + i * row_step + j * matrix.rows)⟩

/-- The class `SelectionMatrix` (`misc.h`, lines 658-685). -/
structure SelectionMatrix where
  step_size_ : Nat
  first_index_ : Nat

/-- The constructor `SelectionMatrix(step_size, first_index)` (`misc.h`, lines 679-684). -/
def SelectionMatrix.construct (step_size first_index : Nat) : SelectionMatrix :=
  ⟨step_size, first_index⟩

/-- The product `selector * matrix` (`misc.h`, lines 698-707). -/
def SelectionMatrix.mul (selector : SelectionMatrix) (matrix : DenseMatrix) : DenseMatrix :=
  selectRows matrix selector.step_size_ selector.first_index_

/-! ## Sample objects -/

/-- A raw `4 x 2` matrix with the entries `1 .. 8`, row by row. -/
def sampleRaw : DenseMatrix := ⟨4, 2, fun i j => 2 * (i : Int) + (j : Int) + 1⟩

/-- The parent block matrix of `sampleFull`: `sampleRaw` in `2 x 1` blocks, no sparsity. -/
def sampleBlocks : BlockMatrixBase :=
  ⟨.FIXED 2, .FIXED 1, .NONE, sampleRaw, 2, 1, 2, 2⟩

/-- The Kronecker product of `Identity(2)` and `sampleRaw` in `2 x 1` blocks, no sparsity. -/
def sampleFull : BlockKroneckerProductBase := ⟨sampleBlocks, 2⟩

/-- The Kronecker product of `Identity(2)` and `sampleRaw` in `2 x 1` blocks, lower
triangular; block `(0, 1)` of the raw buffer, rows `0..1` of column `1`, holds `2` and `4`. -/
def sampleLower : BlockKroneckerProductBase :=
  ⟨⟨.FIXED 2, .FIXED 1, .LEFT_LOWER_TRIANGULAR, sampleRaw, 2, 1, 2, 2⟩, 2⟩

/-- A diagonal block matrix of two `2 x 1` blocks over a raw `4 x 2` matrix. -/
def sampleDiagonal : BlockMatrixBase :=
  ⟨.FIXED 2, .FIXED 1, .DIAGONAL, ⟨4, 2, fun i j => (i : Int) + 3 * (j : Int) + 1⟩, 2, 1, 2, 2⟩

/-- A diagonal block matrix of two `1 x 1` blocks: its block rows are too small for
`sampleFull`. -/
def sampleSmallDiagonal : BlockMatrixBase :=
  ⟨.FIXED 1, .FIXED 1, .DIAGONAL, ⟨2, 2, fun i j => (i : Int) + (j : Int)⟩, 1, 1, 2, 2⟩

/-- A vector of `4 = 2 * cols(sampleRaw)` entries `1, 2, 3, 4`. -/
def sampleVector : DenseVector := ⟨4, fun i => (i : Int) + 1⟩

/-- A vector of `5` entries, one more than `2 * cols(sampleRaw)`. -/
def sampleLongVector : DenseVector := ⟨5, fun i => (i : Int) + 1⟩

/-- A result matrix that already holds something: `1 x 1` with the entry `7`. -/
def sampleResult : DenseMatrix := ⟨1, 1, fun _ _ => 7⟩

/-- The lower-triangular `2 x 2` matrix `[[1, 0], [2, 3]]`. -/
def sampleTriangularRaw : DenseMatrix :=
  ⟨2, 2, fun i j => if i = 0 then (if j = 0 then 1 else 0) else (if j = 0 then 2 else 3)⟩

/-- The Kronecker product of `Identity(2)` and `sampleTriangularRaw` in `1 x 1` blocks,
lower triangular. -/
def sampleScalarLower : BlockKroneckerProductBase :=
  ⟨⟨.FIXED 1, .FIXED 1, .LEFT_LOWER_TRIANGULAR, sampleTriangularRaw, 1, 1, 2, 2⟩, 2⟩

/-- A diagonal block matrix of two `2 x 3` blocks over a raw `4 x 6` matrix: its block rows
have the size `2` of the identity of `sampleScalarLower`, its `6` columns are not the `4`
rows of the expansion. -/
def sampleWideDiagonal : BlockMatrixBase :=
  ⟨.FIXED 2, .FIXED 3, .DIAGONAL, ⟨4, 6, fun i j => (i : Int) + 2 * (j : Int) + 1⟩, 2, 3, 2, 2⟩

/-- The matrix `[2]` as one `1 x 1` block, expanded with `Identity(2)`. -/
def sampleSingleBlock : BlockKroneckerProductBase :=
  ⟨⟨.FIXED 1, .FIXED 1, .NONE, ⟨1, 1, fun _ _ => 2⟩, 1, 1, 1, 1⟩, 2⟩

/-- The `1 x 2` matrix `[[1, 2]]`. -/
def sampleRowPair : DenseMatrix := ⟨1, 2, fun _ j => (j : Int) + 1⟩

/-- The `1 x 3` matrix `[[1, 2, 3]]`: more columns than rows. -/
def sampleRowTriple : DenseMatrix := ⟨1, 3, fun _ j => (j : Int) + 1⟩

/-- The `2 x 2` matrix `[[1, 2], [3, 4]]`. -/
def sampleSquare : DenseMatrix := ⟨2, 2, fun i j => 2 * (i : Int) + (j : Int) + 1⟩

/-- The Kronecker product of `Identity(2)` and `sampleSquare` in `1 x 1` blocks, no
sparsity. -/
def sampleScalarFull : BlockKroneckerProductBase :=
  ⟨⟨.FIXED 1, .FIXED 1, .NONE, sampleSquare, 1, 1, 2, 2⟩, 2⟩

/-- A diagonal block matrix over a raw `4 x 3` matrix in `2 x 1` blocks: two block rows
and three block columns, one block column more than it has diagonal blocks. -/
def sampleDiagonalThreeColumns : BlockMatrixBase :=
  ⟨.FIXED 2, .FIXED 1, .DIAGONAL, ⟨4, 3, fun i j => (i : Int) + 3 * (j : Int) + 1⟩, 2, 1, 2, 3⟩

/-- A diagonal block matrix over a raw `4 x 1` matrix in `2 x 1` blocks: two block rows
and one block column. -/
def sampleDiagonalOneColumn : BlockMatrixBase :=
  ⟨.FIXED 2, .FIXED 1, .DIAGONAL, ⟨4, 1, fun i j => (i : Int) + 3 * (j : Int) + 1⟩, 2, 1, 2, 1⟩

/-- The diagonal block matrix `sampleDiagonal` with both block dimensions dynamic, its
block size `2 x 1` given at construction. -/
def sampleDynamicDiagonal : BlockMatrixBase :=
  ⟨.DYNAMIC, .DYNAMIC, .DIAGONAL, ⟨4, 2, fun i j => (i : Int) + 3 * (j : Int) + 1⟩, 2, 1, 2, 2⟩

/-! ## Theorems -/

/-! ### Index arithmetic -/

theorem block_region_iff {b q q1 r : Nat} (hr : r < b) :
    (q1 * b ≤ q * b + r ∧ q * b + r < q1 * b + b) ↔ q1 = q := by
  constructor
  · rintro ⟨h1, h2⟩
    rcases Nat.lt_trichotomy q1 q with h | h | h
    · exfalso
      have : (q1 + 1) * b ≤ q * b := Nat.mul_le_mul_right b h
      rw [Nat.add_mul, Nat.one_mul] at this
      omega
    · exact h
    · exfalso
      have : (q + 1) * b ≤ q1 * b := Nat.mul_le_mul_right b h
      rw [Nat.add_mul, Nat.one_mul] at this
      omega
  · rintro rfl
    omega

theorem pair_index_eq {s i k i1 k1 : Nat} (hk : k < s) (hk1 : k1 < s) :
    i1 * s + k1 = i * s + k ↔ i1 = i ∧ k1 = k := by
  constructor
  · intro h
    have h1 : i1 = i := (block_region_iff hk).1 ⟨by omega, by omega⟩
    subst h1
    exact ⟨rfl, by omega⟩
  · rintro ⟨rfl, rfl⟩
    rfl

theorem index_decompose {s n b I : Nat} (hI : I < s * (n * b)) :
    ∃ i < n, ∃ k < s, ∃ r < b, I = (i * s + k) * b + r := by
  have hb : 0 < b := by
    rcases Nat.eq_zero_or_pos b with h | h
    · subst h; simp at hI
    · exact h
  have hs : 0 < s := by
    rcases Nat.eq_zero_or_pos s with h | h
    · subst h; simp at hI
    · exact h
  have hq : I / b < n * s := by
    rw [Nat.div_lt_iff_lt_mul hb]
    calc I < s * (n * b) := hI
      _ = n * s * b := by ring
  refine ⟨I / b / s, ?_, I / b % s, Nat.mod_lt _ hs, I % b, Nat.mod_lt _ hb, ?_⟩
  · rw [Nat.div_lt_iff_lt_mul hs]; exact hq
  · have h1 : I / b / s * s + I / b % s = I / b := by
      rw [Nat.mul_comm]; exact Nat.div_add_mod _ _
    rw [h1, Nat.mul_comm]
    exact (Nat.div_add_mod _ _).symm

theorem mem_range'_zero {k n : Nat} : k ∈ List.range' 0 (n - 0) ↔ k < n := by
  simp [List.mem_range'_1]

theorem mem_range'_from {k lo n : Nat} : k ∈ List.range' lo (n - lo) ↔ lo ≤ k ∧ k < n := by
  rw [List.mem_range'_1]; omega

/-! ### Loops -/

theorem forLoopAux_get {σ α : Type} (body : σ → Nat → Outcome σ) (get : σ → α) (l : List Nat)
    (k0 : Nat) (v : α) (c : Prop) [Decidable c]
    (hstep : ∀ st, ∀ k ∈ l, ∃ st1, body st k = (.ok (), st1) ∧
      get st1 = if k = k0 ∧ c then v else get st) (st : σ) :
    ∃ st1, forLoopAux body l st = (.ok (), st1) ∧
      get st1 = if k0 ∈ l ∧ c then v else get st := by
  induction l generalizing st with
  | nil => exact ⟨st, rfl, by simp⟩
  | cons a t ih =>
    obtain ⟨st1, h1, g1⟩ := hstep st a (List.mem_cons_self a t)
    obtain ⟨st2, h2, g2⟩ := ih (fun st k hk => hstep st k (List.mem_cons_of_mem a hk)) st1
    refine ⟨st2, ?_, ?_⟩
    · simp only [forLoopAux, h1, h2]
    · rw [g2, g1]
      by_cases hc : c
      · by_cases ha : a = k0
        · subst ha; simp [hc]
        · have : ¬ k0 = a := fun h => ha h.symm
          simp [hc, ha, this]
      · simp [hc]

theorem forLoopAux_inv {σ : Type} (body : σ → Nat → Outcome σ) (P : σ → Prop) (l : List Nat)
    (hstep : ∀ st, P st → ∀ k ∈ l, ∃ st1, body st k = (.ok (), st1) ∧ P st1)
    (st : σ) (h0 : P st) :
    ∃ st1, forLoopAux body l st = (.ok (), st1) ∧ P st1 := by
  induction l generalizing st with
  | nil => exact ⟨st, rfl, h0⟩
  | cons a t ih =>
    obtain ⟨st1, h1, g1⟩ := hstep st h0 a (List.mem_cons_self a t)
    obtain ⟨st2, h2, g2⟩ := ih (fun st hs k hk => hstep st hs k (List.mem_cons_of_mem a hk)) st1 g1
    exact ⟨st2, by simp only [forLoopAux, h1, h2], g2⟩

theorem foldl_get {σ α : Type} (f : σ → Nat → σ) (get : σ → α) (l : List Nat)
    (k0 : Nat) (v : α) (c : Prop) [Decidable c]
    (hstep : ∀ st, ∀ k ∈ l, get (f st k) = if k = k0 ∧ c then v else get st) (st : σ) :
    get (l.foldl f st) = if k0 ∈ l ∧ c then v else get st := by
  induction l generalizing st with
  | nil => simp
  | cons a t ih =>
    rw [List.foldl_cons, ih (fun st k hk => hstep st k (List.mem_cons_of_mem a hk)),
      hstep st a (List.mem_cons_self a t)]
    by_cases hc : c
    · by_cases ha : a = k0
      · subst ha; simp [hc]
      · have : ¬ k0 = a := fun h => ha h.symm
        simp [hc, ha, this]
    · simp [hc]

theorem foldl_inv {σ : Type} (f : σ → Nat → σ) (P : σ → Prop) (l : List Nat)
    (hstep : ∀ st, P st → ∀ k ∈ l, P (f st k)) (st : σ) (h0 : P st) : P (l.foldl f st) := by
  induction l generalizing st with
  | nil => exact h0
  | cons a t ih =>
    exact ih (fun st hs k hk => hstep st hs k (List.mem_cons_of_mem a hk)) _
      (hstep st h0 a (List.mem_cons_self a t))

theorem forLoop_get {σ α : Type} (body : σ → Nat → Outcome σ) (get : σ → α) (lo hi : Nat)
    (k0 : Nat) (v : α) (c : Prop) [Decidable c]
    (hstep : ∀ st k, lo ≤ k → k < hi → ∃ st1, body st k = (.ok (), st1) ∧
      get st1 = if k = k0 ∧ c then v else get st) (st : σ) :
    ∃ st1, forLoop lo hi body st = (.ok (), st1) ∧
      get st1 = if (lo ≤ k0 ∧ k0 < hi) ∧ c then v else get st := by
  obtain ⟨st1, h1, h2⟩ := forLoopAux_get body get (List.range' lo (hi - lo)) k0 v c
    (fun st k hk => hstep st k (mem_range'_from.1 hk).1 (mem_range'_from.1 hk).2) st
  exact ⟨st1, h1, by simp only [h2, mem_range'_from]⟩

theorem forLoop_inv {σ : Type} (body : σ → Nat → Outcome σ) (P : σ → Prop) (lo hi : Nat)
    (hstep : ∀ st, P st → ∀ k, lo ≤ k → k < hi → ∃ st1, body st k = (.ok (), st1) ∧ P st1)
    (st : σ) (h0 : P st) :
    ∃ st1, forLoop lo hi body st = (.ok (), st1) ∧ P st1 :=
  forLoopAux_inv body P (List.range' lo (hi - lo))
    (fun st hs k hk => hstep st hs k (mem_range'_from.1 hk).1 (mem_range'_from.1 hk).2) st h0

theorem forEach_get {σ α : Type} (body : σ → Nat → σ) (get : σ → α) (n : Nat)
    (k0 : Nat) (v : α) (c : Prop) [Decidable c]
    (hstep : ∀ st k, k < n → get (body st k) = if k = k0 ∧ c then v else get st) (st : σ) :
    get (forEach n body st) = if k0 < n ∧ c then v else get st := by
  unfold forEach
  simp only [foldl_get body get (List.range n) k0 v c
    (fun st k hk => hstep st k (List.mem_range.1 hk)) st, List.mem_range]

theorem forEach_inv {σ : Type} (body : σ → Nat → σ) (P : σ → Prop) (n : Nat)
    (hstep : ∀ st, P st → ∀ k, k < n → P (body st k)) (st : σ) (h0 : P st) :
    P (forEach n body st) :=
  foldl_inv body P (List.range n) (fun st hs k hk => hstep st hs k (List.mem_range.1 hk)) st h0

/-! ### `evaluate`: the expansion in block coordinates -/

/-- Block access returns the view of the block at a coordinate of the sparsity pattern. -/
theorem BlockMatrixBase.operatorCall_ok (b : BlockMatrixBase) {i j : Nat}
    (hv : b.validCoordinate i j = true) :
    b.operatorCall i j = .ok (b.matrix_.block (i * b.block_rows_num_) (j * b.block_cols_num_)
      b.block_rows_num_ b.block_cols_num_) := by
  simp only [BlockMatrixBase.operatorCall, hv, if_true]

namespace BlockKroneckerProductBase

/-- One block assignment of `evaluateWithoutInitialization`, seen from one coefficient. -/
theorem evaluateStep_get (K : BlockKroneckerProductBase) (i1 j1 k1 : Nat)
    (hv : K.validCoordinate i1 j1 = true) (hk1 : k1 < K.identity_size_)
    (out : DenseMatrix) {i j k k2 r c I J : Nat} (hk : k < K.identity_size_)
    (hk2 : k2 < K.identity_size_) (hr : r < K.block_rows_num_) (hc : c < K.block_cols_num_)
    (hI : I = (i * K.identity_size_ + k) * K.block_rows_num_ + r)
    (hJ : J = (j * K.identity_size_ + k2) * K.block_cols_num_ + c) :
    ∃ st1, K.evaluateStep i1 j1 out k1 = (.ok (), st1) ∧
      st1.coeff I J =
        if k1 = k ∧ (i1 = i ∧ (j1 = j ∧ k = k2)) then
          K.matrix_.coeff (i * K.block_rows_num_ + r) (j * K.block_cols_num_ + c)
        else out.coeff I J := by
  subst hI hJ
  have hop := K.operatorCall_ok hv
  refine ⟨_, by simp only [evaluateStep, hop]; rfl, ?_⟩
  simp only [DenseMatrix.setBlock, DenseMatrix.block]
  have e1 := @block_region_iff K.block_rows_num_ (i * K.identity_size_ + k)
    (i1 * K.identity_size_ + k1) r hr
  have e2 := @block_region_iff K.block_cols_num_ (j * K.identity_size_ + k2)
    (j1 * K.identity_size_ + k1) c hc
  have e3 := @pair_index_eq K.identity_size_ i k i1 k1 hk hk1
  have e4 := @pair_index_eq K.identity_size_ j k2 j1 k1 hk2 hk1
  by_cases h : k1 = k ∧ (i1 = i ∧ (j1 = j ∧ k = k2))
  · obtain ⟨rfl, rfl, rfl, rfl⟩ := h
    have h1 := e1.2 rfl
    have h2 := e2.2 rfl
    rw [if_pos ⟨h1.1, h1.2, h2.1, h2.2⟩, if_pos ⟨rfl, rfl, rfl, rfl⟩]
    congr 1 <;> omega
  · rw [if_neg h, if_neg]
    rintro ⟨h1, h2, h3, h4⟩
    have a1 := e3.1 (e1.1 ⟨h1, h2⟩)
    have a2 := e4.1 (e2.1 ⟨h3, h4⟩)
    exact h ⟨a1.2, a1.1, a2.1, a1.2.symm.trans a2.2⟩

/-- One block assignment of `evaluateWithoutInitialization` keeps the shape. -/
theorem evaluateStep_shape (K : BlockKroneckerProductBase) (i1 j1 k1 : Nat)
    (hv : K.validCoordinate i1 j1 = true) (out : DenseMatrix) :
    ∃ st1, K.evaluateStep i1 j1 out k1 = (.ok (), st1) ∧
      st1.rows = out.rows ∧ st1.cols = out.cols := by
  have hop := K.operatorCall_ok hv
  exact ⟨out.setBlock ((i1 * K.identity_size_ + k1) * K.block_rows_num_)
      ((j1 * K.identity_size_ + k1) * K.block_cols_num_) K.block_rows_num_ K.block_cols_num_
      (K.matrix_.block (i1 * K.block_rows_num_) (j1 * K.block_cols_num_) K.block_rows_num_
        K.block_cols_num_), by simp only [evaluateStep, hop], rfl, rfl⟩

/-- The three nested loops of `evaluateWithoutInitialization`, the loop over block rows
starting at `lo j`, when every coordinate that they visit is in the sparsity pattern: they
return, keep the shape, and leave at the coefficient
`(r, c)` of the expanded block `(i*s + k, j*s + k2)` the coefficient `(r, c)` of block
`(i, j)` when `k = k2` and `lo j <= i`, and the old coefficient otherwise. -/
theorem evaluateLoops_spec_in_range (K : BlockKroneckerProductBase) (lo : Nat → Nat)
    (hv : ∀ j < K.num_blocks_hor_, ∀ i < K.num_blocks_vert_, lo j ≤ i →
      K.validCoordinate i j = true) (output : DenseMatrix) :
    ∃ E, forLoop 0 K.num_blocks_hor_ (fun out j =>
        forLoop (lo j) K.num_blocks_vert_ (fun out i =>
          forLoop 0 K.identity_size_ (K.evaluateStep i j) out) out) output = (.ok (), E) ∧
      E.rows = output.rows ∧ E.cols = output.cols ∧
      ∀ i < K.num_blocks_vert_, ∀ j < K.num_blocks_hor_, ∀ k < K.identity_size_,
        ∀ k2 < K.identity_size_, ∀ r < K.block_rows_num_, ∀ c < K.block_cols_num_,
        E.coeff ((i * K.identity_size_ + k) * K.block_rows_num_ + r)
            ((j * K.identity_size_ + k2) * K.block_cols_num_ + c) =
          if k = k2 ∧ lo j ≤ i then
            K.matrix_.coeff (i * K.block_rows_num_ + r) (j * K.block_cols_num_ + c)
          else output.coeff ((i * K.identity_size_ + k) * K.block_rows_num_ + r)
            ((j * K.identity_size_ + k2) * K.block_cols_num_ + c) := by
  obtain ⟨E, hE, hrows, hcols⟩ := forLoop_inv (fun out j =>
        forLoop (lo j) K.num_blocks_vert_ (fun out i =>
          forLoop 0 K.identity_size_ (K.evaluateStep i j) out) out)
      (fun st => st.rows = output.rows ∧ st.cols = output.cols) 0 K.num_blocks_hor_
      (fun st hst j _ hj => forLoop_inv _
        (fun st => st.rows = output.rows ∧ st.cols = output.cols) _ _
        (fun st hst i hi hi2 => forLoop_inv _
          (fun st => st.rows = output.rows ∧ st.cols = output.cols) _ _
          (fun st hst k _ _ => by
            obtain ⟨st1, h1, h2, h3⟩ := K.evaluateStep_shape i j k (hv j hj i hi2 hi) st
            exact ⟨st1, h1, h2.trans hst.1, h3.trans hst.2⟩) st hst) st hst)
      output ⟨rfl, rfl⟩
  refine ⟨E, hE, hrows, hcols, ?_⟩
  intro i hi j hj k hk k2 hk2 r hr c hc
  generalize hI : (i * K.identity_size_ + k) * K.block_rows_num_ + r = I
  generalize hJ : (j * K.identity_size_ + k2) * K.block_cols_num_ + c = J
  obtain ⟨E1, hE1, hc1⟩ := forLoop_get (fun out j =>
        forLoop (lo j) K.num_blocks_vert_ (fun out i =>
          forLoop 0 K.identity_size_ (K.evaluateStep i j) out) out)
      (fun st : DenseMatrix => st.coeff I J) 0 K.num_blocks_hor_ j
      (K.matrix_.coeff (i * K.block_rows_num_ + r) (j * K.block_cols_num_ + c))
      (k = k2 ∧ lo j ≤ i)
      (fun st j1 _ hj1 => by
        obtain ⟨st1, h1, h2⟩ := forLoop_get (fun out i =>
            forLoop 0 K.identity_size_ (K.evaluateStep i j1) out)
          (fun st : DenseMatrix => st.coeff I J) (lo j1) K.num_blocks_vert_ i
          (K.matrix_.coeff (i * K.block_rows_num_ + r) (j * K.block_cols_num_ + c))
          (j1 = j ∧ k = k2)
          (fun st i1 hi1 hi1b => by
            obtain ⟨st1, h1, h2⟩ := forLoop_get (K.evaluateStep i1 j1)
              (fun st : DenseMatrix => st.coeff I J) 0 K.identity_size_ k
              (K.matrix_.coeff (i * K.block_rows_num_ + r) (j * K.block_cols_num_ + c))
              (i1 = i ∧ (j1 = j ∧ k = k2))
              (fun st k1 _ hk1 =>
                K.evaluateStep_get i1 j1 k1 (hv j1 hj1 i1 hi1b hi1) hk1 st hk hk2 hr hc hI.symm
                  hJ.symm)
              st
            refine ⟨st1, h1, ?_⟩
            dsimp only at h2 ⊢
            rw [h2]
            simp only [Nat.zero_le, hk, true_and]) st
        refine ⟨st1, h1, ?_⟩
        dsimp only at h2 ⊢
        rw [h2]
        by_cases hj1 : j1 = j
        · subst hj1
          by_cases hkk : k = k2 <;> by_cases hlo : lo j1 ≤ i <;> simp [hkk, hlo, hi]
        · simp [hj1]) output
  have : E1 = E := (Prod.mk.inj (hE1.symm.trans hE)).2
  subst this
  rw [hc1]
  simp only [Nat.zero_le, hj, true_and]

/-- The three nested loops of `evaluateWithoutInitialization`, the loop over block rows
starting at `lo j`: they return, keep the shape, and leave at the coefficient
`(r, c)` of the expanded block `(i*s + k, j*s + k2)` the coefficient `(r, c)` of block
`(i, j)` when `k = k2` and `lo j <= i`, and the old coefficient otherwise. -/
theorem evaluateLoops_spec (K : BlockKroneckerProductBase) (lo : Nat → Nat)
    (hv : ∀ j i, lo j ≤ i → K.validCoordinate i j = true) (output : DenseMatrix) :
    ∃ E, forLoop 0 K.num_blocks_hor_ (fun out j =>
        forLoop (lo j) K.num_blocks_vert_ (fun out i =>
          forLoop 0 K.identity_size_ (K.evaluateStep i j) out) out) output = (.ok (), E) ∧
      E.rows = output.rows ∧ E.cols = output.cols ∧
      ∀ i < K.num_blocks_vert_, ∀ j < K.num_blocks_hor_, ∀ k < K.identity_size_,
        ∀ k2 < K.identity_size_, ∀ r < K.block_rows_num_, ∀ c < K.block_cols_num_,
        E.coeff ((i * K.identity_size_ + k) * K.block_rows_num_ + r)
            ((j * K.identity_size_ + k2) * K.block_cols_num_ + c) =
          if k = k2 ∧ lo j ≤ i then
            K.matrix_.coeff (i * K.block_rows_num_ + r) (j * K.block_cols_num_ + c)
          else output.coeff ((i * K.identity_size_ + k) * K.block_rows_num_ + r)
            ((j * K.identity_size_ + k2) * K.block_cols_num_ + c) :=
  K.evaluateLoops_spec_in_range lo (fun j _ i _ h => hv j i h) output

/-- Primary template without sparsity: `evaluate()` returns, and in block coordinates the
coefficient `(r, c)` of the expanded block `(i*s + k, j*s + k2)` is the coefficient
`(r, c)` of block `(i, j)` when `k = k2`, and zero otherwise. -/
theorem evaluate_spec (K : BlockKroneckerProductBase)
    (hs : K.t_sparsity_type = MatrixSparsityType.NONE) :
    ∃ E, K.evaluate = .ok E ∧
      E.rows = K.identity_size_ * K.matrix_.rows ∧
      E.cols = K.identity_size_ * K.matrix_.cols ∧
      ∀ i < K.num_blocks_vert_, ∀ j < K.num_blocks_hor_, ∀ k < K.identity_size_,
        ∀ k2 < K.identity_size_, ∀ r < K.block_rows_num_, ∀ c < K.block_cols_num_,
        E.coeff ((i * K.identity_size_ + k) * K.block_rows_num_ + r)
            ((j * K.identity_size_ + k2) * K.block_cols_num_ + c) =
          if k = k2 then
            K.matrix_.coeff (i * K.block_rows_num_ + r) (j * K.block_cols_num_ + c)
          else 0 := by
  obtain ⟨E, hE, hr, hc, hcoef⟩ := K.evaluateLoops_spec (fun _ => 0)
    (fun j i _ => by simp [BlockMatrixBase.validCoordinate, hs])
    (DenseMatrix.empty.setZero (K.identity_size_ * K.matrix_.rows)
      (K.identity_size_ * K.matrix_.cols))
  refine ⟨E, ?_, hr, hc, ?_⟩
  · simp only [evaluate, evaluateInto, evaluateWithoutInitialization, hE]
  · intro i hi j hj k hk k2 hk2 r hr c hc
    rw [hcoef i hi j hj k hk k2 hk2 r hr c hc]
    simp [DenseMatrix.setZero]

/-- Lower-triangular specialisation: `evaluate()` returns, and in block coordinates the
coefficient `(r, c)` of the expanded block `(i*s + k, j*s + k2)` is the coefficient
`(r, c)` of block `(i, j)` when `k = k2` and `j <= i`, and zero otherwise. -/
theorem LowerTriangular.evaluate_lower_spec (K : BlockKroneckerProductBase)
    (hs : K.t_sparsity_type = MatrixSparsityType.LEFT_LOWER_TRIANGULAR) :
    ∃ E, LowerTriangular.evaluate K = .ok E ∧
      E.rows = K.identity_size_ * K.matrix_.rows ∧
      E.cols = K.identity_size_ * K.matrix_.cols ∧
      ∀ i < K.num_blocks_vert_, ∀ j < K.num_blocks_hor_, ∀ k < K.identity_size_,
        ∀ k2 < K.identity_size_, ∀ r < K.block_rows_num_, ∀ c < K.block_cols_num_,
        E.coeff ((i * K.identity_size_ + k) * K.block_rows_num_ + r)
            ((j * K.identity_size_ + k2) * K.block_cols_num_ + c) =
          if k = k2 ∧ j ≤ i then
            K.matrix_.coeff (i * K.block_rows_num_ + r) (j * K.block_cols_num_ + c)
          else 0 := by
  obtain ⟨E, hE, hr, hc, hcoef⟩ := K.evaluateLoops_spec (fun j => j)
    (fun j i h => by simp [BlockMatrixBase.validCoordinate, hs, h])
    (DenseMatrix.empty.setZero (K.identity_size_ * K.matrix_.rows)
      (K.identity_size_ * K.matrix_.cols))
  refine ⟨E, ?_, hr, hc, ?_⟩
  · simp only [LowerTriangular.evaluate, LowerTriangular.evaluateInto,
      LowerTriangular.evaluateWithoutInitialization, hE]
  · intro i hi j hj k hk k2 hk2 r hr c hc
    rw [hcoef i hi j hj k hk k2 hk2 r hr c hc]
    simp [DenseMatrix.setZero]

/-- C1: for a block matrix without sparsity (Full) and an identity size of at least two,
`evaluate()` returns a matrix of shape `(s*rows) x (s*cols)` in which, for every `i`, `j`
and `k < s`, the block at expanded block position `(i*s + k, j*s + k)` is block `(i, j)`
of the matrix, and every coefficient not covered by such a block is zero. -/
theorem evaluate_full_places_blocks (K : BlockKroneckerProductBase) (hK : K.Valid)
    (hs : K.t_sparsity_type = MatrixSparsityType.NONE) :
    ∃ E, K.evaluate = .ok E ∧
      E.rows = K.identity_size_ * K.matrix_.rows ∧
      E.cols = K.identity_size_ * K.matrix_.cols ∧
      (∀ i < K.num_blocks_vert_, ∀ j < K.num_blocks_hor_, ∀ k < K.identity_size_,
        ∃ B, K.operatorCall i j = .ok B ∧
          ∀ r < K.block_rows_num_, ∀ c < K.block_cols_num_,
            E.coeff ((i * K.identity_size_ + k) * K.block_rows_num_ + r)
              ((j * K.identity_size_ + k) * K.block_cols_num_ + c) = B.coeff r c) ∧
      (∀ I < E.rows, ∀ J < E.cols,
        (¬ ∃ i < K.num_blocks_vert_, ∃ j < K.num_blocks_hor_, ∃ k < K.identity_size_,
          (i * K.identity_size_ + k) * K.block_rows_num_ ≤ I ∧
          I < (i * K.identity_size_ + k) * K.block_rows_num_ + K.block_rows_num_ ∧
          (j * K.identity_size_ + k) * K.block_cols_num_ ≤ J ∧
          J < (j * K.identity_size_ + k) * K.block_cols_num_ + K.block_cols_num_) →
        E.coeff I J = 0) := by
  obtain ⟨E, hE, hr, hc, hcoef⟩ := K.evaluate_spec hs
  obtain ⟨⟨_, _, hrows, hcols⟩, _⟩ := hK
  refine ⟨E, hE, hr, hc, ?_, ?_⟩
  · intro i hi j hj k hk
    refine ⟨_, K.operatorCall_ok (by simp [BlockMatrixBase.validCoordinate, hs]), ?_⟩
    intro r hr c hc
    rw [hcoef i hi j hj k hk k hk r hr c hc, if_pos rfl]
    rfl
  · intro I hI J hJ hnot
    rw [hr, hrows] at hI
    rw [hc, hcols] at hJ
    obtain ⟨i, hi, k, hk, r, hr, rfl⟩ := index_decompose hI
    obtain ⟨j, hj, k2, hk2, c, hc, rfl⟩ := index_decompose hJ
    rw [hcoef i hi j hj k hk k2 hk2 r hr c hc]
    by_cases hkk : k = k2
    · subst hkk
      exact absurd ⟨i, hi, j, hj, k, hk, by omega, by omega, by omega, by omega⟩ hnot
    · rw [if_neg hkk]

/-- C5: for a lower-triangular block matrix and an identity size of at least two,
`evaluate()` returns a matrix of shape `(s*rows) x (s*cols)` that holds block `(i, j)` at
expanded block position `(i*s + k, j*s + k)` for every `k < s` and every block coordinate
with `j <= i`, and is zero everywhere else, the positions of the blocks with `i < j`
included, for every content of the raw buffer. -/
theorem LowerTriangular.evaluate_places_lower_blocks (K : BlockKroneckerProductBase)
    (hK : K.Valid) (hs : K.t_sparsity_type = MatrixSparsityType.LEFT_LOWER_TRIANGULAR) :
    ∃ E, LowerTriangular.evaluate K = .ok E ∧
      E.rows = K.identity_size_ * K.matrix_.rows ∧
      E.cols = K.identity_size_ * K.matrix_.cols ∧
      (∀ i < K.num_blocks_vert_, ∀ j < K.num_blocks_hor_, ∀ k < K.identity_size_, j ≤ i →
        ∃ B, K.operatorCall i j = .ok B ∧
          ∀ r < K.block_rows_num_, ∀ c < K.block_cols_num_,
            E.coeff ((i * K.identity_size_ + k) * K.block_rows_num_ + r)
              ((j * K.identity_size_ + k) * K.block_cols_num_ + c) = B.coeff r c) ∧
      (∀ I < E.rows, ∀ J < E.cols,
        (¬ ∃ i < K.num_blocks_vert_, ∃ j < K.num_blocks_hor_, ∃ k < K.identity_size_,
          j ≤ i ∧
          (i * K.identity_size_ + k) * K.block_rows_num_ ≤ I ∧
          I < (i * K.identity_size_ + k) * K.block_rows_num_ + K.block_rows_num_ ∧
          (j * K.identity_size_ + k) * K.block_cols_num_ ≤ J ∧
          J < (j * K.identity_size_ + k) * K.block_cols_num_ + K.block_cols_num_) →
        E.coeff I J = 0) := by
  obtain ⟨E, hE, hr, hc, hcoef⟩ := LowerTriangular.evaluate_lower_spec K hs
  obtain ⟨⟨_, _, hrows, hcols⟩, _⟩ := hK
  refine ⟨E, hE, hr, hc, ?_, ?_⟩
  · intro i hi j hj k hk hji
    refine ⟨_, K.operatorCall_ok (by simp [BlockMatrixBase.validCoordinate, hs, hji]), ?_⟩
    intro r hr c hc
    rw [hcoef i hi j hj k hk k hk r hr c hc, if_pos ⟨rfl, hji⟩]
    rfl
  · intro I hI J hJ hnot
    rw [hr, hrows] at hI
    rw [hc, hcols] at hJ
    obtain ⟨i, hi, k, hk, r, hr, rfl⟩ := index_decompose hI
    obtain ⟨j, hj, k2, hk2, c, hc, rfl⟩ := index_decompose hJ
    rw [hcoef i hi j hj k hk k2 hk2 r hr c hc]
    by_cases hkk : k = k2 ∧ j ≤ i
    · obtain ⟨rfl, hji⟩ := hkk
      exact absurd ⟨i, hi, j, hj, k, hk, hji, by omega, by omega, by omega, by omega⟩ hnot
    · rw [if_neg hkk]

end BlockKroneckerProductBase

/-! ### `multiplyRight` with a diagonal block matrix -/

theorem div_of_block {b q r : Nat} (hr : r < b) : (q * b + r) / b = q :=
  Nat.div_eq_of_lt_le (by omega) (by rw [Nat.succ_mul]; omega)

theorem sum_range_window (f : Nat → Int) (N a w : Nat) (h : a + w ≤ N)
    (hz : ∀ x < N, ¬ (a ≤ x ∧ x < a + w) → f x = 0) :
    ∑ x in Finset.range N, f x = ∑ c in Finset.range w, f (a + c) := by
  obtain ⟨t, rfl⟩ : ∃ t, N = a + (w + t) := ⟨N - a - w, by omega⟩
  rw [Finset.sum_range_add, Finset.sum_range_add]
  have h1 : ∑ x in Finset.range a, f x = 0 :=
    Finset.sum_eq_zero (fun x hx => hz x (by have := Finset.mem_range.1 hx; omega) (by
      have := Finset.mem_range.1 hx; omega))
  have h2 : ∑ x in Finset.range t, f (a + (w + x)) = 0 :=
    Finset.sum_eq_zero (fun x hx => hz _ (by have := Finset.mem_range.1 hx; omega) (by omega))
  rw [h1, h2]; simp

namespace BlockKroneckerProductBase

/-- The entry of `LinSpaced(n, low, low + n - 1)` at `r < n` is `low + r`. -/
theorem LinSpaced_coeff (n : Nat) (low : Int) (r : Nat) (hr : r < n) :
    (IndexVector.LinSpaced n low (low + (n : Int) - 1)).coeff r = low + r := by
  simp only [IndexVector.LinSpaced]
  by_cases h1 : n ≤ 1
  · have : r = 0 := by omega
    subst this
    simp
  · rw [if_neg h1]
    have h2 : (low + (n : Int) - 1 - low) = (n : Int) - 1 := by ring
    have h3 : ((n : Int) - 1) ≠ 0 := by omega
    rw [h2, Int.ediv_self h3]
    ring

/-- The permutation indices: `indices[(j*s + i)*br + r] = i*rows + j*br + r`. -/
theorem permutationIndices_spec (K : BlockKroneckerProductBase) :
    K.permutationIndices.size = K.identity_size_ * K.matrix_.rows ∧
    ∀ i < K.identity_size_, ∀ j < K.num_blocks_vert_, ∀ r < K.block_rows_num_,
      K.permutationIndices.coeff ((j * K.identity_size_ + i) * K.block_rows_num_ + r) =
        ((i * K.matrix_.rows + j * K.block_rows_num_ + r : Nat) : Int) := by
  constructor
  · unfold permutationIndices
    apply forEach_inv _ (fun st : IndexVector => st.size = K.identity_size_ * K.matrix_.rows)
    · intro st hst i _
      apply forEach_inv _ (fun st : IndexVector => st.size = K.identity_size_ * K.matrix_.rows)
      · intro st hst j _
        exact hst
      · exact hst
    · rfl
  · intro i hi j hj r hr
    generalize hI : (j * K.identity_size_ + i) * K.block_rows_num_ + r = I
    unfold permutationIndices
    have key := forEach_get (fun indices i =>
        forEach K.num_blocks_vert_ (fun indices j =>
          indices.setSegment (j * K.block_rows_num_ * K.identity_size_ + i * K.block_rows_num_)
            K.block_rows_num_
            (IndexVector.LinSpaced K.block_rows_num_
              ((i : Int) * K.matrix_.rows + (j : Int) * K.block_rows_num_)
              ((i : Int) * K.matrix_.rows + ((j : Int) + 1) * K.block_rows_num_ - 1))) indices)
      (fun st : IndexVector => st.coeff I) K.identity_size_ i
      (((i * K.matrix_.rows + j * K.block_rows_num_ + r : Nat) : Int)) True
      (fun st i1 hi1 => by
        have key2 := forEach_get (fun indices j =>
            indices.setSegment
              (j * K.block_rows_num_ * K.identity_size_ + i1 * K.block_rows_num_)
              K.block_rows_num_
              (IndexVector.LinSpaced K.block_rows_num_
                ((i1 : Int) * K.matrix_.rows + (j : Int) * K.block_rows_num_)
                ((i1 : Int) * K.matrix_.rows + ((j : Int) + 1) * K.block_rows_num_ - 1)))
          (fun st : IndexVector => st.coeff I) K.num_blocks_vert_ j
          (((i * K.matrix_.rows + j * K.block_rows_num_ + r : Nat) : Int)) (i1 = i)
          (fun st j1 hj1 => by
            have hstart : j1 * K.block_rows_num_ * K.identity_size_ + i1 * K.block_rows_num_
                = (j1 * K.identity_size_ + i1) * K.block_rows_num_ := by ring
            have e1 := @block_region_iff K.block_rows_num_ (j * K.identity_size_ + i)
              (j1 * K.identity_size_ + i1) r hr
            have e2 := @pair_index_eq K.identity_size_ j i j1 i1 hi hi1
            simp only [IndexVector.setSegment, hstart]
            subst hI
            by_cases h : j1 = j ∧ i1 = i
            · obtain ⟨rfl, rfl⟩ := h
              have h1 := e1.2 rfl
              rw [if_pos ⟨h1.1, h1.2⟩, if_pos ⟨rfl, rfl⟩]
              have hlin := LinSpaced_coeff K.block_rows_num_
                ((i1 : Int) * K.matrix_.rows + (j1 : Int) * K.block_rows_num_)
                ((j1 * K.identity_size_ + i1) * K.block_rows_num_ + r -
                  (j1 * K.identity_size_ + i1) * K.block_rows_num_) (by omega)
              have harg : (i1 : Int) * K.matrix_.rows + ((j1 : Int) + 1) * K.block_rows_num_ - 1
                  = (i1 : Int) * K.matrix_.rows + (j1 : Int) * K.block_rows_num_
                    + (K.block_rows_num_ : Int) - 1 := by ring
              rw [harg, hlin]
              have : (j1 * K.identity_size_ + i1) * K.block_rows_num_ + r -
                  (j1 * K.identity_size_ + i1) * K.block_rows_num_ = r := by omega
              rw [this]
              push_cast
              ring
            · rw [if_neg h, if_neg]
              rintro ⟨h1, h2⟩
              exact h (e2.1 (e1.1 ⟨h1, h2⟩))) st
        dsimp only at key2 ⊢
        rw [key2]
        simp [hj])
      (IndexVector.resize ⟨0, fun _ => 0⟩ (K.identity_size_ * K.matrix_.rows))
    rw [key]
    simp [hi]

end BlockKroneckerProductBase

theorem row_region_iff {nv br rows i i1 ib r f : Nat} (hrows : rows = nv * br)
    (hib : ib < nv) (hr : r < br) :
    (i1 * rows + f * br ≤ i * rows + (ib * br + r) ∧
      i * rows + (ib * br + r) < i1 * rows + f * br + (nv - f) * br) ↔ i1 = i ∧ f ≤ ib := by
  have hR : ib * br + r < rows := by
    have : (ib + 1) * br ≤ nv * br := Nat.mul_le_mul_right br hib
    rw [Nat.add_mul, Nat.one_mul] at this
    omega
  constructor
  · rintro ⟨h1, h2⟩
    by_cases hf : f ≤ nv
    · have hsub : (nv - f) * br = nv * br - f * br := Nat.sub_mul nv f br
      have hle : f * br ≤ nv * br := Nat.mul_le_mul_right br hf
      have hi : i1 = i := (block_region_iff hR).1 ⟨by omega, by omega⟩
      subst hi
      refine ⟨rfl, ?_⟩
      by_contra hcon
      have : (ib + 1) * br ≤ f * br := Nat.mul_le_mul_right br (by omega)
      rw [Nat.add_mul, Nat.one_mul] at this
      omega
    · have : nv - f = 0 := by omega
      rw [this, Nat.zero_mul] at h2
      omega
  · rintro ⟨rfl, hf⟩
    have hsub : (nv - f) * br = nv * br - f * br := Nat.sub_mul nv f br
    have hle : f * br ≤ nv * br := Nat.mul_le_mul_right br (by omega)
    have hle2 : f * br ≤ ib * br := Nat.mul_le_mul_right br hf
    omega

namespace BlockKroneckerProductBase

/-- The loops of `multiplyRight(result, dbm)` that fill the striped buffer, the product of
block column `j` taken from block row `fst j` down: the shape is kept, and the coefficient
in row `ib*br + r` of copy `i` and in column `c1` of block column `j` is the product of
row `ib*br + r` of block column `j` with column `c1` of rows `i*bc ..` of the `j`-th
diagonal block when `fst j <= ib`, and the old coefficient otherwise. -/
theorem stripedLoops_spec (K : BlockKroneckerProductBase) (hK : K.toBlockMatrixBase.Valid)
    (dbm : BlockMatrixBase) (dc : Nat) (fst : Nat → Nat) (res0 : DenseMatrix) :
    (forEach K.identity_size_ (fun result i =>
      forEach K.num_blocks_hor_ (fun result j =>
        result.setBlock (i * K.matrix_.rows + fst j * K.block_rows_num_) (dc * j)
          ((K.num_blocks_vert_ - fst j) * K.block_rows_num_) dc
          ((K.columnFrom j (fst j)).mul
            ((dbm.operatorCallDiagonal j).block (i * K.block_cols_num_) 0
              K.block_cols_num_ dc))) result) res0).rows = res0.rows ∧
    (forEach K.identity_size_ (fun result i =>
      forEach K.num_blocks_hor_ (fun result j =>
        result.setBlock (i * K.matrix_.rows + fst j * K.block_rows_num_) (dc * j)
          ((K.num_blocks_vert_ - fst j) * K.block_rows_num_) dc
          ((K.columnFrom j (fst j)).mul
            ((dbm.operatorCallDiagonal j).block (i * K.block_cols_num_) 0
              K.block_cols_num_ dc))) result) res0).cols = res0.cols ∧
    ∀ i < K.identity_size_, ∀ ib < K.num_blocks_vert_, ∀ r < K.block_rows_num_,
      ∀ j < K.num_blocks_hor_, ∀ c1 < dc,
      (forEach K.identity_size_ (fun result i =>
        forEach K.num_blocks_hor_ (fun result j =>
          result.setBlock (i * K.matrix_.rows + fst j * K.block_rows_num_) (dc * j)
            ((K.num_blocks_vert_ - fst j) * K.block_rows_num_) dc
            ((K.columnFrom j (fst j)).mul
              ((dbm.operatorCallDiagonal j).block (i * K.block_cols_num_) 0
                K.block_cols_num_ dc))) result) res0).coeff
          (i * K.matrix_.rows + (ib * K.block_rows_num_ + r)) (dc * j + c1) =
        if fst j ≤ ib then
          ∑ c in Finset.range K.block_cols_num_,
            K.matrix_.coeff (ib * K.block_rows_num_ + r) (j * K.block_cols_num_ + c) *
              dbm.matrix_.coeff (j * dbm.block_rows_num_ + (i * K.block_cols_num_ + c))
                (j * dbm.block_cols_num_ + c1)
        else res0.coeff (i * K.matrix_.rows + (ib * K.block_rows_num_ + r)) (dc * j + c1) := by
  obtain ⟨_, _, hrows, _⟩ := hK
  refine ⟨?_, ?_, ?_⟩
  · apply forEach_inv _ (fun st : DenseMatrix => st.rows = res0.rows)
    · intro st hst i _
      apply forEach_inv _ (fun st : DenseMatrix => st.rows = res0.rows)
      · intro st hst j _
        exact hst
      · exact hst
    · rfl
  · apply forEach_inv _ (fun st : DenseMatrix => st.cols = res0.cols)
    · intro st hst i _
      apply forEach_inv _ (fun st : DenseMatrix => st.cols = res0.cols)
      · intro st hst j _
        exact hst
      · exact hst
    · rfl
  · intro i hi ib hib r hr j hj c1 hc1
    generalize hv : (∑ c in Finset.range K.block_cols_num_,
            K.matrix_.coeff (ib * K.block_rows_num_ + r) (j * K.block_cols_num_ + c) *
              dbm.matrix_.coeff (j * dbm.block_rows_num_ + (i * K.block_cols_num_ + c))
                (j * dbm.block_cols_num_ + c1)) = v
    have key := forEach_get (fun result i =>
        forEach K.num_blocks_hor_ (fun result j =>
          result.setBlock (i * K.matrix_.rows + fst j * K.block_rows_num_) (dc * j)
            ((K.num_blocks_vert_ - fst j) * K.block_rows_num_) dc
            ((K.columnFrom j (fst j)).mul
              ((dbm.operatorCallDiagonal j).block (i * K.block_cols_num_) 0
                K.block_cols_num_ dc))) result)
      (fun st : DenseMatrix =>
        st.coeff (i * K.matrix_.rows + (ib * K.block_rows_num_ + r)) (dc * j + c1))
      K.identity_size_ i v (fst j ≤ ib)
      (fun st i1 _ => by
        have key2 := forEach_get (fun result j =>
            result.setBlock (i1 * K.matrix_.rows + fst j * K.block_rows_num_) (dc * j)
              ((K.num_blocks_vert_ - fst j) * K.block_rows_num_) dc
              ((K.columnFrom j (fst j)).mul
                ((dbm.operatorCallDiagonal j).block (i1 * K.block_cols_num_) 0
                  K.block_cols_num_ dc)))
          (fun st : DenseMatrix =>
            st.coeff (i * K.matrix_.rows + (ib * K.block_rows_num_ + r)) (dc * j + c1))
          K.num_blocks_hor_ j v (i1 = i ∧ fst j ≤ ib)
          (fun st j1 _ => by
            have e1 := @row_region_iff K.num_blocks_vert_ K.block_rows_num_ K.matrix_.rows
              i i1 ib r (fst j1) hrows hib hr
            have e2 := @block_region_iff dc j j1 c1 hc1
            simp only [DenseMatrix.setBlock, Nat.mul_comm dc j1, Nat.mul_comm dc j]
            by_cases h : j1 = j ∧ (i1 = i ∧ fst j ≤ ib)
            · obtain ⟨rfl, rfl, hf⟩ := h
              have h1 := e1.2 ⟨rfl, hf⟩
              have h2 := e2.2 rfl
              rw [if_pos ⟨h1.1, h1.2, h2.1, h2.2⟩, if_pos ⟨rfl, rfl, hf⟩, ← hv]
              simp only [DenseMatrix.mul, BlockMatrixBase.columnFrom, DenseMatrix.block,
                BlockMatrixBase.operatorCallDiagonal]
              apply Finset.sum_congr rfl
              intro c _
              have hle : fst j1 * K.block_rows_num_ ≤ ib * K.block_rows_num_ :=
                Nat.mul_le_mul_right _ hf
              congr 2 <;> omega
            · rw [if_neg h, if_neg]
              rintro ⟨h1, h2, h3, h4⟩
              have a1 := e1.1 ⟨h1, h2⟩
              have a2 := e2.1 ⟨h3, h4⟩
              subst a2
              exact h ⟨rfl, a1⟩) st
        dsimp only at key2 ⊢
        rw [key2]
        simp [hj]) res0
    rw [key]
    simp [hi]

end BlockKroneckerProductBase

theorem col_decompose {n b J : Nat} (hJ : J < n * b) : ∃ j < n, ∃ c < b, J = j * b + c := by
  have hb : 0 < b := by
    rcases Nat.eq_zero_or_pos b with h | h
    · subst h; simp at hJ
    · exact h
  refine ⟨J / b, (Nat.div_lt_iff_lt_mul hb).2 hJ, J % b, Nat.mod_lt _ hb, ?_⟩
  rw [Nat.mul_comm]
  exact (Nat.div_add_mod _ _).symm

namespace BlockKroneckerProductBase

/-- The product of an expansion, given in block coordinates, with the dense form of a
diagonal block matrix whose blocks have `bc*s` rows. -/
theorem product_coeff (K : BlockKroneckerProductBase) (hK : K.Valid) (dbm : BlockMatrixBase)
    (h1 : dbm.block_rows_num_ = K.block_cols_num_ * K.identity_size_)
    (E : DenseMatrix) (hEc : E.cols = K.identity_size_ * K.matrix_.cols) (fst : Nat → Nat)
    (hE : ∀ i < K.num_blocks_vert_, ∀ j < K.num_blocks_hor_, ∀ k < K.identity_size_,
        ∀ k2 < K.identity_size_, ∀ r < K.block_rows_num_, ∀ c < K.block_cols_num_,
        E.coeff ((i * K.identity_size_ + k) * K.block_rows_num_ + r)
            ((j * K.identity_size_ + k2) * K.block_cols_num_ + c) =
          if k = k2 ∧ fst j ≤ i then
            K.matrix_.coeff (i * K.block_rows_num_ + r) (j * K.block_cols_num_ + c)
          else 0) :
    ∀ ib < K.num_blocks_vert_, ∀ k < K.identity_size_, ∀ r < K.block_rows_num_,
      ∀ j < K.num_blocks_hor_, ∀ c1 < dbm.block_cols_num_,
      (E.mul dbm.evaluateDiagonal).coeff ((ib * K.identity_size_ + k) * K.block_rows_num_ + r)
          (j * dbm.block_cols_num_ + c1) =
        if fst j ≤ ib then
          ∑ c in Finset.range K.block_cols_num_,
            K.matrix_.coeff (ib * K.block_rows_num_ + r) (j * K.block_cols_num_ + c) *
              dbm.matrix_.coeff (j * dbm.block_rows_num_ + (k * K.block_cols_num_ + c))
                (j * dbm.block_cols_num_ + c1)
        else 0 := by
  intro ib hib k hk r hr j hj c1 hc1
  obtain ⟨⟨_, hbc, _, hcols⟩, _⟩ := hK
  have hJdiv : (j * dbm.block_cols_num_ + c1) / dbm.block_cols_num_ = j := div_of_block hc1
  have hwin : (j * K.identity_size_ + k) * K.block_cols_num_ + K.block_cols_num_
      ≤ K.identity_size_ * (K.num_blocks_hor_ * K.block_cols_num_) := by
    have h : (j * K.identity_size_ + k + 1) * K.block_cols_num_
        ≤ (K.num_blocks_hor_ * K.identity_size_) * K.block_cols_num_ := by
      apply Nat.mul_le_mul_right
      have : (j + 1) * K.identity_size_ ≤ K.num_blocks_hor_ * K.identity_size_ :=
        Nat.mul_le_mul_right _ hj
      rw [Nat.add_mul, Nat.one_mul] at this
      omega
    calc (j * K.identity_size_ + k) * K.block_cols_num_ + K.block_cols_num_
        = (j * K.identity_size_ + k + 1) * K.block_cols_num_ := by ring
      _ ≤ (K.num_blocks_hor_ * K.identity_size_) * K.block_cols_num_ := h
      _ = K.identity_size_ * (K.num_blocks_hor_ * K.block_cols_num_) := by ring
  simp only [DenseMatrix.mul, hEc, hcols]
  rw [sum_range_window _ _ ((j * K.identity_size_ + k) * K.block_cols_num_) K.block_cols_num_
    hwin]
  · by_cases hf : fst j ≤ ib
    · rw [if_pos hf]
      apply Finset.sum_congr rfl
      intro c hc
      have hc := Finset.mem_range.1 hc
      rw [hE ib hib j hj k hk k hk r hr c hc, if_pos ⟨rfl, hf⟩]
      have hx : (j * K.identity_size_ + k) * K.block_cols_num_ + c
          = j * dbm.block_rows_num_ + (k * K.block_cols_num_ + c) := by rw [h1]; ring
      have hdiv : (j * dbm.block_rows_num_ + (k * K.block_cols_num_ + c)) / dbm.block_rows_num_
          = j := by
        apply div_of_block
        rw [h1]
        have : (k + 1) * K.block_cols_num_ ≤ K.identity_size_ * K.block_cols_num_ :=
          Nat.mul_le_mul_right _ hk
        rw [Nat.add_mul, Nat.one_mul] at this
        rw [Nat.mul_comm K.block_cols_num_]
        omega
      simp only [BlockMatrixBase.evaluateDiagonal, hx, hdiv, hJdiv, if_true]
    · rw [if_neg hf]
      apply Finset.sum_eq_zero
      intro c hc
      have hc := Finset.mem_range.1 hc
      rw [hE ib hib j hj k hk k hk r hr c hc, if_neg (fun h => hf h.2), Int.zero_mul]
  · intro x hx hout
    obtain ⟨j2, hj2, k2, hk2, c2, hc2, rfl⟩ := index_decompose hx
    rw [hE ib hib j2 hj2 k hk k2 hk2 r hr c2 hc2]
    by_cases hjj : j2 = j
    · subst hjj
      by_cases hkk : k = k2
      · subst hkk
        exact absurd ⟨by omega, by omega⟩ hout
      · rw [if_neg (fun h => hkk h.1), Int.zero_mul]
    · have hx2 : (j2 * K.identity_size_ + k2) * K.block_cols_num_ + c2
          = j2 * dbm.block_rows_num_ + (k2 * K.block_cols_num_ + c2) := by rw [h1]; ring
      have hdiv : (j2 * dbm.block_rows_num_ + (k2 * K.block_cols_num_ + c2))
          / dbm.block_rows_num_ = j2 := by
        apply div_of_block
        rw [h1]
        have : (k2 + 1) * K.block_cols_num_ ≤ K.identity_size_ * K.block_cols_num_ :=
          Nat.mul_le_mul_right _ hk2
        rw [Nat.add_mul, Nat.one_mul] at this
        rw [Nat.mul_comm K.block_cols_num_]
        omega
      simp only [BlockMatrixBase.evaluateDiagonal, hx2, hdiv, hJdiv, if_neg hjj, Int.mul_zero]

/-- The striped buffer reordered by the permutation is the product of the expansion with
the dense form of the diagonal block matrix. -/
theorem permuted_striped_eq_product (K : BlockKroneckerProductBase) (hK : K.Valid)
    (dbm : BlockMatrixBase) (hD : dbm.ValidDiagonal)
    (h1 : dbm.block_rows_num_ = K.block_cols_num_ * K.identity_size_)
    (h2 : K.num_blocks_hor_ = dbm.num_blocks_vert_)
    (E : DenseMatrix) (hEr : E.rows = K.identity_size_ * K.matrix_.rows)
    (hEc : E.cols = K.identity_size_ * K.matrix_.cols) (fst : Nat → Nat)
    (hE : ∀ i < K.num_blocks_vert_, ∀ j < K.num_blocks_hor_, ∀ k < K.identity_size_,
        ∀ k2 < K.identity_size_, ∀ r < K.block_rows_num_, ∀ c < K.block_cols_num_,
        E.coeff ((i * K.identity_size_ + k) * K.block_rows_num_ + r)
            ((j * K.identity_size_ + k2) * K.block_cols_num_ + c) =
          if k = k2 ∧ fst j ≤ i then
            K.matrix_.coeff (i * K.block_rows_num_ + r) (j * K.block_cols_num_ + c)
          else 0)
    (res0 : DenseMatrix) (hcols0 : res0.cols = dbm.matrix_.cols)
    (hzero : ∀ I J, (∃ j, ∃ ib, ¬ fst j ≤ ib) → res0.coeff I J = 0) :
    DenseMatrix.Same
      (applyTransposedPermutation K.permutationIndices
        (forEach K.identity_size_ (fun result i =>
          forEach K.num_blocks_hor_ (fun result j =>
            result.setBlock (i * K.matrix_.rows + fst j * K.block_rows_num_)
              (dbm.block_cols_num_ * j)
              ((K.num_blocks_vert_ - fst j) * K.block_rows_num_) dbm.block_cols_num_
              ((K.columnFrom j (fst j)).mul
                ((dbm.operatorCallDiagonal j).block (i * K.block_cols_num_) 0
                  K.block_cols_num_ dbm.block_cols_num_))) result) res0))
      (E.mul dbm.evaluateDiagonal) := by
  obtain ⟨hsr, hsc, hscoef⟩ := K.stripedLoops_spec hK.1 dbm dbm.block_cols_num_ fst res0
  obtain ⟨hps, hpc⟩ := K.permutationIndices_spec
  have hprod := K.product_coeff hK dbm h1 E hEc fst hE
  obtain ⟨⟨_, _, hDrows, hDcols⟩, _, hsq⟩ := hD
  have hKv := hK.1
  obtain ⟨_, _, hrows, _⟩ := hKv
  refine ⟨?_, ?_, ?_⟩
  · exact hps.trans hEr.symm
  · exact hsc.trans hcols0
  · intro I hI J hJ
    replace hI : I < K.identity_size_ * K.matrix_.rows := by rw [← hps]; exact hI
    replace hJ : J < dbm.matrix_.cols := by rw [← hcols0, ← hsc]; exact hJ
    rw [hrows] at hI
    rw [hDcols, hsq, ← h2] at hJ
    obtain ⟨ib, hib, k, hk, r, hr, rfl⟩ := index_decompose hI
    obtain ⟨j, hj, c1, hc1, rfl⟩ := col_decompose hJ
    rw [hprod ib hib k hk r hr j hj c1 hc1]
    simp only [applyTransposedPermutation]
    rw [hpc k hk ib hib r hr, Int.toNat_ofNat, Nat.mul_comm j dbm.block_cols_num_,
      Nat.add_assoc, hscoef k hk ib hib r hr j hj c1 hc1]
    by_cases hf : fst j ≤ ib
    · simp only [if_pos hf, Nat.mul_comm dbm.block_cols_num_ j]
    · rw [if_neg hf, if_neg hf]
      exact hzero _ _ ⟨j, ib, hf⟩

/-- The primary template without sparsity: `multiplyRight(result, dbm)` returns the product
of `evaluate()` with the dense form of `dbm`. -/
theorem multiplyRight_none_eq_product (K : BlockKroneckerProductBase) (hK : K.Valid)
    (hs : K.t_sparsity_type = MatrixSparsityType.NONE)
    (dbm : BlockMatrixBase) (hD : dbm.ValidDiagonal) (result : DenseMatrix)
    (h1 : dbm.getBlockRowsNum = K.block_cols_num_ * K.identity_size_)
    (h2 : K.num_blocks_hor_ = dbm.getNumberOfBlocksVertical)
    (h3 : K.num_blocks_hor_ * K.block_cols_num_ * K.identity_size_ = dbm.getNumberOfRows) :
    ∃ E R, K.evaluate = .ok E ∧ K.multiplyRight result dbm = (.ok (), R) ∧
      R.rows = K.identity_size_ * K.matrix_.rows ∧ R.cols = dbm.getNumberOfColumns ∧
      DenseMatrix.Same R (E.mul dbm.evaluateDiagonal) := by
  obtain ⟨E, hE, hEr, hEc, hcoef⟩ := K.evaluate_spec hs
  have hE2 : ∀ i < K.num_blocks_vert_, ∀ j < K.num_blocks_hor_, ∀ k < K.identity_size_,
        ∀ k2 < K.identity_size_, ∀ r < K.block_rows_num_, ∀ c < K.block_cols_num_,
        E.coeff ((i * K.identity_size_ + k) * K.block_rows_num_ + r)
            ((j * K.identity_size_ + k2) * K.block_cols_num_ + c) =
          if k = k2 ∧ (fun _ : Nat => 0) j ≤ i then
            K.matrix_.coeff (i * K.block_rows_num_ + r) (j * K.block_cols_num_ + c)
          else 0 := by
    intro i hi j hj k hk k2 hk2 r hr c hc
    rw [hcoef i hi j hj k hk k2 hk2 r hr c hc]
    simp
  have hDv := hD
  obtain ⟨⟨_, hdbc, hDrows, hDcols⟩, _, hsq⟩ := hDv
  have hKv := hK.1
  obtain ⟨_, _, hrows, _⟩ := hKv
  have g1 := h1
  have g2 := h2.symm
  have g3 := h3.symm
  simp only [BlockMatrixBase.getBlockRowsNum, BlockMatrixBase.getNumberOfBlocksVertical,
    BlockMatrixBase.getNumberOfRows, BlockMatrixBase.getNumberOfColumns] at h1 h2 h3 ⊢
  by_cases hnh : K.num_blocks_hor_ = 0
  · refine ⟨E, result.resize (K.identity_size_ * K.matrix_.rows) dbm.matrix_.cols, hE, ?_, rfl,
      rfl, ?_⟩
    · simp only [multiplyRight, g1, g2, g3, ne_eq, not_true_eq_false, if_false, hnh,
        BlockMatrixBase.getNumberOfColumns]
    · refine ⟨hEr.symm, rfl, ?_⟩
      intro I _ J hJ
      exfalso
      have : dbm.matrix_.cols = 0 := by rw [hDcols, hsq, ← h2, hnh, Nat.zero_mul]
      simp only [DenseMatrix.resize, this] at hJ
      omega
  · have hdc : dbm.matrix_.cols / K.num_blocks_hor_ = dbm.block_cols_num_ := by
      rw [hDcols, hsq, ← h2]
      exact Nat.mul_div_cancel_left _ (Nat.pos_of_ne_zero hnh)
    have hgen := K.permuted_striped_eq_product hK dbm hD h1 h2 E hEr hEc (fun _ => 0) hE2
      (result.resize (K.identity_size_ * K.matrix_.rows) dbm.matrix_.cols) rfl
      (by rintro _ _ ⟨j, ib, h⟩; exact absurd (Nat.zero_le _) h)
    simp only [Nat.zero_mul, Nat.add_zero, Nat.sub_zero, ← hrows] at hgen
    refine ⟨E, _, hE, ?_, ?_, ?_, hgen⟩
    · simp only [multiplyRight, g1, g2, g3, ne_eq, not_true_eq_false, if_false, hnh,
        not_false_eq_true, if_true, BlockMatrixBase.getNumberOfColumns, hdc,
        BlockMatrixBase.column]
    · exact hgen.1.trans hEr
    · exact hgen.2.1

/-- C2 as amended: for a block matrix without sparsity (Full), an identity size of at least
two and a diagonal block matrix `dbm` with as many block columns as block rows that passes
the three checks, `multiplyRight(result, dbm)` returns and leaves in `result` the product of
`evaluate()` with the dense block-diagonal matrix of `dbm`, of shape
`(s*rows) x cols(dbm)`, whatever `result` held before. -/
theorem multiplyRight_full_eq_product (K : BlockKroneckerProductBase) (hK : K.Valid)
    (hs : K.t_sparsity_type = MatrixSparsityType.NONE)
    (dbm : BlockMatrixBase) (hD : dbm.ValidDiagonal) (result : DenseMatrix)
    (h1 : dbm.getBlockRowsNum = K.block_cols_num_ * K.identity_size_)
    (h2 : K.num_blocks_hor_ = dbm.getNumberOfBlocksVertical)
    (h3 : K.num_blocks_hor_ * K.block_cols_num_ * K.identity_size_ = dbm.getNumberOfRows) :
    ∃ E R, K.evaluate = .ok E ∧ K.multiplyRight result dbm = (.ok (), R) ∧
      R.rows = K.identity_size_ * K.matrix_.rows ∧ R.cols = dbm.getNumberOfColumns ∧
      DenseMatrix.Same R (E.mul dbm.evaluateDiagonal) :=
  K.multiplyRight_none_eq_product hK hs dbm hD result h1 h2 h3

/-- Lower-triangular specialisation: `multiplyRight(result, dbm)` returns the product of
`evaluate()` with the dense block-diagonal matrix of `dbm`. -/
theorem LowerTriangular.multiplyRight_spec (K : BlockKroneckerProductBase) (hK : K.Valid)
    (hs : K.t_sparsity_type = MatrixSparsityType.LEFT_LOWER_TRIANGULAR)
    (dbm : BlockMatrixBase) (hD : dbm.ValidDiagonal) (result : DenseMatrix)
    (h1 : dbm.getBlockRowsNum = K.block_cols_num_ * K.identity_size_)
    (h2 : K.num_blocks_hor_ = dbm.getNumberOfBlocksVertical)
    (h3 : K.num_blocks_hor_ * K.block_cols_num_ * K.identity_size_ = dbm.getNumberOfRows) :
    ∃ E R, LowerTriangular.evaluate K = .ok E ∧
      LowerTriangular.multiplyRight K result dbm = (.ok (), R) ∧
      R.rows = K.identity_size_ * K.matrix_.rows ∧ R.cols = dbm.getNumberOfColumns ∧
      DenseMatrix.Same R (E.mul dbm.evaluateDiagonal) := by
  obtain ⟨E, hE, hEr, hEc, hcoef⟩ := LowerTriangular.evaluate_lower_spec K hs
  have hDv := hD
  obtain ⟨⟨_, hdbc, hDrows, hDcols⟩, _, hsq⟩ := hDv
  have g1 := h1
  have g2 := h2.symm
  have g3 := h3.symm
  simp only [BlockMatrixBase.getBlockRowsNum, BlockMatrixBase.getNumberOfBlocksVertical,
    BlockMatrixBase.getNumberOfRows, BlockMatrixBase.getNumberOfColumns] at h1 h2 h3 ⊢
  by_cases hnh : K.num_blocks_hor_ = 0
  · refine ⟨E, result.setZero (K.identity_size_ * K.matrix_.rows) dbm.matrix_.cols, hE, ?_, rfl,
      rfl, ?_⟩
    · simp only [LowerTriangular.multiplyRight, g1, g2, g3, ne_eq, not_true_eq_false, if_false,
        hnh, BlockMatrixBase.getNumberOfColumns]
    · refine ⟨hEr.symm, rfl, ?_⟩
      intro I _ J hJ
      exfalso
      have : dbm.matrix_.cols = 0 := by rw [hDcols, hsq, ← h2, hnh, Nat.zero_mul]
      simp only [DenseMatrix.setZero, this] at hJ
      omega
  · have hdc : dbm.matrix_.cols / K.num_blocks_hor_ = dbm.block_cols_num_ := by
      rw [hDcols, hsq, ← h2]
      exact Nat.mul_div_cancel_left _ (Nat.pos_of_ne_zero hnh)
    have hgen := K.permuted_striped_eq_product hK dbm hD h1 h2 E hEr hEc (fun j => j) hcoef
      (result.setZero (K.identity_size_ * K.matrix_.rows) dbm.matrix_.cols) rfl
      (fun _ _ _ => rfl)
    refine ⟨E, _, hE, ?_, ?_, ?_, hgen⟩
    · simp only [LowerTriangular.multiplyRight, g1, g2, g3, ne_eq, not_true_eq_false, if_false,
        hnh, not_false_eq_true, if_true, BlockMatrixBase.getNumberOfColumns, hdc]
    · exact hgen.1.trans hEr
    · exact hgen.2.1

/-- C4 as amended: for a lower-triangular block matrix with at least as many block rows as
block columns, an identity size of at least two and a diagonal block matrix `dbm` with as
many block columns as block rows that passes the three checks, `multiplyRight(result, dbm)`
returns and leaves in `result` the product of `evaluate()` with the dense block-diagonal matrix of `dbm`; and the result is the same for
every raw buffer that holds the same blocks `(i, j)` with `j <= i`. -/
theorem LowerTriangular.multiplyRight_eq_product (K : BlockKroneckerProductBase) (hK : K.Valid)
    (hs : K.t_sparsity_type = MatrixSparsityType.LEFT_LOWER_TRIANGULAR)
    (_hshape : K.num_blocks_hor_ ≤ K.num_blocks_vert_)
    (dbm : BlockMatrixBase) (hD : dbm.ValidDiagonal) (result : DenseMatrix)
    (h1 : dbm.getBlockRowsNum = K.block_cols_num_ * K.identity_size_)
    (h2 : K.num_blocks_hor_ = dbm.getNumberOfBlocksVertical)
    (h3 : K.num_blocks_hor_ * K.block_cols_num_ * K.identity_size_ = dbm.getNumberOfRows) :
    ∃ E R, LowerTriangular.evaluate K = .ok E ∧
      LowerTriangular.multiplyRight K result dbm = (.ok (), R) ∧
      R.rows = K.identity_size_ * K.matrix_.rows ∧ R.cols = dbm.getNumberOfColumns ∧
      DenseMatrix.Same R (E.mul dbm.evaluateDiagonal) ∧
      ∀ coeff2 : Nat → Nat → Int,
        (∀ i < K.num_blocks_vert_, ∀ j < K.num_blocks_hor_, j ≤ i →
          ∀ r < K.block_rows_num_, ∀ c < K.block_cols_num_,
            coeff2 (i * K.block_rows_num_ + r) (j * K.block_cols_num_ + c) =
              K.matrix_.coeff (i * K.block_rows_num_ + r) (j * K.block_cols_num_ + c)) →
        ∃ R2, LowerTriangular.multiplyRight
            { K with matrix_ := { K.matrix_ with coeff := coeff2 } } result dbm = (.ok (), R2) ∧
          DenseMatrix.Same R R2 := by
  obtain ⟨E, R, hE, hR, hRr, hRc, hsame⟩ :=
    LowerTriangular.multiplyRight_spec K hK hs dbm hD result h1 h2 h3
  refine ⟨E, R, hE, hR, hRr, hRc, hsame, ?_⟩
  intro coeff2 hagree
  obtain ⟨E2, R2, hE2, hR2, hR2r, hR2c, hsame2⟩ :=
    LowerTriangular.multiplyRight_spec { K with matrix_ := { K.matrix_ with coeff := coeff2 } }
      hK hs dbm hD result h1 h2 h3
  refine ⟨R2, hR2, hRr.trans hR2r.symm, hRc.trans hR2c.symm, ?_⟩
  intro I hI J hJ
  rw [hsame.2.2 I hI J hJ, hsame2.2.2 I (by rw [hR2r]; rw [hRr] at hI; exact hI) J
    (by rw [hR2c]; rw [hRc] at hJ; exact hJ)]
  obtain ⟨E1, hE1, hE1r, hE1c, hcoef1⟩ := LowerTriangular.evaluate_lower_spec K hs
  obtain ⟨E3, hE3, hE3r, hE3c, hcoef3⟩ := LowerTriangular.evaluate_lower_spec
    { K with matrix_ := { K.matrix_ with coeff := coeff2 } } hs
  have e1 : E1 = E := Except.ok.inj (hE1.symm.trans hE)
  have e3 : E3 = E2 := Except.ok.inj (hE3.symm.trans hE2)
  subst e1 e3
  obtain ⟨⟨_, _, hrows, hcols⟩, _⟩ := hK
  simp only [DenseMatrix.mul, hE1c, hE3c]
  apply Finset.sum_congr rfl
  intro x hx
  have hx := Finset.mem_range.1 hx
  rw [hRr, hrows] at hI
  rw [hcols] at hx
  obtain ⟨i, hi, k, hk, r, hr, rfl⟩ := index_decompose hI
  obtain ⟨j, hj, k2, hk2, c, hc, rfl⟩ := index_decompose hx
  rw [hcoef1 i hi j hj k hk k2 hk2 r hr c hc, hcoef3 i hi j hj k hk k2 hk2 r hr c hc]
  by_cases h : k = k2 ∧ j ≤ i
  · rw [if_pos h, if_pos h]
    exact congrArg (· * _) (hagree i hi j hj h.2 r hr c hc).symm
  · rw [if_neg h, if_neg h]

end BlockKroneckerProductBase

/-! ### `multiplyRight` with a vector -/

theorem sum_range_blocks (f : Nat → Int) (n b : Nat) :
    ∑ x in Finset.range (n * b), f x =
      ∑ j in Finset.range n, ∑ c in Finset.range b, f (j * b + c) := by
  induction n with
  | zero => simp
  | succ n ih =>
    rw [Nat.succ_mul, Finset.sum_range_add, ih, Finset.sum_range_succ]

namespace BlockKroneckerProductBase

/-- One pass of the outer loop of `multiplyRight(result, vector)`, seen from one
coefficient of `result`. -/
theorem multiplyRightVectorStep_get (K : BlockKroneckerProductBase)
    (hK : K.toBlockMatrixBase.Valid) (vector : DenseVector) (st : DenseVector × DenseVector)
    (i1 : Nat) (hi1 : i1 < K.identity_size_) {ib k r : Nat} (hib : ib < K.num_blocks_vert_)
    (hk : k < K.identity_size_) (hr : r < K.block_rows_num_) :
    (K.multiplyRightVectorStep vector st i1).1.coeff
        ((ib * K.identity_size_ + k) * K.block_rows_num_ + r) =
      if i1 = k ∧ True then
        ∑ j in Finset.range K.num_blocks_hor_, ∑ c in Finset.range K.block_cols_num_,
          K.matrix_.coeff (ib * K.block_rows_num_ + r) (j * K.block_cols_num_ + c) *
            vector.coeff ((j * K.identity_size_ + k) * K.block_cols_num_ + c)
      else st.1.coeff ((ib * K.identity_size_ + k) * K.block_rows_num_ + r) := by
  obtain ⟨_, _, _, hcols⟩ := hK
  have hvp : ∀ j < K.num_blocks_hor_, ∀ c < K.block_cols_num_,
      (forEach K.num_blocks_hor_ (fun vector_part j =>
        vector_part.setSegment (j * K.block_cols_num_) K.block_cols_num_
          (vector.segment (j * K.block_cols_num_ * K.identity_size_ + i1 * K.block_cols_num_)
            K.block_cols_num_)) st.2).coeff (j * K.block_cols_num_ + c) =
        vector.coeff ((j * K.identity_size_ + i1) * K.block_cols_num_ + c) := by
    intro j hj c hc
    have key := forEach_get (fun (vector_part : DenseVector) j =>
        vector_part.setSegment (j * K.block_cols_num_) K.block_cols_num_
          (vector.segment (j * K.block_cols_num_ * K.identity_size_ + i1 * K.block_cols_num_)
            K.block_cols_num_))
      (fun st : DenseVector => st.coeff (j * K.block_cols_num_ + c)) K.num_blocks_hor_ j
      (vector.coeff ((j * K.identity_size_ + i1) * K.block_cols_num_ + c)) True
      (fun st j1 _ => by
        have e1 := @block_region_iff K.block_cols_num_ j j1 c hc
        simp only [DenseVector.setSegment, DenseVector.segment]
        by_cases h : j1 = j
        · subst h
          have h1 := e1.2 rfl
          rw [if_pos ⟨h1.1, h1.2⟩, if_pos ⟨rfl, trivial⟩]
          congr 1
          have : j1 * K.block_cols_num_ + c - j1 * K.block_cols_num_ = c := by omega
          rw [this]; ring
        · rw [if_neg (show ¬ (j1 = j ∧ True) from fun hh => h hh.1), if_neg]
          rintro ⟨h1, h2⟩
          exact h (e1.1 ⟨h1, h2⟩)) st.2
    rw [key]
    simp [hj]
  simp only [multiplyRightVectorStep]
  generalize (forEach K.num_blocks_hor_ (fun vector_part j =>
        vector_part.setSegment (j * K.block_cols_num_) K.block_cols_num_
          (vector.segment (j * K.block_cols_num_ * K.identity_size_ + i1 * K.block_cols_num_)
            K.block_cols_num_)) st.2) = vp at hvp ⊢
  have key := forEach_get (fun (result : DenseVector) j =>
      result.setSegment (j * K.block_rows_num_ * K.identity_size_ + i1 * K.block_rows_num_)
        K.block_rows_num_
        ((K.matrix_.mulVec vp).segment (j * K.block_rows_num_) K.block_rows_num_))
    (fun st : DenseVector => st.coeff ((ib * K.identity_size_ + k) * K.block_rows_num_ + r))
    K.num_blocks_vert_ ib
    (∑ j in Finset.range K.num_blocks_hor_, ∑ c in Finset.range K.block_cols_num_,
          K.matrix_.coeff (ib * K.block_rows_num_ + r) (j * K.block_cols_num_ + c) *
            vector.coeff ((j * K.identity_size_ + k) * K.block_cols_num_ + c))
    (i1 = k)
    (fun st2 j1 _ => by
      have hstart : j1 * K.block_rows_num_ * K.identity_size_ + i1 * K.block_rows_num_
          = (j1 * K.identity_size_ + i1) * K.block_rows_num_ := by ring
      have e1 := @block_region_iff K.block_rows_num_ (ib * K.identity_size_ + k)
        (j1 * K.identity_size_ + i1) r hr
      have e2 := @pair_index_eq K.identity_size_ ib k j1 i1 hk hi1
      simp only [DenseVector.setSegment, DenseVector.segment, hstart]
      by_cases h : j1 = ib ∧ i1 = k
      · obtain ⟨rfl, rfl⟩ := h
        have h1 := e1.2 rfl
        rw [if_pos ⟨h1.1, h1.2⟩, if_pos ⟨rfl, rfl⟩]
        simp only [DenseMatrix.mulVec, hcols]
        rw [sum_range_blocks]
        apply Finset.sum_congr rfl
        intro j hj
        apply Finset.sum_congr rfl
        intro c hc
        rw [hvp j (Finset.mem_range.1 hj) c (Finset.mem_range.1 hc)]
        congr 2
        omega
      · rw [if_neg h, if_neg]
        rintro ⟨h1, h2⟩
        exact h (e2.1 (e1.1 ⟨h1, h2⟩))) st.1
  rw [key]
  simp [hib]

/-- One pass of the outer loop of `multiplyRight(result, vector)` keeps the size of
`result`. -/
theorem multiplyRightVectorStep_size (K : BlockKroneckerProductBase) (vector : DenseVector)
    (st : DenseVector × DenseVector) (i1 : Nat) :
    (K.multiplyRightVectorStep vector st i1).1.size = st.1.size := by
  simp only [multiplyRightVectorStep]
  apply forEach_inv _ (fun r : DenseVector => r.size = st.1.size)
  · intro r hr j _
    exact hr
  · rfl

/-- The body of `multiplyRight(result, vector)`: `result` gets `s*rows` entries, and entry
`r` of the expanded block row `ib*s + k` is the product of row `ib*br + r` of the raw
matrix with the entries of `vector` at the positions of copy `k`. -/
theorem multiplyRightVector_spec (K : BlockKroneckerProductBase)
    (hK : K.toBlockMatrixBase.Valid) (result vector : DenseVector) :
    ∃ R, K.multiplyRightVector result vector = (.ok (), R) ∧
      R.size = K.identity_size_ * K.matrix_.rows ∧
      ∀ ib < K.num_blocks_vert_, ∀ k < K.identity_size_, ∀ r < K.block_rows_num_,
        R.coeff ((ib * K.identity_size_ + k) * K.block_rows_num_ + r) =
          ∑ j in Finset.range K.num_blocks_hor_, ∑ c in Finset.range K.block_cols_num_,
            K.matrix_.coeff (ib * K.block_rows_num_ + r) (j * K.block_cols_num_ + c) *
              vector.coeff ((j * K.identity_size_ + k) * K.block_cols_num_ + c) := by
  refine ⟨_, rfl, ?_, ?_⟩
  · apply forEach_inv _
      (fun st : DenseVector × DenseVector => st.1.size = K.identity_size_ * K.matrix_.rows)
    · intro st hst i _
      exact (K.multiplyRightVectorStep_size vector st i).trans hst
    · rfl
  · intro ib hib k hk r hr
    have key := forEach_get (K.multiplyRightVectorStep vector)
      (fun st : DenseVector × DenseVector =>
        st.1.coeff ((ib * K.identity_size_ + k) * K.block_rows_num_ + r))
      K.identity_size_ k
      (∑ j in Finset.range K.num_blocks_hor_, ∑ c in Finset.range K.block_cols_num_,
            K.matrix_.coeff (ib * K.block_rows_num_ + r) (j * K.block_cols_num_ + c) *
              vector.coeff ((j * K.identity_size_ + k) * K.block_cols_num_ + c))
      True
      (fun st i1 hi1 => K.multiplyRightVectorStep_get hK vector st i1 hi1 hib hk hr)
      (result.resize (K.identity_size_ * K.matrix_.rows),
        DenseVector.empty.resize K.matrix_.cols)
    dsimp only at key ⊢
    rw [key]
    simp [hk]

/-- The product of an expansion without sparsity, given in block coordinates, with a
vector. -/
theorem mulVec_coeff (K : BlockKroneckerProductBase) (hK : K.toBlockMatrixBase.Valid)
    (E : DenseMatrix) (hEc : E.cols = K.identity_size_ * K.matrix_.cols)
    (hE : ∀ i < K.num_blocks_vert_, ∀ j < K.num_blocks_hor_, ∀ k < K.identity_size_,
        ∀ k2 < K.identity_size_, ∀ r < K.block_rows_num_, ∀ c < K.block_cols_num_,
        E.coeff ((i * K.identity_size_ + k) * K.block_rows_num_ + r)
            ((j * K.identity_size_ + k2) * K.block_cols_num_ + c) =
          if k = k2 then
            K.matrix_.coeff (i * K.block_rows_num_ + r) (j * K.block_cols_num_ + c)
          else 0) (vector : DenseVector) :
    ∀ ib < K.num_blocks_vert_, ∀ k < K.identity_size_, ∀ r < K.block_rows_num_,
      (E.mulVec vector).coeff ((ib * K.identity_size_ + k) * K.block_rows_num_ + r) =
        ∑ j in Finset.range K.num_blocks_hor_, ∑ c in Finset.range K.block_cols_num_,
          K.matrix_.coeff (ib * K.block_rows_num_ + r) (j * K.block_cols_num_ + c) *
            vector.coeff ((j * K.identity_size_ + k) * K.block_cols_num_ + c) := by
  intro ib hib k hk r hr
  obtain ⟨_, _, _, hcols⟩ := hK
  have hN : K.identity_size_ * (K.num_blocks_hor_ * K.block_cols_num_)
      = (K.num_blocks_hor_ * K.identity_size_) * K.block_cols_num_ := by ring
  simp only [DenseMatrix.mulVec, hEc, hcols, hN]
  rw [sum_range_blocks, sum_range_blocks]
  apply Finset.sum_congr rfl
  intro j hj
  have hj := Finset.mem_range.1 hj
  have step : ∀ k2 ∈ Finset.range K.identity_size_,
      (∑ c in Finset.range K.block_cols_num_,
        E.coeff ((ib * K.identity_size_ + k) * K.block_rows_num_ + r)
            ((j * K.identity_size_ + k2) * K.block_cols_num_ + c) *
          vector.coeff ((j * K.identity_size_ + k2) * K.block_cols_num_ + c)) =
      if k = k2 then
        ∑ c in Finset.range K.block_cols_num_,
          K.matrix_.coeff (ib * K.block_rows_num_ + r) (j * K.block_cols_num_ + c) *
            vector.coeff ((j * K.identity_size_ + k2) * K.block_cols_num_ + c)
      else 0 := by
    intro k2 hk2
    have hk2 := Finset.mem_range.1 hk2
    by_cases hkk : k = k2
    · rw [if_pos hkk]
      apply Finset.sum_congr rfl
      intro c hc
      rw [hE ib hib j hj k hk k2 hk2 r hr c (Finset.mem_range.1 hc), if_pos hkk]
    · rw [if_neg hkk]
      apply Finset.sum_eq_zero
      intro c hc
      rw [hE ib hib j hj k hk k2 hk2 r hr c (Finset.mem_range.1 hc), if_neg hkk, Int.zero_mul]
  rw [Finset.sum_congr rfl step, Finset.sum_ite_eq, if_pos (Finset.mem_range.2 hk)]

end BlockKroneckerProductBase

/-! ### Construction and the checks of the multiplications -/

/-- A resolved block dimension is positive. -/
theorem resolve_pos {configured : MatrixBlockSizeType} {runtime : Option Int} {n : Nat}
    (h : resolve configured runtime = .ok n) : 0 < n := by
  unfold resolve at h
  cases configured with
  | FIXED c =>
    simp only at h
    split_ifs at h with hc
    cases runtime with
    | none =>
      simp only at h
      cases h
      omega
    | some r =>
      simp only at h
      split_ifs at h
      cases h
      omega
  | DYNAMIC =>
    cases runtime with
    | none => simp at h
    | some r =>
      simp only at h
      split_ifs at h with hr
      cases h
      omega

/-- A block matrix that its constructor returns satisfies the invariant. -/
theorem BlockMatrixBase.construct_block_matrix_valid {tr tc : MatrixBlockSizeType}
    {sp : MatrixSparsityType} {matrix : DenseMatrix} {br bc : Option Int}
    {b : BlockMatrixBase} (h : BlockMatrixBase.construct tr tc sp matrix br bc = .ok b) :
    b.Valid ∧ b.matrix_ = matrix ∧ b.t_sparsity_type = sp := by
  unfold BlockMatrixBase.construct at h
  cases h1 : resolve tr br with
  | error e => simp [h1] at h
  | ok n =>
    cases h2 : resolve tc bc with
    | error e => simp [h1, h2] at h
    | ok m =>
      simp only [h1, h2] at h
      split_ifs at h with hr hc
      cases h
      refine ⟨⟨resolve_pos h1, resolve_pos h2, ?_, ?_⟩, rfl, rfl⟩
      · exact (Nat.div_mul_cancel (Nat.dvd_of_mod_eq_zero (not_not.1 hr))).symm
      · exact (Nat.div_mul_cancel (Nat.dvd_of_mod_eq_zero (not_not.1 hc))).symm

namespace BlockKroneckerProductBase

/-- A Kronecker product that its constructor returns satisfies the invariant. -/
theorem construct_valid {tr tc : MatrixBlockSizeType} {sp : MatrixSparsityType}
    {matrix : DenseMatrix} {identity_size : Int} {br bc : Option Int}
    {K : BlockKroneckerProductBase}
    (h : construct tr tc sp matrix identity_size br bc = .ok K) :
    K.Valid ∧ K.matrix_ = matrix ∧ K.t_sparsity_type = sp := by
  unfold construct at h
  cases hp : BlockMatrixBase.construct tr tc sp matrix br bc with
  | error e => simp [hp] at h
  | ok parent =>
    simp only [hp] at h
    split_ifs at h with hs
    cases h
    obtain ⟨hv, hm, hsp⟩ := BlockMatrixBase.construct_block_matrix_valid hp
    exact ⟨⟨hv, by show 2 ≤ identity_size.toNat; omega⟩, hm, hsp⟩

/-- C7: over a raw matrix that the block matrix constructor accepts, constructing the
Kronecker product fails if and only if `identity_size <= 1`; for `identity_size >= 2` it
returns the product over that block matrix with the given `identity_size` stored; and the
default argument, `identity_size = 1`, is rejected. -/
theorem construct_fails_iff_identity_size_le_one (tr tc : MatrixBlockSizeType)
    (sp : MatrixSparsityType) (matrix : DenseMatrix) (br bc : Option Int)
    (parent : BlockMatrixBase)
    (hparent : BlockMatrixBase.construct tr tc sp matrix br bc = .ok parent)
    (identity_size : Int) :
    ((∃ e, construct tr tc sp matrix identity_size br bc = .error e) ↔ identity_size ≤ 1) ∧
    (2 ≤ identity_size →
      ∃ K, construct tr tc sp matrix identity_size br bc = .ok K ∧
        (K.identity_size_ : Int) = identity_size ∧ K.toBlockMatrixBase = parent) ∧
    (br = none → bc = none → ∃ e, constructDefault tr tc sp matrix = .error e) := by
  refine ⟨?_, ?_, ?_⟩
  · unfold construct
    rw [hparent]
    by_cases hs : identity_size > 1
    · simp only [hs, if_true]
      constructor
      · rintro ⟨e, he⟩
        cases he
      · intro h
        omega
    · simp only [hs, if_false]
      exact ⟨fun _ => by omega, fun _ => ⟨_, rfl⟩⟩
  · intro hs
    refine ⟨⟨parent, identity_size.toNat⟩, ?_, ?_, rfl⟩
    · unfold construct
      rw [hparent]
      simp only [show identity_size > 1 by omega, if_true]
    · exact Int.toNat_of_nonneg (by omega)
  · rintro rfl rfl
    unfold constructDefault construct
    rw [hparent]
    exact ⟨_, rfl⟩

/-- Witness of C7 on `sampleRaw` in fixed `2 x 1` blocks with `identity_size = 3`. -/
theorem construct_fails_iff_identity_size_le_one_witness :
    BlockMatrixBase.construct (.FIXED 2) (.FIXED 1) .NONE sampleRaw none none
        = .ok sampleBlocks ∧
    (((∃ e, construct (.FIXED 2) (.FIXED 1) .NONE sampleRaw 3 none none = .error e) ↔
        (3 : Int) ≤ 1) ∧
      ((2 : Int) ≤ 3 →
        ∃ K, construct (.FIXED 2) (.FIXED 1) .NONE sampleRaw 3 none none = .ok K ∧
          (K.identity_size_ : Int) = 3 ∧ K.toBlockMatrixBase = sampleBlocks) ∧
      ((none : Option Int) = none → (none : Option Int) = none →
        ∃ e, constructDefault (.FIXED 2) (.FIXED 1) .NONE sampleRaw = .error e)) :=
  ⟨rfl, construct_fails_iff_identity_size_le_one (.FIXED 2) (.FIXED 1) .NONE sampleRaw none none
    sampleBlocks rfl 3⟩

/-- C8: `multiplyRight(result, dbm)` with a diagonal block matrix, in the primary template
and in the lower-triangular specialisation, throws if and only if the block-row size of
`dbm` differs from `s*blockCols`, or its vertical block count differs from the horizontal
block count of the matrix, or its row count differs from `numBlocksHor*s*blockCols`. -/
theorem multiplyRight_fails_iff_check_fails (K : BlockKroneckerProductBase)
    (result : DenseMatrix) (dbm : BlockMatrixBase) :
    ((∃ e, (K.multiplyRight result dbm).1 = .error e) ↔
      (dbm.getBlockRowsNum ≠ K.identity_size_ * K.block_cols_num_ ∨
        dbm.getNumberOfBlocksVertical ≠ K.num_blocks_hor_ ∨
        dbm.getNumberOfRows ≠ K.num_blocks_hor_ * K.identity_size_ * K.block_cols_num_)) ∧
    ((∃ e, (LowerTriangular.multiplyRight K result dbm).1 = .error e) ↔
      (dbm.getBlockRowsNum ≠ K.identity_size_ * K.block_cols_num_ ∨
        dbm.getNumberOfBlocksVertical ≠ K.num_blocks_hor_ ∨
        dbm.getNumberOfRows ≠ K.num_blocks_hor_ * K.identity_size_ * K.block_cols_num_)) := by
  have e1 : K.identity_size_ * K.block_cols_num_ = K.block_cols_num_ * K.identity_size_ :=
    Nat.mul_comm _ _
  have e3 : K.num_blocks_hor_ * K.identity_size_ * K.block_cols_num_
      = K.num_blocks_hor_ * K.block_cols_num_ * K.identity_size_ := by ring
  rw [e1, e3]
  constructor
  · unfold multiplyRight
    split_ifs with c1 c2 c3 c4
    · exact ⟨fun _ => Or.inl c1, fun _ => ⟨_, rfl⟩⟩
    · exact ⟨fun _ => Or.inr (Or.inl (Ne.symm c2)), fun _ => ⟨_, rfl⟩⟩
    · exact ⟨fun _ => Or.inr (Or.inr (Ne.symm c3)), fun _ => ⟨_, rfl⟩⟩
    · refine ⟨fun ⟨e, he⟩ => (by cases he), fun h => ?_⟩
      rcases h with h | h | h
      · exact absurd h c1
      · exact absurd (Ne.symm h) c2
      · exact absurd (Ne.symm h) c3
    · refine ⟨fun ⟨e, he⟩ => (by cases he), fun h => ?_⟩
      rcases h with h | h | h
      · exact absurd h c1
      · exact absurd (Ne.symm h) c2
      · exact absurd (Ne.symm h) c3
  · unfold LowerTriangular.multiplyRight
    split_ifs with c1 c2 c3 c4
    · exact ⟨fun _ => Or.inl c1, fun _ => ⟨_, rfl⟩⟩
    · exact ⟨fun _ => Or.inr (Or.inl (Ne.symm c2)), fun _ => ⟨_, rfl⟩⟩
    · exact ⟨fun _ => Or.inr (Or.inr (Ne.symm c3)), fun _ => ⟨_, rfl⟩⟩
    · refine ⟨fun ⟨e, he⟩ => (by cases he), fun h => ?_⟩
      rcases h with h | h | h
      · exact absurd h c1
      · exact absurd (Ne.symm h) c2
      · exact absurd (Ne.symm h) c3
    · refine ⟨fun ⟨e, he⟩ => (by cases he), fun h => ?_⟩
      rcases h with h | h | h
      · exact absurd h c1
      · exact absurd (Ne.symm h) c2
      · exact absurd (Ne.symm h) c3

end BlockKroneckerProductBase

/-- Three leading checks, each returning the untouched output argument with an error:
when one of them fires, the call throws and the output argument is as it was. -/
theorem failed_check_outcome {σ : Type} (c1 c2 c3 : Prop) [Decidable c1] [Decidable c2]
    [Decidable c3] (m1 m2 m3 : String) (result : σ) (rest : Outcome σ) (h : c1 ∨ c2 ∨ c3) :
    (∃ e, (if c1 then (Except.error m1, result)
        else if c2 then (Except.error m2, result)
        else if c3 then (Except.error m3, result) else rest).1 = .error e) ∧
    (if c1 then (Except.error m1, result)
        else if c2 then (Except.error m2, result)
        else if c3 then (Except.error m3, result) else rest).2 = result := by
  by_cases h1 : c1
  · rw [if_pos h1]; exact ⟨⟨_, rfl⟩, rfl⟩
  · rw [if_neg h1]
    by_cases h2 : c2
    · rw [if_pos h2]; exact ⟨⟨_, rfl⟩, rfl⟩
    · rw [if_neg h2]
      have h3 : c3 := by
        rcases h with h | h | h
        · exact absurd h h1
        · exact absurd h h2
        · exact h
      rw [if_pos h3]; exact ⟨⟨_, rfl⟩, rfl⟩

namespace BlockKroneckerProductBase

/-- The general-block `multiplyRight(result, vector)` returns the product of `evaluate()`
with `vector`, of which it reads the leading `s*cols` entries. -/
theorem multiplyRightVector_eq_mulVec (K : BlockKroneckerProductBase) (hK : K.Valid)
    (hs : K.t_sparsity_type = MatrixSparsityType.NONE) (result vector : DenseVector) :
    ∃ E R, K.evaluate = .ok E ∧ K.multiplyRightVector result vector = (.ok (), R) ∧
      R.size = K.identity_size_ * K.matrix_.rows ∧ DenseVector.Same R (E.mulVec vector) := by
  obtain ⟨E, hE, hEr, hEc, hcoef⟩ := K.evaluate_spec hs
  obtain ⟨R, hR, hRs, hRc⟩ := K.multiplyRightVector_spec hK.1 result vector
  have hprod := K.mulVec_coeff hK.1 E hEc hcoef vector
  refine ⟨E, R, hE, hR, hRs, hRs.trans hEr.symm, ?_⟩
  intro I hI
  rw [hRs, hK.1.2.2.1] at hI
  obtain ⟨ib, hib, k, hk, r, hr, rfl⟩ := index_decompose hI
  rw [hRc ib hib k hk r hr, hprod ib hib k hk r hr]

/-- C3: for a block matrix without sparsity (Full), an identity size of at least two and a
vector of length `s*cols`, `multiplyRight(result, vector)` returns and leaves in `result`
the vector `evaluate() * vector`, of length `s*rows`. -/
theorem multiplyRightVector_full_eq_product (K : BlockKroneckerProductBase) (hK : K.Valid)
    (hs : K.t_sparsity_type = MatrixSparsityType.NONE) (result vector : DenseVector)
    (_hlen : vector.size = K.identity_size_ * K.matrix_.cols) :
    ∃ E R, K.evaluate = .ok E ∧ K.multiplyRightVector result vector = (.ok (), R) ∧
      R.size = K.identity_size_ * K.matrix_.rows ∧ DenseVector.Same R (E.mulVec vector) :=
  K.multiplyRightVector_eq_mulVec hK hs result vector

/-- C6, the code at the failing input `sampleLower`, `sampleVector`: the lower-triangular
`multiplyRight(result, vector)` returns `7` in entry `0`, having multiplied by block
`(0, 1)` of the raw buffer, while entry `0` of `evaluate() * vector` is `1`. -/
theorem LowerTriangular.multiplyRightVector_reads_upper_block :
    sampleLower.Valid ∧
    sampleLower.t_sparsity_type = MatrixSparsityType.LEFT_LOWER_TRIANGULAR ∧
    sampleVector.size = sampleLower.identity_size_ * sampleLower.matrix_.cols ∧
    (LowerTriangular.multiplyRightVector sampleLower DenseVector.empty sampleVector).1
      = .ok () ∧
    (LowerTriangular.multiplyRightVector sampleLower DenseVector.empty sampleVector).2.coeff 0
      = 7 ∧
    ∃ E, LowerTriangular.evaluate sampleLower = .ok E ∧ (E.mulVec sampleVector).coeff 0 = 1 :=
  ⟨by decide, rfl, rfl, rfl, by decide, _, rfl, by decide⟩

/-- C9: when one of the three checks of `multiplyRight(result, dbm)` fails, the call throws
and `result` keeps the shape and the contents it had, in the primary template and in the
lower-triangular specialisation; with `1 x 1` blocks the same holds for `multiplyRight` of
the two `1 x 1` specialisations and for `multiplyLeft`. -/
theorem failed_check_keeps_result (K : BlockKroneckerProductBase) (result : DenseMatrix)
    (dbm : BlockMatrixBase)
    (h : dbm.getBlockRowsNum ≠ K.block_cols_num_ * K.identity_size_ ∨
      K.num_blocks_hor_ ≠ dbm.getNumberOfBlocksVertical ∨
      K.num_blocks_hor_ * K.block_cols_num_ * K.identity_size_ ≠ dbm.getNumberOfRows) :
    ((∃ e, (K.multiplyRight result dbm).1 = .error e) ∧
      (K.multiplyRight result dbm).2 = result) ∧
    ((∃ e, (LowerTriangular.multiplyRight K result dbm).1 = .error e) ∧
      (LowerTriangular.multiplyRight K result dbm).2 = result) ∧
    (K.block_cols_num_ = 1 →
      ((∃ e, (Block1x1.multiplyRight K result dbm).1 = .error e) ∧
        (Block1x1.multiplyRight K result dbm).2 = result) ∧
      ((∃ e, (Block1x1LowerTriangular.multiplyRight K result dbm).1 = .error e) ∧
        (Block1x1LowerTriangular.multiplyRight K result dbm).2 = result) ∧
      ((∃ e, (Block1x1LowerTriangular.multiplyLeft K result dbm).1 = .error e) ∧
        (Block1x1LowerTriangular.multiplyLeft K result dbm).2 = result)) := by
  refine ⟨?_, ?_, ?_⟩
  · unfold multiplyRight
    exact failed_check_outcome _ _ _ _ _ _ _ _ h
  · unfold LowerTriangular.multiplyRight
    exact failed_check_outcome _ _ _ _ _ _ _ _ h
  · intro hbc
    rw [hbc, Nat.one_mul, Nat.mul_one] at h
    refine ⟨?_, ?_, ?_⟩
    · unfold Block1x1.multiplyRight
      exact failed_check_outcome _ _ _ _ _ _ _ _ h
    · unfold Block1x1LowerTriangular.multiplyRight
      exact failed_check_outcome _ _ _ _ _ _ _ _ h
    · unfold Block1x1LowerTriangular.multiplyLeft
      exact failed_check_outcome _ _ _ _ _ _ _ _ h

/-- Witness of C9: `sampleSmallDiagonal` has block rows of size `1`, not `2`, and every
`multiplyRight` hands `sampleResult` back. -/
theorem failed_check_keeps_result_witness :
    sampleSmallDiagonal.getBlockRowsNum ≠ sampleFull.block_cols_num_ * sampleFull.identity_size_ ∧
    (sampleFull.multiplyRight sampleResult sampleSmallDiagonal).2 = sampleResult ∧
    (LowerTriangular.multiplyRight sampleFull sampleResult sampleSmallDiagonal).2
      = sampleResult ∧
    (Block1x1LowerTriangular.multiplyLeft sampleFull sampleResult sampleSmallDiagonal).2
      = sampleResult :=
  have w := failed_check_keeps_result sampleFull sampleResult sampleSmallDiagonal
    (Or.inl (by decide))
  ⟨by decide, w.1.2, w.2.1.2, (w.2.2 rfl).2.2.2⟩

/-- The `1 x 1` specialisation of `multiplyRight(result, vector)` on a matrix without
sparsity returns, with `result` resized to `s*rows`. -/
theorem Block1x1.multiplyRightVector_returns (K : BlockKroneckerProductBase)
    (hs : K.t_sparsity_type = MatrixSparsityType.NONE) (result vector : DenseVector) :
    ∃ R, Block1x1.multiplyRightVector K result vector = (.ok (), R) ∧
      R.size = K.identity_size_ * K.matrix_.rows := by
  unfold Block1x1.multiplyRightVector
  apply forLoop_inv _ (fun st : DenseVector => st.size = K.identity_size_ * K.matrix_.rows)
  · intro st hst j _ _
    apply forLoop_inv _ (fun st : DenseVector => st.size = K.identity_size_ * K.matrix_.rows)
    · intro st hst i _ _
      have hop := @BlockMatrixBase.operatorCall_ok K.toBlockMatrixBase i j
        (by simp [BlockMatrixBase.validCoordinate, hs])
      refine ⟨st.addSegment (i * K.identity_size_) K.identity_size_
        (DenseVector.scale ((K.matrix_.block (i * K.block_rows_num_) (j * K.block_cols_num_)
          K.block_rows_num_ K.block_cols_num_).coeff 0 0)
          (vector.segment (j * K.identity_size_) K.identity_size_)), ?_, hst⟩
      simp only [Block1x1.multiplyRightVectorStep, Block1x1.scalarAt, hop]
    · exact hst
  · rfl

/-- Counterexample to C10: `sampleLongVector` has `5` entries where `s*cols = 4`, and
`multiplyRight(result, vector)` returns normally with `result` resized from `0` to `8`
entries. -/
theorem multiplyRightVector_longer_vector_returns :
    sampleLongVector.size ≠ sampleFull.identity_size_ * sampleFull.matrix_.cols ∧
    (sampleFull.multiplyRightVector DenseVector.empty sampleLongVector).1 = .ok () ∧
    (sampleFull.multiplyRightVector DenseVector.empty sampleLongVector).2.size = 8 ∧
    DenseVector.empty.size = 0 :=
  ⟨by decide, rfl, rfl, rfl⟩

/-- C10 as amended: `multiplyRight(result, vector)` has no check of the length of `vector`.
For a vector longer than `s*cols` the general-block form on a matrix without sparsity
returns normally and leaves in `result` the `s*rows` entries of `evaluate()` times the
leading `s*cols` entries of `vector`; the `1 x 1` form returns normally with `result`
resized to `s*rows`. -/
theorem multiplyRightVector_unchecked_length (K : BlockKroneckerProductBase) (hK : K.Valid)
    (hs : K.t_sparsity_type = MatrixSparsityType.NONE) (result vector : DenseVector)
    (_hlen : K.identity_size_ * K.matrix_.cols < vector.size) :
    (∃ E R, K.evaluate = .ok E ∧ K.multiplyRightVector result vector = (.ok (), R) ∧
      R.size = K.identity_size_ * K.matrix_.rows ∧ DenseVector.Same R (E.mulVec vector)) ∧
    (∃ R, Block1x1.multiplyRightVector K result vector = (.ok (), R) ∧
      R.size = K.identity_size_ * K.matrix_.rows) :=
  ⟨K.multiplyRightVector_eq_mulVec hK hs result vector,
    Block1x1.multiplyRightVector_returns K hs result vector⟩

/-- Witness of C10 as amended, on `sampleFull` and `sampleLongVector`. -/
theorem multiplyRightVector_unchecked_length_witness :
    sampleFull.Valid ∧ sampleFull.t_sparsity_type = MatrixSparsityType.NONE ∧
    sampleFull.identity_size_ * sampleFull.matrix_.cols < sampleLongVector.size ∧
    ∃ E R, sampleFull.evaluate = .ok E ∧
      sampleFull.multiplyRightVector DenseVector.empty sampleLongVector = (.ok (), R) ∧
      R.size = sampleFull.identity_size_ * sampleFull.matrix_.rows ∧
      DenseVector.Same R (E.mulVec sampleLongVector) :=
  ⟨by decide, rfl, by decide,
    (multiplyRightVector_unchecked_length sampleFull (by decide) rfl DenseVector.empty
      sampleLongVector (by decide)).1⟩

/-! ### The results on the sample objects -/

/-- Witness of C1 on `sampleFull`: `evaluate()` returns an `8 x 4` matrix, and its block
at expanded block position `(0*2 + 1, 1*2 + 1)` is block `(0, 1)`. -/
theorem evaluate_full_places_blocks_witness :
    sampleFull.Valid ∧ sampleFull.t_sparsity_type = MatrixSparsityType.NONE ∧
    ∃ E, sampleFull.evaluate = .ok E ∧
      E.rows = sampleFull.identity_size_ * sampleFull.matrix_.rows ∧
      E.cols = sampleFull.identity_size_ * sampleFull.matrix_.cols ∧
      ∃ B, sampleFull.operatorCall 0 1 = .ok B ∧
        ∀ r < sampleFull.block_rows_num_, ∀ c < sampleFull.block_cols_num_,
          E.coeff ((0 * sampleFull.identity_size_ + 1) * sampleFull.block_rows_num_ + r)
            ((1 * sampleFull.identity_size_ + 1) * sampleFull.block_cols_num_ + c)
            = B.coeff r c :=
  ⟨by decide, rfl,
    (evaluate_full_places_blocks sampleFull (by decide) rfl).imp
      (fun _ h => ⟨h.1, h.2.1, h.2.2.1, h.2.2.2.1 0 (by decide) 1 (by decide) 1 (by decide)⟩)⟩

/-- Witness of C5 on `sampleLower`: `evaluate()` returns an `8 x 4` matrix whose
coefficient `(0, 2)`, in the place of block `(0, 1)`, is zero. -/
theorem LowerTriangular.evaluate_places_lower_blocks_witness :
    sampleLower.Valid ∧
    sampleLower.t_sparsity_type = MatrixSparsityType.LEFT_LOWER_TRIANGULAR ∧
    ∃ E, LowerTriangular.evaluate sampleLower = .ok E ∧
      E.rows = sampleLower.identity_size_ * sampleLower.matrix_.rows ∧
      E.cols = sampleLower.identity_size_ * sampleLower.matrix_.cols ∧
      E.coeff 0 2 = 0 ∧ sampleLower.matrix_.coeff 0 1 = 2 :=
  ⟨by decide, rfl,
    (LowerTriangular.evaluate_places_lower_blocks sampleLower (by decide) rfl).imp
      (fun E h => ⟨h.1, h.2.1, h.2.2.1,
        h.2.2.2.2 0 (by rw [h.2.1]; decide) 2 (by rw [h.2.2.1]; decide) (by decide),
        by decide⟩)⟩

/-- Witness of C2 as amended, on `sampleFull` and `sampleDiagonal`, `result` holding a `1 x 1` matrix
before the call. -/
theorem multiplyRight_full_eq_product_witness :
    sampleFull.Valid ∧ sampleFull.t_sparsity_type = MatrixSparsityType.NONE ∧
    sampleDiagonal.ValidDiagonal ∧
    sampleDiagonal.getBlockRowsNum = sampleFull.block_cols_num_ * sampleFull.identity_size_ ∧
    sampleFull.num_blocks_hor_ = sampleDiagonal.getNumberOfBlocksVertical ∧
    sampleFull.num_blocks_hor_ * sampleFull.block_cols_num_ * sampleFull.identity_size_
      = sampleDiagonal.getNumberOfRows ∧
    ∃ E R, sampleFull.evaluate = .ok E ∧
      sampleFull.multiplyRight sampleResult sampleDiagonal = (.ok (), R) ∧
      R.rows = sampleFull.identity_size_ * sampleFull.matrix_.rows ∧
      R.cols = sampleDiagonal.getNumberOfColumns ∧
      DenseMatrix.Same R (E.mul sampleDiagonal.evaluateDiagonal) :=
  ⟨by decide, rfl, by decide, by decide, by decide, by decide,
    multiplyRight_full_eq_product sampleFull (by decide) rfl sampleDiagonal (by decide)
      sampleResult (by decide) (by decide) (by decide)⟩

/-- Witness of C3 on `sampleFull` and `sampleVector`. -/
theorem multiplyRightVector_full_eq_product_witness :
    sampleFull.Valid ∧ sampleFull.t_sparsity_type = MatrixSparsityType.NONE ∧
    sampleVector.size = sampleFull.identity_size_ * sampleFull.matrix_.cols ∧
    ∃ E R, sampleFull.evaluate = .ok E ∧
      sampleFull.multiplyRightVector DenseVector.empty sampleVector = (.ok (), R) ∧
      R.size = sampleFull.identity_size_ * sampleFull.matrix_.rows ∧
      DenseVector.Same R (E.mulVec sampleVector) :=
  ⟨by decide, rfl, by decide,
    multiplyRightVector_full_eq_product sampleFull (by decide) rfl DenseVector.empty
      sampleVector (by decide)⟩

/-- Witness of C4 as amended, on `sampleLower` and `sampleDiagonal`: the product, and the same result
when block `(0, 1)` of the raw buffer is overwritten with zeros. -/
theorem LowerTriangular.multiplyRight_eq_product_witness :
    sampleLower.Valid ∧
    sampleLower.t_sparsity_type = MatrixSparsityType.LEFT_LOWER_TRIANGULAR ∧
    sampleLower.num_blocks_hor_ ≤ sampleLower.num_blocks_vert_ ∧
    sampleDiagonal.ValidDiagonal ∧
    sampleDiagonal.getBlockRowsNum = sampleLower.block_cols_num_ * sampleLower.identity_size_ ∧
    sampleLower.num_blocks_hor_ = sampleDiagonal.getNumberOfBlocksVertical ∧
    sampleLower.num_blocks_hor_ * sampleLower.block_cols_num_ * sampleLower.identity_size_
      = sampleDiagonal.getNumberOfRows ∧
    ∃ E R, LowerTriangular.evaluate sampleLower = .ok E ∧
      LowerTriangular.multiplyRight sampleLower sampleResult sampleDiagonal = (.ok (), R) ∧
      DenseMatrix.Same R (E.mul sampleDiagonal.evaluateDiagonal) :=
  ⟨by decide, rfl, by decide, by decide, by decide, by decide, by decide,
    (LowerTriangular.multiplyRight_eq_product sampleLower (by decide) rfl (by decide)
      sampleDiagonal (by decide) sampleResult (by decide) (by decide) (by decide)).imp
      (fun _ h => h.imp (fun _ g => ⟨g.1, g.2.1, g.2.2.2.2.1⟩))⟩

/-- Counterexample to C2: the diagonal block matrices `sampleDiagonalThreeColumns` (two
block rows, three block columns) and `sampleDiagonalOneColumn` (two block rows, one block
column) are constructed and pass the three checks of `multiplyRight` on `sampleFull`. The
calls return; with three block columns the last column of `result` is not written and holds
the `7` that `result` held, where the product `evaluate() * D.evaluate()` has `0`; with one
block column no coefficient is written, where the product has `1` at `(0, 0)`. -/
theorem multiplyRight_full_fails_off_square_grid :
    sampleFull.Valid ∧ sampleFull.t_sparsity_type = MatrixSparsityType.NONE ∧
    BlockMatrixBase.construct (.FIXED 2) (.FIXED 1) .DIAGONAL
      sampleDiagonalThreeColumns.matrix_ none none = .ok sampleDiagonalThreeColumns ∧
    BlockMatrixBase.construct (.FIXED 2) (.FIXED 1) .DIAGONAL
      sampleDiagonalOneColumn.matrix_ none none = .ok sampleDiagonalOneColumn ∧
    (∀ D ∈ [sampleDiagonalThreeColumns, sampleDiagonalOneColumn],
      D.getBlockRowsNum = sampleFull.block_cols_num_ * sampleFull.identity_size_ ∧
      sampleFull.num_blocks_hor_ = D.getNumberOfBlocksVertical ∧
      sampleFull.num_blocks_hor_ * sampleFull.block_cols_num_ * sampleFull.identity_size_
        = D.getNumberOfRows ∧
      (sampleFull.multiplyRight sampleResult D).1 = .ok ()) ∧
    ∃ E, sampleFull.evaluate = .ok E ∧
      (sampleFull.multiplyRight sampleResult sampleDiagonalThreeColumns).2.coeff 0 2 = 7 ∧
      (E.mul sampleDiagonalThreeColumns.evaluateDiagonal).coeff 0 2 = 0 ∧
      ¬ DenseMatrix.Same (sampleFull.multiplyRight sampleResult sampleDiagonalThreeColumns).2
        (E.mul sampleDiagonalThreeColumns.evaluateDiagonal) ∧
      (sampleFull.multiplyRight sampleResult sampleDiagonalOneColumn).2.coeff 0 0 = 7 ∧
      (E.mul sampleDiagonalOneColumn.evaluateDiagonal).coeff 0 0 = 1 ∧
      ¬ DenseMatrix.Same (sampleFull.multiplyRight sampleResult sampleDiagonalOneColumn).2
        (E.mul sampleDiagonalOneColumn.evaluateDiagonal) := by
  refine ⟨by decide, rfl, rfl, rfl, ?_, _, rfl, rfl, rfl, ?_, rfl, rfl, ?_⟩
  · intro D hD
    simp only [List.mem_cons, List.mem_singleton, List.not_mem_nil, or_false] at hD
    rcases hD with rfl | rfl
    · exact ⟨rfl, rfl, rfl, rfl⟩
    · exact ⟨rfl, rfl, rfl, rfl⟩
  · intro h
    have := h.2.2 0 (by decide) 2 (by decide)
    revert this
    decide
  · intro h
    have := h.2.2 0 (by decide) 0 (by decide)
    revert this
    decide

/-- Counterexample to C4: the diagonal block matrix `sampleDiagonalOneColumn` (two block
rows, one block column) is constructed and passes the three checks of `multiplyRight` on
`sampleLower`, which has as many block rows as block columns. The call returns the
`8 x 1` zero matrix: the block width `cols(D) / num_blocks_hor_ = 1 / 2` is `0` and no
coefficient is written, where the product `evaluate() * D.evaluate()` has `1` at
`(0, 0)`. -/
theorem LowerTriangular.multiplyRight_fails_off_square_grid :
    sampleLower.Valid ∧
    sampleLower.t_sparsity_type = MatrixSparsityType.LEFT_LOWER_TRIANGULAR ∧
    sampleLower.num_blocks_hor_ ≤ sampleLower.num_blocks_vert_ ∧
    BlockMatrixBase.construct (.FIXED 2) (.FIXED 1) .DIAGONAL
      sampleDiagonalOneColumn.matrix_ none none = .ok sampleDiagonalOneColumn ∧
    sampleDiagonalOneColumn.getBlockRowsNum
      = sampleLower.block_cols_num_ * sampleLower.identity_size_ ∧
    sampleLower.num_blocks_hor_ = sampleDiagonalOneColumn.getNumberOfBlocksVertical ∧
    sampleLower.num_blocks_hor_ * sampleLower.block_cols_num_ * sampleLower.identity_size_
      = sampleDiagonalOneColumn.getNumberOfRows ∧
    sampleDiagonalOneColumn.getNumberOfColumns / sampleLower.num_blocks_hor_ = 0 ∧
    (LowerTriangular.multiplyRight sampleLower sampleResult sampleDiagonalOneColumn).1
      = .ok () ∧
    (LowerTriangular.multiplyRight sampleLower sampleResult sampleDiagonalOneColumn).2.rows
      = 8 ∧
    (LowerTriangular.multiplyRight sampleLower sampleResult sampleDiagonalOneColumn).2.cols
      = 1 ∧
    (LowerTriangular.multiplyRight sampleLower sampleResult
      sampleDiagonalOneColumn).2.coeff 0 0 = 0 ∧
    ∃ E, LowerTriangular.evaluate sampleLower = .ok E ∧
      (E.mul sampleDiagonalOneColumn.evaluateDiagonal).coeff 0 0 = 1 ∧
      ¬ DenseMatrix.Same
        (LowerTriangular.multiplyRight sampleLower sampleResult sampleDiagonalOneColumn).2
        (E.mul sampleDiagonalOneColumn.evaluateDiagonal) := by
  refine ⟨by decide, rfl, by decide, rfl, rfl, rfl, rfl, rfl, rfl, rfl, rfl, rfl, _, rfl, rfl,
    ?_⟩
  intro h
  have := h.2.2 0 (by decide) 0 (by decide)
  revert this
  decide

end BlockKroneckerProductBase

/-! ### `multiplyLeft` and its checks -/

namespace BlockKroneckerProductBase

/-- C11, the code at the failing input `sampleScalarLower`, `sampleWideDiagonal`:
`multiplyLeft(result, dbm)` accepts the diagonal block matrix of two `2 x 3` blocks and
leaves a `4 x 6` matrix in `result`, its last coefficient `3 * 14 = 42`, where
`rows(D) x (s*cols(M))` is `4 x 4` and the product `D.evaluate() * evaluate()` does not
exist, `D.evaluate()` having `6` columns and `evaluate()` having `4` rows. -/
theorem Block1x1LowerTriangular.multiplyLeft_accepts_wide_blocks :
    sampleScalarLower.Valid ∧ sampleWideDiagonal.ValidDiagonal ∧
    (Block1x1LowerTriangular.multiplyLeft sampleScalarLower DenseMatrix.empty
      sampleWideDiagonal).1 = .ok () ∧
    (Block1x1LowerTriangular.multiplyLeft sampleScalarLower DenseMatrix.empty
      sampleWideDiagonal).2.rows = 4 ∧
    (Block1x1LowerTriangular.multiplyLeft sampleScalarLower DenseMatrix.empty
      sampleWideDiagonal).2.cols = 6 ∧
    (Block1x1LowerTriangular.multiplyLeft sampleScalarLower DenseMatrix.empty
      sampleWideDiagonal).2.coeff 3 5 = 42 ∧
    sampleWideDiagonal.getNumberOfRows = 4 ∧
    sampleScalarLower.identity_size_ * sampleScalarLower.matrix_.cols = 4 ∧
    sampleWideDiagonal.evaluateDiagonal.cols = 6 ∧
    ∃ E, Block1x1LowerTriangular.evaluate sampleScalarLower = .ok E ∧ E.rows = 4 :=
  ⟨by decide, by decide, rfl, rfl, rfl, rfl, rfl, rfl, rfl, _, rfl, rfl⟩

/-- C12, the code at the failing input `sampleScalarLower`, `sampleWideDiagonal`: the
diagonal block matrix has `6` columns, the expansion has `s*rows(M) = 4` rows, the three
checks of `multiplyLeft` hold all the same, and the call returns without an error. -/
theorem Block1x1LowerTriangular.multiplyLeft_misses_column_mismatch :
    sampleWideDiagonal.getNumberOfColumns = 6 ∧
    sampleScalarLower.identity_size_ * sampleScalarLower.matrix_.rows = 4 ∧
    sampleWideDiagonal.getBlockColsNum ≠ sampleScalarLower.identity_size_ ∧
    sampleWideDiagonal.getBlockRowsNum = sampleScalarLower.identity_size_ ∧
    sampleScalarLower.num_blocks_hor_ = sampleWideDiagonal.getNumberOfBlocksVertical ∧
    sampleScalarLower.num_blocks_hor_ * sampleScalarLower.identity_size_
      = sampleWideDiagonal.getNumberOfRows ∧
    (Block1x1LowerTriangular.multiplyLeft sampleScalarLower DenseMatrix.empty
      sampleWideDiagonal).1 = .ok () :=
  ⟨rfl, rfl, by decide, rfl, rfl, rfl, rfl⟩

end BlockKroneckerProductBase

/-! ### The expansions for `1 x 1` blocks and of a single block -/

namespace BlockKroneckerProductBase

/-- For `1 x 1` blocks, the coefficient assignment of the specialised
`evaluateWithoutInitialization` is the block assignment of the primary template. -/
theorem Block1x1.evaluateStep_eq (K : BlockKroneckerProductBase)
    (hr : K.block_rows_num_ = 1) (hc : K.block_cols_num_ = 1) :
    Block1x1.evaluateStep K = K.evaluateStep := by
  funext i j out k
  simp only [Block1x1.evaluateStep, BlockKroneckerProductBase.evaluateStep, Block1x1.scalarAt]
  cases h : K.operatorCall i j with
  | error e => rfl
  | ok b =>
    have hb : b = K.matrix_.block (i * K.block_rows_num_) (j * K.block_cols_num_)
        K.block_rows_num_ K.block_cols_num_ := by
      simp only [BlockMatrixBase.operatorCall] at h
      split at h
      · exact (Except.ok.inj h).symm
      · cases h
    simp only [hr, hc, Nat.mul_one]
    congr 1
    simp only [DenseMatrix.setCoeff, DenseMatrix.setBlock]
    congr 1
    funext I J
    by_cases hIJ : I = i * K.identity_size_ + k ∧ J = j * K.identity_size_ + k
    · obtain ⟨rfl, rfl⟩ := hIJ
      simp
    · rw [if_neg hIJ, if_neg]
      rintro ⟨h1, h2, h3, h4⟩
      exact hIJ ⟨by omega, by omega⟩

/-- For `1 x 1` blocks, `evaluate()` of the specialisation is `evaluate()` of the primary
template. -/
theorem Block1x1.evaluate_eq (K : BlockKroneckerProductBase)
    (hr : K.block_rows_num_ = 1) (hc : K.block_cols_num_ = 1) :
    Block1x1.evaluate K = K.evaluate := by
  simp only [Block1x1.evaluate, Block1x1.evaluateInto, Block1x1.evaluateWithoutInitialization,
    BlockKroneckerProductBase.evaluate, BlockKroneckerProductBase.evaluateInto,
    BlockKroneckerProductBase.evaluateWithoutInitialization, Block1x1.evaluateStep_eq K hr hc]

/-- For `1 x 1` blocks and lower-triangular sparsity, `evaluate()` of the specialisation is
`evaluate()` of the lower-triangular specialisation for blocks of any size. -/
theorem Block1x1LowerTriangular.evaluate_lower_eq (K : BlockKroneckerProductBase)
    (hr : K.block_rows_num_ = 1) (hc : K.block_cols_num_ = 1) :
    Block1x1LowerTriangular.evaluate K = LowerTriangular.evaluate K := by
  simp only [Block1x1LowerTriangular.evaluate, Block1x1LowerTriangular.evaluateInto,
    Block1x1LowerTriangular.evaluateWithoutInitialization, LowerTriangular.evaluate,
    LowerTriangular.evaluateInto, LowerTriangular.evaluateWithoutInitialization,
    Block1x1.evaluateStep_eq K hr hc]

end BlockKroneckerProductBase

/-- The replicating `makeBlockDiagonal` for two copies or more: the shape, and the
coefficient `(r, c)` of the block `(k, k2)` of the output. -/
theorem makeBlockDiagonal_spec (input_matrix : DenseMatrix) (num_copies : Nat)
    (hn : 2 ≤ num_copies) :
    (makeBlockDiagonal input_matrix num_copies).rows = num_copies * input_matrix.rows ∧
    (makeBlockDiagonal input_matrix num_copies).cols = num_copies * input_matrix.cols ∧
    ∀ k < num_copies, ∀ k2 < num_copies, ∀ r < input_matrix.rows, ∀ c < input_matrix.cols,
      (makeBlockDiagonal input_matrix num_copies).coeff (k * input_matrix.rows + r)
          (k2 * input_matrix.cols + c) =
        if k = k2 then input_matrix.coeff r c else 0 := by
  obtain ⟨t, rfl⟩ : ∃ t, num_copies = t + 2 := ⟨num_copies - 2, by omega⟩
  have hdef : makeBlockDiagonal input_matrix (t + 2) =
      forEach (t + 2) (fun output i =>
        output.setBlock (i * input_matrix.rows) (i * input_matrix.cols)
          input_matrix.rows input_matrix.cols input_matrix)
        (DenseMatrix.empty.setZero ((t + 2) * input_matrix.rows)
          ((t + 2) * input_matrix.cols)) := rfl
  rw [hdef]
  have hshape := forEach_inv (fun output i =>
        output.setBlock (i * input_matrix.rows) (i * input_matrix.cols)
          input_matrix.rows input_matrix.cols input_matrix)
      (fun st : DenseMatrix => st.rows = (t + 2) * input_matrix.rows ∧
        st.cols = (t + 2) * input_matrix.cols) (t + 2)
      (fun st hst k _ => hst)
      (DenseMatrix.empty.setZero ((t + 2) * input_matrix.rows) ((t + 2) * input_matrix.cols))
      ⟨rfl, rfl⟩
  refine ⟨hshape.1, hshape.2, ?_⟩
  intro k hk k2 hk2 r hr c hc
  have hget := forEach_get (fun output i =>
        output.setBlock (i * input_matrix.rows) (i * input_matrix.cols)
          input_matrix.rows input_matrix.cols input_matrix)
      (fun st : DenseMatrix => st.coeff (k * input_matrix.rows + r) (k2 * input_matrix.cols + c))
      (t + 2) k (input_matrix.coeff r c) (k = k2)
      (fun st i _ => by
        simp only [DenseMatrix.setBlock]
        have e1 := @block_region_iff input_matrix.rows k i r hr
        have e2 := @block_region_iff input_matrix.cols k2 i c hc
        by_cases h : i = k ∧ k = k2
        · obtain ⟨rfl, rfl⟩ := h
          have h1 := e1.2 rfl
          have h2 := e2.2 rfl
          rw [if_pos ⟨h1.1, h1.2, h2.1, h2.2⟩, if_pos ⟨rfl, rfl⟩]
          congr 1 <;> omega
        · rw [if_neg h, if_neg]
          rintro ⟨h1, h2, h3, h4⟩
          have a1 := e1.1 ⟨h1, h2⟩
          have a2 := e2.1 ⟨h3, h4⟩
          exact h ⟨a1, a1.symm.trans a2⟩)
      (DenseMatrix.empty.setZero ((t + 2) * input_matrix.rows) ((t + 2) * input_matrix.cols))
  rw [hget]
  simp [hk, DenseMatrix.setZero]

namespace BlockKroneckerProductBase

/-- The loops of `evaluateWithoutInitialization` over a single block, on the zero-filled
output: they return the matrix that `makeBlockDiagonal` builds from the raw buffer. -/
theorem single_block_loops (K : BlockKroneckerProductBase) (hK : K.Valid)
    (hnv : K.num_blocks_vert_ = 1) (hnh : K.num_blocks_hor_ = 1) (lo : Nat → Nat)
    (hlo : lo 0 = 0) :
    ∃ E, forLoop 0 K.num_blocks_hor_ (fun out j =>
        forLoop (lo j) K.num_blocks_vert_ (fun out i =>
          forLoop 0 K.identity_size_ (K.evaluateStep i j) out) out)
        (DenseMatrix.empty.setZero (K.identity_size_ * K.matrix_.rows)
          (K.identity_size_ * K.matrix_.cols)) = (.ok (), E) ∧
      DenseMatrix.Same E (makeBlockDiagonal K.matrix_ K.identity_size_) := by
  obtain ⟨⟨hbr, hbc, hrows, hcols⟩, hs⟩ := hK
  rw [hnv, Nat.one_mul] at hrows
  rw [hnh, Nat.one_mul] at hcols
  have hv : ∀ j < K.num_blocks_hor_, ∀ i < K.num_blocks_vert_, lo j ≤ i →
      K.validCoordinate i j = true := by
    intro j hj i hi _
    have hj0 : j = 0 := by omega
    have hi0 : i = 0 := by omega
    subst hj0 hi0
    simp only [BlockMatrixBase.validCoordinate]
    cases K.t_sparsity_type <;> simp
  obtain ⟨E, hE, hr, hc, hcoef⟩ := K.evaluateLoops_spec_in_range lo hv
    (DenseMatrix.empty.setZero (K.identity_size_ * K.matrix_.rows)
      (K.identity_size_ * K.matrix_.cols))
  obtain ⟨mr, mc, mcoef⟩ := makeBlockDiagonal_spec K.matrix_ K.identity_size_ hs
  refine ⟨E, hE, hr.trans mr.symm, hc.trans mc.symm, ?_⟩
  intro I hI J hJ
  have hI2 : I < K.identity_size_ * K.matrix_.rows := by rw [hr] at hI; exact hI
  have hJ2 : J < K.identity_size_ * K.matrix_.cols := by rw [hc] at hJ; exact hJ
  obtain ⟨k, hk, r, hrr, rfl⟩ := col_decompose hI2
  obtain ⟨k2, hk2, c, hcc, rfl⟩ := col_decompose hJ2
  have h1 := hcoef 0 (by omega) 0 (by omega) k hk k2 hk2 r (hrows ▸ hrr) c (hcols ▸ hcc)
  simp only [Nat.zero_mul, Nat.zero_add, hlo, Nat.le_refl, and_true, ← hrows, ← hcols] at h1
  rw [h1, mcoef k hk k2 hk2 r hrr c hcc]
  simp [DenseMatrix.setZero]

/-- C13: for every `n` (so for every `n >= 1`) and every `s >= 2`, the Kronecker product
over the `n x n` identity matrix in `1 x 1` blocks can be constructed, and `evaluate()` of
the specialisation for `1 x 1` blocks returns the `(n*s) x (n*s)` identity matrix; so does
the lower-triangular specialisation for `1 x 1` blocks. -/
theorem Block1x1.evaluate_of_identity (n s : Nat) (hs : 2 ≤ s) :
    (∃ K E, construct (.FIXED 1) (.FIXED 1) .NONE (DenseMatrix.Identity n) (s : Int) none none
        = .ok K ∧
      Block1x1.evaluate K = .ok E ∧ DenseMatrix.Same E (DenseMatrix.Identity (n * s))) ∧
    (∃ K E, construct (.FIXED 1) (.FIXED 1) .LEFT_LOWER_TRIANGULAR (DenseMatrix.Identity n)
        (s : Int) none none = .ok K ∧
      Block1x1LowerTriangular.evaluate K = .ok E ∧
      DenseMatrix.Same E (DenseMatrix.Identity (n * s))) := by
  have hcons : ∀ sp, construct (.FIXED 1) (.FIXED 1) sp (DenseMatrix.Identity n) (s : Int)
      none none = .ok ⟨⟨.FIXED 1, .FIXED 1, sp, DenseMatrix.Identity n, 1, 1, n, n⟩, s⟩ := by
    intro sp
    have hs1 : (s : Int) > 1 := by omega
    simp [construct, BlockMatrixBase.construct, resolve, DenseMatrix.Identity, hs1, Nat.mod_one]
  have hsame : ∀ E : DenseMatrix, E.rows = s * n → E.cols = s * n →
      (∀ i < n, ∀ j < n, ∀ k < s, ∀ k2 < s,
        E.coeff (i * s + k) (j * s + k2) = if k = k2 ∧ i = j then 1 else 0) →
      DenseMatrix.Same E (DenseMatrix.Identity (n * s)) := by
    intro E hr hc hcoef
    refine ⟨by rw [hr, Nat.mul_comm]; rfl, by rw [hc, Nat.mul_comm]; rfl, ?_⟩
    intro I hI J hJ
    rw [hr, Nat.mul_comm] at hI
    rw [hc, Nat.mul_comm] at hJ
    obtain ⟨i, hi, k, hk, rfl⟩ := col_decompose hI
    obtain ⟨j, hj, k2, hk2, rfl⟩ := col_decompose hJ
    rw [hcoef i hi j hj k hk k2 hk2]
    have e := @pair_index_eq s j k2 i k hk2 hk
    simp only [DenseMatrix.Identity]
    by_cases h : k = k2 ∧ i = j
    · obtain ⟨rfl, rfl⟩ := h
      simp
    · rw [if_neg h, if_neg]
      intro h2
      exact h ⟨(e.1 h2).2, (e.1 h2).1⟩
  constructor
  · obtain ⟨E, hE, hr, hc, hcoef⟩ := evaluate_spec
      ⟨⟨.FIXED 1, .FIXED 1, .NONE, DenseMatrix.Identity n, 1, 1, n, n⟩, s⟩ rfl
    refine ⟨_, E, hcons _, (Block1x1.evaluate_eq _ rfl rfl).trans hE, hsame E hr hc ?_⟩
    intro i hi j hj k hk k2 hk2
    have := hcoef i hi j hj k hk k2 hk2 0 Nat.one_pos 0 Nat.one_pos
    simp only [Nat.mul_one, Nat.add_zero] at this
    rw [this]
    by_cases h1 : k = k2 <;> by_cases h2 : i = j <;> simp [DenseMatrix.Identity, h1, h2]
  · obtain ⟨E, hE, hr, hc, hcoef⟩ := LowerTriangular.evaluate_lower_spec
      ⟨⟨.FIXED 1, .FIXED 1, .LEFT_LOWER_TRIANGULAR, DenseMatrix.Identity n, 1, 1, n, n⟩, s⟩ rfl
    refine ⟨_, E, hcons _, (Block1x1LowerTriangular.evaluate_lower_eq _ rfl rfl).trans hE,
      hsame E hr hc ?_⟩
    intro i hi j hj k hk k2 hk2
    have := hcoef i hi j hj k hk k2 hk2 0 Nat.one_pos 0 Nat.one_pos
    simp only [Nat.mul_one, Nat.add_zero] at this
    rw [this]
    by_cases h1 : k = k2 <;> by_cases h2 : i = j <;> simp [DenseMatrix.Identity, h1, h2]

/-- Witness of C13: `n = 2`, `s = 3` gives the `6 x 6` identity matrix. -/
theorem Block1x1.evaluate_of_identity_witness :
    2 ≤ 3 ∧
    ∃ K E, construct (.FIXED 1) (.FIXED 1) .NONE (DenseMatrix.Identity 2) ((3 : Nat) : Int)
        none none = .ok K ∧
      Block1x1.evaluate K = .ok E ∧ DenseMatrix.Same E (DenseMatrix.Identity (2 * 3)) :=
  ⟨by decide, (Block1x1.evaluate_of_identity 2 3 (by decide)).1⟩

/-- C14: for a Kronecker product over a raw buffer that is a single block and an identity
size `s >= 2`, `evaluate()` returns the matrix that `makeBlockDiagonal(M, s)` returns, in
the primary template, in the lower-triangular specialisation and, when the block is
`1 x 1`, in the two specialisations for `1 x 1` blocks; that matrix has the coefficient
`(r, c)` of `M` at `(k*rows + r, k*cols + c)` for `k < s` and zeros in the blocks off the
diagonal. -/
theorem evaluate_single_block_eq_makeBlockDiagonal (K : BlockKroneckerProductBase)
    (hK : K.Valid) (hnv : K.num_blocks_vert_ = 1) (hnh : K.num_blocks_hor_ = 1) :
    (∃ E, K.evaluate = .ok E ∧
      DenseMatrix.Same E (makeBlockDiagonal K.matrix_ K.identity_size_)) ∧
    (∃ E, LowerTriangular.evaluate K = .ok E ∧
      DenseMatrix.Same E (makeBlockDiagonal K.matrix_ K.identity_size_)) ∧
    (K.block_rows_num_ = 1 → K.block_cols_num_ = 1 →
      (∃ E, Block1x1.evaluate K = .ok E ∧
        DenseMatrix.Same E (makeBlockDiagonal K.matrix_ K.identity_size_)) ∧
      (∃ E, Block1x1LowerTriangular.evaluate K = .ok E ∧
        DenseMatrix.Same E (makeBlockDiagonal K.matrix_ K.identity_size_))) ∧
    (makeBlockDiagonal K.matrix_ K.identity_size_).rows = K.identity_size_ * K.matrix_.rows ∧
    (makeBlockDiagonal K.matrix_ K.identity_size_).cols = K.identity_size_ * K.matrix_.cols ∧
    (∀ k < K.identity_size_, ∀ k2 < K.identity_size_, ∀ r < K.matrix_.rows,
      ∀ c < K.matrix_.cols,
      (makeBlockDiagonal K.matrix_ K.identity_size_).coeff (k * K.matrix_.rows + r)
          (k2 * K.matrix_.cols + c) = if k = k2 then K.matrix_.coeff r c else 0) := by
  obtain ⟨E1, hE1, hS1⟩ := K.single_block_loops hK hnv hnh (fun _ => 0) rfl
  obtain ⟨E2, hE2, hS2⟩ := K.single_block_loops hK hnv hnh (fun j => j) rfl
  have h1 : K.evaluate = .ok E1 := by
    simp only [evaluate, evaluateInto, evaluateWithoutInitialization, hE1]
  have h2 : LowerTriangular.evaluate K = .ok E2 := by
    simp only [LowerTriangular.evaluate, LowerTriangular.evaluateInto,
      LowerTriangular.evaluateWithoutInitialization, hE2]
  refine ⟨⟨E1, h1, hS1⟩, ⟨E2, h2, hS2⟩, fun hr hc =>
    ⟨⟨E1, (Block1x1.evaluate_eq K hr hc).trans h1, hS1⟩,
      ⟨E2, (Block1x1LowerTriangular.evaluate_lower_eq K hr hc).trans h2, hS2⟩⟩, ?_⟩
  exact makeBlockDiagonal_spec K.matrix_ K.identity_size_ hK.2

/-- Witness of C14: `M = [2]` as one `1 x 1` block and `s = 2`; `evaluate()` of the
specialisation for `1 x 1` blocks is `makeBlockDiagonal([2], 2)`. -/
theorem evaluate_single_block_eq_makeBlockDiagonal_witness :
    sampleSingleBlock.Valid ∧ sampleSingleBlock.num_blocks_vert_ = 1 ∧
    sampleSingleBlock.num_blocks_hor_ = 1 ∧
    ∃ E, Block1x1.evaluate sampleSingleBlock = .ok E ∧
      DenseMatrix.Same E (makeBlockDiagonal sampleSingleBlock.matrix_ 2) :=
  ⟨by decide, rfl, rfl,
    ((evaluate_single_block_eq_makeBlockDiagonal sampleSingleBlock (by decide) rfl
      rfl).2.2.1 rfl rfl).1⟩

end BlockKroneckerProductBase

/-! ### `evaluate(output)` and the output argument -/

namespace BlockKroneckerProductBase

/-- C15: `evaluate(output)` starts with `output.setZero(s*rows, s*cols)`, so what it
returns and leaves in `output` is the same for every shape and content that `output` had,
in each of the four specialisations; in particular a second call on the output of the
first leaves the same matrix. The method is `const`: the product itself, raw buffer and
`identity_size_`, is an argument of the embedding and not part of what is handed back. -/
theorem evaluateInto_independent_of_output (K : BlockKroneckerProductBase)
    (output1 output2 : DenseMatrix) :
    (K.evaluateInto output1 = K.evaluateInto output2 ∧
      K.evaluateInto (K.evaluateInto output1).2 = K.evaluateInto output1 ∧
      K.evaluate = (match K.evaluateInto output1 with
        | (.ok _, output) => .ok output
        | (.error e, _) => .error e)) ∧
    (LowerTriangular.evaluateInto K output1 = LowerTriangular.evaluateInto K output2 ∧
      LowerTriangular.evaluateInto K (LowerTriangular.evaluateInto K output1).2
        = LowerTriangular.evaluateInto K output1) ∧
    (Block1x1.evaluateInto K output1 = Block1x1.evaluateInto K output2 ∧
      Block1x1.evaluateInto K (Block1x1.evaluateInto K output1).2
        = Block1x1.evaluateInto K output1) ∧
    (Block1x1LowerTriangular.evaluateInto K output1
        = Block1x1LowerTriangular.evaluateInto K output2 ∧
      Block1x1LowerTriangular.evaluateInto K (Block1x1LowerTriangular.evaluateInto K output1).2
        = Block1x1LowerTriangular.evaluateInto K output1) :=
  ⟨⟨rfl, rfl, rfl⟩, ⟨rfl, rfl⟩, ⟨rfl, rfl⟩, ⟨rfl, rfl⟩⟩

end BlockKroneckerProductBase

/-! ### `multiplyRight` without block columns -/

namespace BlockKroneckerProductBase

/-- Without block columns, and with the three checks passed, `multiplyRight(result, dbm)`
of the primary template returns `result` reshaped by `resize` and nothing else, and the
lower-triangular specialisation returns it reshaped and zero-filled by `setZero`. -/
theorem multiplyRight_no_block_columns_outcome (K : BlockKroneckerProductBase)
    (result : DenseMatrix) (dbm : BlockMatrixBase)
    (hnh : K.num_blocks_hor_ = 0)
    (h1 : dbm.getBlockRowsNum = K.block_cols_num_ * K.identity_size_)
    (h2 : K.num_blocks_hor_ = dbm.getNumberOfBlocksVertical)
    (h3 : K.num_blocks_hor_ * K.block_cols_num_ * K.identity_size_ = dbm.getNumberOfRows) :
    K.multiplyRight result dbm
      = (.ok (), result.resize (K.identity_size_ * K.matrix_.rows) dbm.getNumberOfColumns) ∧
    LowerTriangular.multiplyRight K result dbm
      = (.ok (), result.setZero (K.identity_size_ * K.matrix_.rows)
          dbm.getNumberOfColumns) := by
  constructor
  · simp only [multiplyRight, h1, h2, h3, hnh, ne_eq, not_true_eq_false, if_false]
    simp [← h2, hnh, ← h3]
  · simp only [LowerTriangular.multiplyRight, h1, h2, h3, hnh, ne_eq, not_true_eq_false,
      if_false]
    simp [← h2, hnh, ← h3]

end BlockKroneckerProductBase

/-! ### Block matrices: construction, accessors and block access -/

namespace BlockMatrixBase

/-- The constructor over resolved block dimensions. -/
theorem construct_of_resolved {tr tc : MatrixBlockSizeType} (sp : MatrixSparsityType)
    (matrix : DenseMatrix) {rbr rbc : Option Int} {br bc : Nat}
    (hr : resolve tr rbr = .ok br) (hc : resolve tc rbc = .ok bc) :
    construct tr tc sp matrix rbr rbc =
      if matrix.rows % br ≠ 0 then .error "ConfigurationError: wrong block size"
      else if matrix.cols % bc ≠ 0 then .error "ConfigurationError: wrong block size"
      else .ok ⟨tr, tc, sp, matrix, br, bc, matrix.rows / br, matrix.cols / bc⟩ := by
  simp only [construct, hr, hc]

/-- C17: with both block dimensions resolved (so positive), the constructor of a block
matrix over a raw buffer throws its configuration error if and only if the rows of the
buffer are not a multiple of the block rows or its columns are not a multiple of the block
columns; when it returns, the block matrix is over the whole buffer: the block counts times
the block dimensions are the shape of the buffer. -/
theorem construct_fails_iff_not_multiple (tr tc : MatrixBlockSizeType)
    (sp : MatrixSparsityType) (matrix : DenseMatrix) (rbr rbc : Option Int) (br bc : Nat)
    (hr : resolve tr rbr = .ok br) (hc : resolve tc rbc = .ok bc) :
    (construct tr tc sp matrix rbr rbc = .error "ConfigurationError: wrong block size" ↔
      (matrix.rows % br ≠ 0 ∨ matrix.cols % bc ≠ 0)) ∧
    ((∃ e, construct tr tc sp matrix rbr rbc = .error e) ↔
      (matrix.rows % br ≠ 0 ∨ matrix.cols % bc ≠ 0)) ∧
    (∀ b, construct tr tc sp matrix rbr rbc = .ok b →
      b.matrix_ = matrix ∧ b.num_blocks_vert_ * b.block_rows_num_ = matrix.rows ∧
      b.num_blocks_hor_ * b.block_cols_num_ = matrix.cols) := by
  rw [construct_of_resolved sp matrix hr hc]
  by_cases h1 : matrix.rows % br ≠ 0
  · rw [if_pos h1]
    refine ⟨⟨fun _ => Or.inl h1, fun _ => rfl⟩, ⟨fun _ => Or.inl h1, fun _ => ⟨_, rfl⟩⟩, ?_⟩
    intro b hb
    cases hb
  · rw [if_neg h1]
    by_cases h2 : matrix.cols % bc ≠ 0
    · rw [if_pos h2]
      refine ⟨⟨fun _ => Or.inr h2, fun _ => rfl⟩, ⟨fun _ => Or.inr h2, fun _ => ⟨_, rfl⟩⟩, ?_⟩
      intro b hb
      cases hb
    · rw [if_neg h2]
      have hno : ¬ (matrix.rows % br ≠ 0 ∨ matrix.cols % bc ≠ 0) := fun h => h.elim h1 h2
      refine ⟨⟨fun h => ?_, fun h => absurd h hno⟩, ⟨fun h => ?_, fun h => absurd h hno⟩, ?_⟩
      · cases h
      · obtain ⟨e, he⟩ := h
        cases he
      · intro b hb
        cases hb
        exact ⟨rfl, Nat.div_mul_cancel (Nat.dvd_of_mod_eq_zero (not_not.1 h1)),
          Nat.div_mul_cancel (Nat.dvd_of_mod_eq_zero (not_not.1 h2))⟩

/-- Witness of C17: `sampleRaw` (`4 x 2`) in dynamic blocks of `2 x 1`. -/
theorem construct_fails_iff_not_multiple_witness :
    resolve .DYNAMIC (some 2) = .ok 2 ∧ resolve .DYNAMIC (some 1) = .ok 1 ∧
    ((∃ e, construct .DYNAMIC .DYNAMIC .NONE sampleRaw (some 2) (some 1) = .error e) ↔
      (sampleRaw.rows % 2 ≠ 0 ∨ sampleRaw.cols % 1 ≠ 0)) :=
  ⟨rfl, rfl,
    (construct_fails_iff_not_multiple .DYNAMIC .DYNAMIC .NONE sampleRaw (some 2) (some 1) 2 1
      rfl rfl).2.1⟩

/-- C18: over a raw buffer of shape `R x C`, with block dimensions `br` and `bc` resolved
(so at least `1`) that divide `R` and `C`, the constructor returns a block matrix that
reports `R` rows, `C` columns, `R/br` vertical and `C/bc` horizontal blocks, and the block
size `br x bc`. -/
theorem construct_reports_shape (tr tc : MatrixBlockSizeType) (sp : MatrixSparsityType)
    (matrix : DenseMatrix) (rbr rbc : Option Int) (br bc : Nat)
    (hr : resolve tr rbr = .ok br) (hc : resolve tc rbc = .ok bc)
    (hdr : br ∣ matrix.rows) (hdc : bc ∣ matrix.cols) :
    1 ≤ br ∧ 1 ≤ bc ∧
    ∃ b, construct tr tc sp matrix rbr rbc = .ok b ∧
      b.getNumberOfRows = matrix.rows ∧ b.getNumberOfColumns = matrix.cols ∧
      b.getNumberOfBlocksVertical = matrix.rows / br ∧
      b.getNumberOfBlocksHorizontal = matrix.cols / bc ∧
      b.getBlockRowsNum = br ∧ b.getBlockColsNum = bc := by
  refine ⟨resolve_pos hr, resolve_pos hc, ?_⟩
  rw [construct_of_resolved sp matrix hr hc,
    if_neg (not_not.2 (Nat.mod_eq_zero_of_dvd hdr)),
    if_neg (not_not.2 (Nat.mod_eq_zero_of_dvd hdc))]
  exact ⟨_, rfl, rfl, rfl, rfl, rfl, rfl, rfl⟩

/-- Witness of C18: `sampleRaw` (`4 x 2`) in dynamic blocks of `2 x 1` reports `2 x 2`
blocks. -/
theorem construct_reports_shape_witness :
    resolve .DYNAMIC (some 2) = .ok 2 ∧ resolve .DYNAMIC (some 1) = .ok 1 ∧
    2 ∣ sampleRaw.rows ∧ 1 ∣ sampleRaw.cols ∧
    ∃ b, construct .DYNAMIC .DYNAMIC .NONE sampleRaw (some 2) (some 1) = .ok b ∧
      b.getNumberOfRows = 4 ∧ b.getNumberOfColumns = 2 ∧
      b.getNumberOfBlocksVertical = 2 ∧ b.getNumberOfBlocksHorizontal = 2 ∧
      b.getBlockRowsNum = 2 ∧ b.getBlockColsNum = 1 :=
  ⟨rfl, rfl, by decide, by decide,
    (construct_reports_shape .DYNAMIC .DYNAMIC .NONE sampleRaw (some 2) (some 1) 2 1 rfl rfl
      (by decide) (by decide)).2.2⟩

/-- C19: on a lower-triangular block matrix, block access at `(i, j)` throws the index
error for `i < j`, and for `j <= i` returns the `block_rows x block_cols` view whose
coefficient `(r, c)` is the raw coefficient `(i*block_rows + r, j*block_cols + c)`. -/
theorem operatorCall_lower_triangular (b : BlockMatrixBase)
    (hs : b.t_sparsity_type = MatrixSparsityType.LEFT_LOWER_TRIANGULAR) (i j : Nat) :
    (i < j → b.operatorCall i j
      = .error "IndexError: block is outside the sparsity pattern") ∧
    (j ≤ i → ∃ view, b.operatorCall i j = .ok view ∧
      view.rows = b.block_rows_num_ ∧ view.cols = b.block_cols_num_ ∧
      ∀ r c, view.coeff r c
        = b.matrix_.coeff (i * b.block_rows_num_ + r) (j * b.block_cols_num_ + c)) := by
  constructor
  · intro h
    have : b.validCoordinate i j = false := by
      simp [validCoordinate, hs, h]
    simp only [operatorCall, this]
    rfl
  · intro h
    exact ⟨_, b.operatorCall_ok (by simp [validCoordinate, hs, h]), rfl, rfl, fun _ _ => rfl⟩

/-- Witness of C19 on the parent block matrix of `sampleLower`: block `(0, 1)` is refused,
block `(1, 0)` is the view of the raw rows `2..3` of column `0`. -/
theorem operatorCall_lower_triangular_witness :
    sampleLower.t_sparsity_type = MatrixSparsityType.LEFT_LOWER_TRIANGULAR ∧
    sampleLower.operatorCall 0 1
      = .error "IndexError: block is outside the sparsity pattern" ∧
    ∃ view, sampleLower.operatorCall 1 0 = .ok view ∧
      view.rows = sampleLower.block_rows_num_ ∧ view.cols = sampleLower.block_cols_num_ ∧
      ∀ r c, view.coeff r c = sampleLower.matrix_.coeff
        (1 * sampleLower.block_rows_num_ + r) (0 * sampleLower.block_cols_num_ + c) :=
  ⟨rfl,
    (operatorCall_lower_triangular sampleLower.toBlockMatrixBase rfl 0 1).1 (by decide),
    (operatorCall_lower_triangular sampleLower.toBlockMatrixBase rfl 1 0).2 (by decide)⟩

end BlockMatrixBase

/-! ### Resolution of a block dimension -/

/-- C20: a block dimension fixed to a positive value `c` resolves against a runtime value
to `c` exactly when the runtime value is absent or equal to `c`, and fails otherwise; so a
block matrix with dynamic block rows and the block columns fixed to `1` cannot be
constructed with the block sizes `(2, 2)` and can be with `(2, UNDEFINED)`. -/
theorem resolve_fixed (c : Int) (hc : 0 < c) (runtime : Option Int) :
    (resolve (.FIXED c) runtime = .ok c.toNat ↔ (runtime = none ∨ runtime = some c)) ∧
    ((c.toNat : Int) = c) ∧
    ((∃ e, resolve (.FIXED c) runtime = .error e) ↔ ¬ (runtime = none ∨ runtime = some c)) ∧
    (∃ e, BlockMatrixBase.constructWithBlockSize .DYNAMIC (.FIXED 1) .NONE (some 2) (some 2)
      = .error e) ∧
    (∃ b, BlockMatrixBase.constructWithBlockSize .DYNAMIC (.FIXED 1) .NONE (some 2) none
      = .ok b) := by
  have hc2 : ¬ c ≤ 0 := by omega
  refine ⟨?_, Int.toNat_of_nonneg (by omega), ?_, ⟨_, rfl⟩, ⟨_, rfl⟩⟩
  · cases runtime with
    | none => simp [resolve, hc2]
    | some r =>
      by_cases h : r = c
      · simp [resolve, hc2, h]
      · simp [resolve, hc2, h]
  · cases runtime with
    | none => simp [resolve, hc2]
    | some r =>
      by_cases h : r = c
      · simp [resolve, hc2, h]
      · simp [resolve, hc2, h]

/-- Witness of C20: the block dimension fixed to `1` against the runtime value `2`. -/
theorem resolve_fixed_witness :
    (0 : Int) < 1 ∧
    ((∃ e, resolve (.FIXED 1) (some 2) = .error e) ↔
      ¬ ((some 2 : Option Int) = none ∨ (some 2 : Option Int) = some 1)) ∧
    (resolve (.FIXED 1) none = .ok (1 : Int).toNat ↔
      ((none : Option Int) = none ∨ (none : Option Int) = some 1)) :=
  ⟨by decide, (resolve_fixed 1 (by decide) (some 2)).2.2.1, (resolve_fixed 1 (by decide) none).1⟩

/-! ### Block sizes: dynamic and fixed dimensions, construction without arguments -/

/-- C21: a dynamic block dimension resolves to the runtime value exactly when that value is
a positive integer, and the resolution fails with a configuration error when the value is
absent, zero or negative; so on every block matrix with two dynamic dimensions
`setBlockSize(3, 2)` returns and leaves blocks of size `3 x 2`, and `setBlockSize(3, 0)`
throws and leaves the block matrix as it was. -/
theorem resolve_dynamic (runtime : Option Int) (n : Nat) :
    (resolve .DYNAMIC runtime = .ok n ↔ ∃ r, runtime = some r ∧ 0 < r ∧ (n : Int) = r) ∧
    (resolve .DYNAMIC runtime = .error "ConfigurationError: block size is not set" ↔
      runtime = none) ∧
    (resolve .DYNAMIC runtime = .error "ConfigurationError: non-positive block size" ↔
      ∃ r, runtime = some r ∧ r ≤ 0) ∧
    ((∃ e, resolve .DYNAMIC runtime = .error e) ↔
      (runtime = none ∨ ∃ r, runtime = some r ∧ r ≤ 0)) ∧
    (∀ (sp : MatrixSparsityType) (matrix : DenseMatrix) (br bc nv nh : Nat),
      (∃ b, BlockMatrixBase.setBlockSize ⟨.DYNAMIC, .DYNAMIC, sp, matrix, br, bc, nv, nh⟩
          (some 3) (some 2) = (.ok (), b) ∧
        b.getBlockRowsNum = 3 ∧ b.getBlockColsNum = 2) ∧
      BlockMatrixBase.setBlockSize ⟨.DYNAMIC, .DYNAMIC, sp, matrix, br, bc, nv, nh⟩
          (some 3) (some 0)
        = (.error "ConfigurationError: non-positive block size",
            ⟨.DYNAMIC, .DYNAMIC, sp, matrix, br, bc, nv, nh⟩)) := by
  refine ⟨?_, ?_, ?_, ?_, fun sp matrix br bc nv nh => ⟨⟨_, rfl, rfl, rfl⟩, rfl⟩⟩
  · cases runtime with
    | none => simp [resolve]
    | some r =>
      by_cases h : 0 < r
      · simp only [resolve, h, if_true, Except.ok.injEq, Option.some.injEq, exists_eq_left',
          true_and]
        omega
      · simp [resolve, h]
  · cases runtime with
    | none => simp [resolve]
    | some r =>
      by_cases h : 0 < r
      · simp [resolve, h]
      · simp [resolve, h]
  · cases runtime with
    | none => simp [resolve]
    | some r =>
      by_cases h : 0 < r
      · have : ¬ r ≤ 0 := by omega
        simp [resolve, h, this]
      · have : r ≤ 0 := by omega
        simp [resolve, h, this]
  · cases runtime with
    | none => simp [resolve]
    | some r =>
      by_cases h : 0 < r
      · have : ¬ r ≤ 0 := by omega
        simp [resolve, h, this]
      · have : r ≤ 0 := by omega
        simp [resolve, h, this]

namespace BlockMatrixBase

/-- C22: a block dimension fixed to a non-positive value makes every constructor of a block
matrix throw, whichever of the two dimensions it is and whatever the other one, the buffer
and the runtime block sizes are; with both dimensions fixed to `2` the constructor without
arguments returns a block matrix with blocks of size `2 x 2`. -/
theorem construct_fails_for_non_positive_fixed (c : Int) (hc : c ≤ 0)
    (other : MatrixBlockSizeType) (sp : MatrixSparsityType) (matrix : DenseMatrix)
    (rbr rbc : Option Int) :
    constructDefault (.FIXED c) other sp
      = .error "ConfigurationError: non-positive block size" ∧
    (∃ e, constructDefault other (.FIXED c) sp = .error e) ∧
    constructWithBlockSize (.FIXED c) other sp rbr rbc
      = .error "ConfigurationError: non-positive block size" ∧
    (∃ e, constructWithBlockSize other (.FIXED c) sp rbr rbc = .error e) ∧
    construct (.FIXED c) other sp matrix rbr rbc
      = .error "ConfigurationError: non-positive block size" ∧
    (∃ e, construct other (.FIXED c) sp matrix rbr rbc = .error e) ∧
    (∃ b, constructDefault (.FIXED 2) (.FIXED 2) sp = .ok b ∧
      b.getBlockRowsNum = 2 ∧ b.getBlockColsNum = 2) := by
  have h1 : ∀ runtime, resolve (.FIXED c) runtime
      = .error "ConfigurationError: non-positive block size" := by
    intro runtime
    simp only [resolve, hc, if_true]
  refine ⟨?_, ?_, ?_, ?_, ?_, ?_, ⟨_, rfl, rfl, rfl⟩⟩
  · simp only [constructDefault, h1]
  · simp only [constructDefault, h1]
    cases resolve other none with
    | error e => exact ⟨e, rfl⟩
    | ok br => exact ⟨_, rfl⟩
  · simp only [constructWithBlockSize, construct, h1]
  · simp only [constructWithBlockSize, construct, h1]
    cases resolve other rbr with
    | error e => exact ⟨e, rfl⟩
    | ok br => exact ⟨_, rfl⟩
  · simp only [construct, h1]
  · simp only [construct, h1]
    cases resolve other rbr with
    | error e => exact ⟨e, rfl⟩
    | ok br => exact ⟨_, rfl⟩

/-- Witness of C22: with both block dimensions fixed to `0` the constructor without
arguments throws. -/
theorem construct_fails_for_non_positive_fixed_witness :
    (0 : Int) ≤ 0 ∧
    constructDefault (.FIXED 0) (.FIXED 0) .NONE
      = .error "ConfigurationError: non-positive block size" :=
  ⟨by decide,
    (construct_fails_for_non_positive_fixed 0 (by decide) (.FIXED 0) .NONE DenseMatrix.empty
      none none).1⟩

end BlockMatrixBase

/-! ### Matrix utilities: `getATA`, concatenation, removal of a row or a column -/

/-- The shape and the coefficients of what `getATA(result, A)` leaves in `result`: the
lower triangle of `A^T * A`, and above the diagonal what `result` held. -/
theorem getATA_coeff (result A : DenseMatrix) :
    (getATA result A).rows = A.cols ∧ (getATA result A).cols = A.cols ∧
    (∀ i < A.cols, ∀ j ≤ i,
      (getATA result A).coeff i j = ∑ k in Finset.range A.rows, A.coeff k i * A.coeff k j ∧
      (getATA result A).coeff i j = (A.transpose.mul A).coeff i j) ∧
    (∀ i j, i < j → (getATA result A).coeff i j = result.coeff i j) := by
  have hshape := forEach_inv (fun result i =>
        result.setBlock i i (A.cols - i) 1
          ((A.transpose.bottomRows (A.cols - i)).mul (A.col i)))
      (fun st : DenseMatrix => st.rows = A.cols ∧ st.cols = A.cols) A.cols
      (fun st hst k _ => hst) (result.resize A.cols A.cols) ⟨rfl, rfl⟩
  refine ⟨hshape.1, hshape.2, ?_, ?_⟩
  · intro i hi j hj
    have hget := forEach_get (fun result i =>
          result.setBlock i i (A.cols - i) 1
            ((A.transpose.bottomRows (A.cols - i)).mul (A.col i)))
        (fun st : DenseMatrix => st.coeff i j) A.cols j
        (∑ k in Finset.range A.rows, A.coeff k i * A.coeff k j) True
        (fun st k hk => by
          simp only [DenseMatrix.setBlock, DenseMatrix.mul, DenseMatrix.bottomRows,
            DenseMatrix.transpose, DenseMatrix.col, and_true]
          by_cases h : k = j
          · subst h
            have hidx : A.cols - (A.cols - k) + (i - k) = i := by omega
            rw [if_pos ⟨hj, by omega, Nat.le_refl _, by omega⟩, if_pos rfl, hidx]
          · rw [if_neg h, if_neg]
            rintro ⟨_, _, h3, h4⟩
            exact h (by omega))
        (result.resize A.cols A.cols)
    have hval : (getATA result A).coeff i j
        = ∑ k in Finset.range A.rows, A.coeff k i * A.coeff k j := by
      show (forEach A.cols _ (result.resize A.cols A.cols)).coeff i j = _
      rw [hget, if_pos ⟨by omega, trivial⟩]
    exact ⟨hval, hval.trans rfl⟩
  · intro i j hij
    exact forEach_inv (fun result i =>
        result.setBlock i i (A.cols - i) 1
          ((A.transpose.bottomRows (A.cols - i)).mul (A.col i)))
      (fun st : DenseMatrix => st.coeff i j = result.coeff i j) A.cols
      (fun st hst k _ => by
        simp only [DenseMatrix.setBlock]
        rw [if_neg]
        · exact hst
        · rintro ⟨h1, _, h3, h4⟩
          omega)
      (result.resize A.cols A.cols) rfl

/-- C30: `getATA(result, A)` leaves `result` with the shape `n x n`, `n = cols(A)`, and for
every `i < n` and `j <= i` its coefficient `(i, j)` is the sum over `k` of
`A[k][i] * A[k][j]`, the coefficient `(i, j)` of `A^T * A`; the coefficients above the
diagonal are not written. -/
theorem getATA_lower_triangle (result A : DenseMatrix) :
    (getATA result A).rows = A.cols ∧ (getATA result A).cols = A.cols ∧
    (∀ i < A.cols, ∀ j ≤ i,
      (getATA result A).coeff i j = ∑ k in Finset.range A.rows, A.coeff k i * A.coeff k j ∧
      (getATA result A).coeff i j = (A.transpose.mul A).coeff i j) ∧
    (∀ i j, i < j → (getATA result A).coeff i j = result.coeff i j) :=
  getATA_coeff result A

/-- C29: `concatenateMatricesHorizontally(result, A, B)` leaves `B` in `result` when `A` has
no rows, otherwise `A` when `B` has no rows, otherwise, when the row counts agree, the
`rows(A) x (cols(A) + cols(B))` matrix whose first `cols(A)` columns are `A` and whose
other columns are `B`; it throws exactly when both row counts are non-zero and differ, and
then `result` is left as it was. -/
theorem concatenateMatricesHorizontally_spec (result A B : DenseMatrix) :
    (A.rows = 0 → concatenateMatricesHorizontally result A B = (.ok (), B)) ∧
    (A.rows ≠ 0 → B.rows = 0 → concatenateMatricesHorizontally result A B = (.ok (), A)) ∧
    (A.rows ≠ 0 → B.rows ≠ 0 → A.rows = B.rows →
      ∃ out, concatenateMatricesHorizontally result A B = (.ok (), out) ∧
        out.rows = A.rows ∧ out.cols = A.cols + B.cols ∧
        (∀ i < A.rows, ∀ j < A.cols, out.coeff i j = A.coeff i j) ∧
        (∀ i < A.rows, ∀ j < B.cols, out.coeff i (A.cols + j) = B.coeff i j)) ∧
    ((∃ e, (concatenateMatricesHorizontally result A B).1 = .error e) ↔
      (A.rows ≠ 0 ∧ B.rows ≠ 0 ∧ A.rows ≠ B.rows)) ∧
    (A.rows ≠ 0 → B.rows ≠ 0 → A.rows ≠ B.rows →
      concatenateMatricesHorizontally result A B
        = (.error "Inconsistent size of input matrices.", result)) := by
  refine ⟨?_, ?_, ?_, ?_, ?_⟩
  · intro h
    simp only [concatenateMatricesHorizontally, h, if_true]
  · intro h1 h2
    simp only [concatenateMatricesHorizontally, h1, h2, if_true, if_false]
  · intro h1 h2 h3
    refine ⟨((result.resize A.rows (A.cols + B.cols)).setBlock 0 0 A.rows A.cols A).setBlock
        0 A.cols B.rows B.cols B, ?_, rfl, rfl, ?_, ?_⟩
    · have h2b : ¬ B.rows = 0 := h2
      simp only [concatenateMatricesHorizontally, h1, h2b, if_false, ne_eq, h3,
        not_true_eq_false]
    · intro i hi j hj
      simp only [DenseMatrix.setBlock, DenseMatrix.resize]
      rw [if_neg (by omega), if_pos ⟨Nat.zero_le _, by omega, Nat.zero_le _, by omega⟩]
      rfl
    · intro i hi j hj
      simp only [DenseMatrix.setBlock, DenseMatrix.resize]
      rw [if_pos ⟨Nat.zero_le _, by omega, by omega, by omega⟩]
      congr 1
      omega
  · by_cases h1 : A.rows = 0
    · simp [concatenateMatricesHorizontally, h1]
    · by_cases h2 : B.rows = 0
      · simp [concatenateMatricesHorizontally, h1, h2]
      · by_cases h3 : A.rows = B.rows
        · simp [concatenateMatricesHorizontally, h1, h2, h3]
        · simp [concatenateMatricesHorizontally, h1, h2, h3]
  · intro h1 h2 h3
    simp only [concatenateMatricesHorizontally, h1, h2, h3, if_false, ne_eq, not_false_eq_true,
      if_true]

/-- C27: for a row index `r < rows`, `removeRow(matrix, r)` returns and leaves a matrix
with the same columns and one row less, in which row `i` is the old row `i` for `i < r`
and the old row `i + 1` for `i >= r`. -/
theorem removeRow_removes_row (matrix : DenseMatrix) (r : Nat) (hr : r < matrix.rows) :
    ∃ out, removeRow matrix r = (.ok (), out) ∧
      out.rows = matrix.rows - 1 ∧ out.cols = matrix.cols ∧
      ∀ i < out.rows, ∀ j < out.cols,
        out.coeff i j = if i < r then matrix.coeff i j else matrix.coeff (i + 1) j := by
  have hle : r ≤ matrix.rows := by omega
  have hnn : ¬ ((matrix.rows : Int) - 1 < 0) := by omega
  have hto : ((matrix.rows : Int) - 1).toNat = matrix.rows - 1 := by omega
  by_cases hlast : (r : Int) < (matrix.rows : Int) - 1
  · have hn : ((matrix.rows : Int) - 1 - r).toNat = matrix.rows - 1 - r := by omega
    refine ⟨(matrix.setBlock r 0 (matrix.rows - 1 - r) matrix.cols
        (matrix.block (r + 1) 0 (matrix.rows - 1 - r) matrix.cols)).conservativeResize
        (matrix.rows - 1) matrix.cols, by simp only [removeRow, hle, not_true_eq_false,
          if_false, hlast, if_true, hnn, hto, hn], rfl, rfl, ?_⟩
    intro i hi j hj
    have hi2 : i < matrix.rows - 1 := hi
    have hj2 : j < matrix.cols := hj
    simp only [DenseMatrix.conservativeResize, DenseMatrix.setBlock, DenseMatrix.block]
    by_cases h : i < r
    · rw [if_pos h, if_neg (by omega)]
    · rw [if_neg h, if_pos ⟨by omega, by omega, Nat.zero_le _, by omega⟩]
      congr 1 <;> omega
  · refine ⟨matrix.conservativeResize (matrix.rows - 1) matrix.cols,
      by simp only [removeRow, hle, not_true_eq_false, if_false, hlast, hnn, hto],
      rfl, rfl, ?_⟩
    intro i hi j hj
    have hi2 : i < matrix.rows - 1 := hi
    simp only [DenseMatrix.conservativeResize]
    rw [if_pos (by omega)]

/-- Witness of C27: the row `1` of `sampleRaw` is removed. -/
theorem removeRow_removes_row_witness :
    1 < sampleRaw.rows ∧
    ∃ out, removeRow sampleRaw 1 = (.ok (), out) ∧
      out.rows = sampleRaw.rows - 1 ∧ out.cols = sampleRaw.cols ∧
      ∀ i < out.rows, ∀ j < out.cols,
        out.coeff i j = if i < 1 then sampleRaw.coeff i j else sampleRaw.coeff (i + 1) j :=
  ⟨by decide, removeRow_removes_row sampleRaw 1 (by decide)⟩

/-- The part of `removeColumn` after its assertion: for `c < cols` that the assertion lets
through, the column `c` is removed. -/
theorem removeColumn_spec (matrix : DenseMatrix) (c : Nat) (hc : c < matrix.cols)
    (hpass : c ≤ matrix.rows) :
    ∃ out, removeColumn matrix c = (.ok (), out) ∧
      out.rows = matrix.rows ∧ out.cols = matrix.cols - 1 ∧
      ∀ i < out.rows, ∀ j < out.cols,
        out.coeff i j = if j < c then matrix.coeff i j else matrix.coeff i (j + 1) := by
  have hnn : ¬ ((matrix.cols : Int) - 1 < 0) := by omega
  have hto : ((matrix.cols : Int) - 1).toNat = matrix.cols - 1 := by omega
  by_cases hlast : (c : Int) < (matrix.cols : Int) - 1
  · have hn : ((matrix.cols : Int) - 1 - c).toNat = matrix.cols - 1 - c := by omega
    refine ⟨(matrix.setBlock 0 c matrix.rows (matrix.cols - 1 - c)
        (matrix.block 0 (c + 1) matrix.rows (matrix.cols - 1 - c))).conservativeResize
        matrix.rows (matrix.cols - 1), by simp only [removeColumn, hpass, not_true_eq_false,
          if_false, hlast, if_true, hnn, hto, hn], rfl, rfl, ?_⟩
    intro i hi j hj
    have hi2 : i < matrix.rows := hi
    have hj2 : j < matrix.cols - 1 := hj
    simp only [DenseMatrix.conservativeResize, DenseMatrix.setBlock, DenseMatrix.block]
    by_cases h : j < c
    · rw [if_pos h, if_neg (by omega)]
    · rw [if_neg h, if_pos ⟨Nat.zero_le _, by omega, by omega, by omega⟩]
      congr 1 <;> omega
  · refine ⟨matrix.conservativeResize matrix.rows (matrix.cols - 1),
      by simp only [removeColumn, hpass, not_true_eq_false, if_false, hlast, hnn, hto],
      rfl, rfl, ?_⟩
    intro i hi j hj
    have hj2 : j < matrix.cols - 1 := hj
    simp only [DenseMatrix.conservativeResize]
    rw [if_pos (by omega)]

/-- The assertion of `removeColumn` compares the index with the number of rows: an index
above it makes the call throw and leaves the matrix as it was. -/
theorem removeColumn_fails_above_rows (matrix : DenseMatrix) (c : Nat)
    (hc : matrix.rows < c) :
    removeColumn matrix c
      = (.error "The index of a removed column is greater than the size of the matrix.",
          matrix) := by
  have : ¬ c ≤ matrix.rows := by omega
  simp only [removeColumn, this, not_false_eq_true, if_true]

/-- C26, the code at the failing input `sampleRowTriple`, column `2`: the index is that of
the last of the three columns, and `removeColumn` throws and leaves the matrix as it was,
because `2` is greater than the number of rows, `1`. -/
theorem removeColumn_rejects_last_column_of_wide_matrix :
    2 < sampleRowTriple.cols ∧ sampleRowTriple.rows < 2 ∧
    removeColumn sampleRowTriple 2
      = (.error "The index of a removed column is greater than the size of the matrix.",
          sampleRowTriple) :=
  ⟨by decide, by decide, removeColumn_fails_above_rows sampleRowTriple 2 (by decide)⟩

/-- The assertion of `removeRow` lets the index `rows` through: on a matrix with at least
one row the call returns and drops the last row. -/
theorem removeRow_at_rows (matrix : DenseMatrix) (h : 1 ≤ matrix.rows) :
    removeRow matrix matrix.rows
      = (.ok (), matrix.conservativeResize (matrix.rows - 1) matrix.cols) := by
  have hnn : ¬ ((matrix.rows : Int) - 1 < 0) := by omega
  have hto : ((matrix.rows : Int) - 1).toNat = matrix.rows - 1 := by omega
  have hlast : ¬ ((matrix.rows : Int) < (matrix.rows : Int) - 1) := by omega
  simp only [removeRow, Nat.le_refl, not_true_eq_false, if_false, hlast, hnn, hto]

/-- An index above the number of rows makes `removeRow` throw and leaves the matrix as it
was. -/
theorem removeRow_fails_above_rows (matrix : DenseMatrix) (r : Nat) (hr : matrix.rows < r) :
    removeRow matrix r
      = (.error "The index of a removed row is greater than the size of the matrix.",
          matrix) := by
  have : ¬ r ≤ matrix.rows := by omega
  simp only [removeRow, this, not_false_eq_true, if_true]

/-- C28, the code at the failing input `sampleSquare`, row `2`: the matrix has the rows `0`
and `1`, and `removeRow(matrix, 2)` returns and leaves the `1 x 2` matrix `[[1, 2]]`, the
last row dropped. -/
theorem removeRow_accepts_index_rows :
    sampleSquare.rows ≤ 2 ∧
    (removeRow sampleSquare 2).1 = .ok () ∧
    (removeRow sampleSquare 2).2.rows = 1 ∧ (removeRow sampleSquare 2).2.cols = 2 ∧
    (removeRow sampleSquare 2).2.coeff 0 0 = 1 ∧ (removeRow sampleSquare 2).2.coeff 0 1 = 2 ∧
    (removeRow sampleSquare 2).2 ≠ sampleSquare := by
  have e := removeRow_at_rows sampleSquare (by decide)
  have e2 : removeRow sampleSquare 2
      = (.ok (), sampleSquare.conservativeResize (sampleSquare.rows - 1) sampleSquare.cols) := e
  rw [e2]
  refine ⟨by decide, rfl, rfl, rfl, rfl, rfl, ?_⟩
  intro h
  have : (sampleSquare.conservativeResize (sampleSquare.rows - 1) sampleSquare.cols).rows
      = sampleSquare.rows := congrArg DenseMatrix.rows h
  exact absurd this (by decide)

/-! ### `concatenateMatricesVertically` and the members without coefficients -/

theorem forEach_indexed {σ : Type} (body : σ → Nat → σ) (P : Nat → σ → Prop) (n : Nat)
    (hstep : ∀ k st, k < n → P k st → P (k + 1) (body st k)) (st : σ) (h0 : P 0 st) :
    P n (forEach n body st) := by
  induction n with
  | zero => exact h0
  | succ m ih =>
    have e : forEach (m + 1) body st = body (forEach m body st) m := by
      simp only [forEach, List.range_succ, List.foldl_append, List.foldl_cons, List.foldl_nil]
    rw [e]
    exact hstep m _ (Nat.lt_succ_self m)
      (ih (fun k st hk hP => hstep k st (Nat.lt_succ_of_lt hk) hP))

theorem forLoopAux_indexed {σ : Type} (body : σ → Nat → Outcome σ) (P : Nat → σ → Prop)
    (len : Nat) :
    ∀ (lo : Nat) (st : σ), P lo st →
      (∀ k st, lo ≤ k → k < lo + len → P k st →
        ∃ st1, body st k = (.ok (), st1) ∧ P (k + 1) st1) →
      ∃ st1, forLoopAux body (List.range' lo len) st = (.ok (), st1) ∧ P (lo + len) st1 := by
  induction len with
  | zero =>
    intro lo st h0 _
    exact ⟨st, rfl, h0⟩
  | succ m ih =>
    intro lo st h0 hstep
    obtain ⟨st1, h1, g1⟩ := hstep lo st (Nat.le_refl _) (by omega) h0
    obtain ⟨st2, h2, g2⟩ := ih (lo + 1) st1 g1
      (fun k st hk hk2 hP => hstep k st (by omega) (by omega) hP)
    refine ⟨st2, ?_, ?_⟩
    · rw [List.range'_succ]
      simp only [forLoopAux, h1, h2]
    · have e : lo + (m + 1) = lo + 1 + m := by omega
      rw [e]
      exact g2

theorem stackedRowIndex_mono (l : List DenseMatrix) {p k : Nat} (h : p ≤ k) :
    stackedRowIndex l p ≤ stackedRowIndex l k := by
  induction k with
  | zero =>
    have : p = 0 := by omega
    subst this
    exact Nat.le_refl _
  | succ m ih =>
    rcases Nat.eq_or_lt_of_le h with h1 | h1
    · subst h1
      exact Nat.le_refl _
    · have := ih (by omega)
      simp only [stackedRowIndex]
      omega

/-- The loop that erases the matrices without coefficients, past its bound. -/
theorem eraseEmptyLoop_done (fuel i : Nat) (l : List DenseMatrix) (n : Nat) (h : ¬ i < n) :
    eraseEmptyLoop fuel i l n = (l, n) := by
  cases fuel with
  | zero => rfl
  | succ f => simp only [eraseEmptyLoop, h, if_false]

/-- The loop that erases the matrices without coefficients, on a list in which no two
members without coefficients are adjacent, from position `i` on: it leaves the members
with coefficients. -/
theorem eraseEmptyLoop_filter (fuel : Nat) :
    ∀ (pre suf : List DenseMatrix), suf.length ≤ fuel →
      List.Chain' (fun a b : DenseMatrix => ¬ (a.size = 0 ∧ b.size = 0)) suf →
      eraseEmptyLoop fuel pre.length (pre ++ suf) (pre.length + suf.length)
        = (pre ++ suf.filter (fun m => decide (m.size ≠ 0)),
            pre.length + (suf.filter (fun m => decide (m.size ≠ 0))).length) := by
  induction fuel with
  | zero =>
    intro pre suf hlen _
    have : suf = [] := List.length_eq_zero.1 (by omega)
    subst this
    rfl
  | succ f ih =>
    intro pre suf hlen hch
    cases suf with
    | nil =>
      simp only [List.length_nil, Nat.add_zero, List.filter_nil]
      exact eraseEmptyLoop_done _ _ _ _ (by omega)
    | cons x rest =>
      have hget : (pre ++ x :: rest).getD pre.length DenseMatrix.empty = x := by
        rw [List.getD_append_right _ _ _ _ (Nat.le_refl _), Nat.sub_self]
        rfl
      have hlt : pre.length < pre.length + (x :: rest).length := by
        simp only [List.length_cons]
        omega
      simp only [eraseEmptyLoop, hlt, if_true, hget]
      by_cases hx : x.size = 0
      · have her : (pre ++ x :: rest).eraseIdx pre.length = pre ++ rest := by
          rw [List.eraseIdx_append_of_length_le (Nat.le_refl _), Nat.sub_self]
          rfl
        simp only [hx, if_true, her, List.length_cons, List.filter_cons, ne_eq,
          not_true_eq_false, decide_False, Bool.false_eq_true, if_false]
        cases rest with
        | nil =>
          simp only [List.length_nil, List.append_nil, List.filter_nil, Nat.add_zero]
          exact eraseEmptyLoop_done _ _ _ _ (by omega)
        | cons y rest2 =>
          have hy : ¬ y.size = 0 := fun hy => (List.chain'_cons.1 hch).1 ⟨hx, hy⟩
          have hch2 : List.Chain' (fun a b : DenseMatrix => ¬ (a.size = 0 ∧ b.size = 0))
              rest2 := (List.chain'_cons.1 hch).2.tail
          have hl2 : rest2.length ≤ f := by
            simp only [List.length_cons] at hlen
            omega
          have := ih (pre ++ [y]) rest2 hl2 hch2
          simp only [List.length_append, List.length_singleton, List.append_assoc,
            List.singleton_append] at this
          simp only [List.length_cons, List.filter_cons, ne_eq, hy, not_false_eq_true,
            decide_True, if_true]
          have e1 : pre.length + (rest2.length + 1 + 1) - 1 = pre.length + 1 + rest2.length := by
            omega
          have e2 : pre.length + ((List.filter (fun m => decide (¬ m.size = 0)) rest2).length + 1)
              = pre.length + 1 + (List.filter (fun m => decide (¬ m.size = 0)) rest2).length := by
            omega
          rw [e1, e2]
          exact this
      · have hch2 : List.Chain' (fun a b : DenseMatrix => ¬ (a.size = 0 ∧ b.size = 0))
            rest := hch.tail
        have hl2 : rest.length ≤ f := by
          simp only [List.length_cons] at hlen
          omega
        have := ih (pre ++ [x]) rest hl2 hch2
        simp only [List.length_append, List.length_singleton, List.append_assoc,
          List.singleton_append] at this
        simp only [hx, if_false, List.length_cons, List.filter_cons, ne_eq, not_false_eq_true,
          decide_True, if_true]
        have e1 : pre.length + (rest.length + 1) = pre.length + 1 + rest.length := by omega
        have e2 : pre.length + ((List.filter (fun m => decide (¬ m.size = 0)) rest).length + 1)
            = pre.length + 1 + (List.filter (fun m => decide (¬ m.size = 0)) rest).length := by
          omega
        rw [e1, e2]
        exact this

/-- The loop of `concatenateMatricesVertically` that checks the columns and counts the
rows (`misc.h`, lines 379-383), on matrices that all have `number_of_cols` columns. -/
theorem countRowsLoop_spec (l : List DenseMatrix) (number_of_cols : Nat)
    (hcols : ∀ m ∈ l, m.cols = number_of_cols) :
    forLoop 0 l.length (fun total_number_of_rows i =>
        if number_of_cols ≠ (l.getD i DenseMatrix.empty).cols then
          (.error "Inconsistent size of input matrices.", total_number_of_rows)
        else (.ok (), total_number_of_rows + (l.getD i DenseMatrix.empty).rows)) 0
      = (.ok (), stackedRowIndex l l.length) := by
  obtain ⟨st1, h1, g1⟩ := forLoopAux_indexed (fun total_number_of_rows i =>
        if number_of_cols ≠ (l.getD i DenseMatrix.empty).cols then
          (.error "Inconsistent size of input matrices.", total_number_of_rows)
        else (.ok (), total_number_of_rows + (l.getD i DenseMatrix.empty).rows))
      (fun k total => total = stackedRowIndex l k) l.length 0 0 rfl
      (fun k st _ hk hP => by
        have hk2 : k < l.length := by omega
        have hmem : l.getD k DenseMatrix.empty ∈ l := by
          rw [List.getD_eq_getElem l DenseMatrix.empty hk2]
          exact List.getElem_mem hk2
        have hc := hcols _ hmem
        refine ⟨st + (l.getD k DenseMatrix.empty).rows, ?_, ?_⟩
        · simp only [hc, ne_eq, not_true_eq_false, if_false]
        · simp only [stackedRowIndex, hP])
  simp only [Nat.zero_add] at g1
  simp only [forLoop, Nat.sub_zero, h1, g1]

/-- The loop of `concatenateMatricesVertically` that fills `result` (`misc.h`,
lines 387-392): the matrices are stacked from the top in the order of the list. -/
theorem fillRowsLoop_spec (l : List DenseMatrix) (number_of_cols : Nat) (result : DenseMatrix) :
    (forEach l.length (fun (st : DenseMatrix × Nat) i =>
        (st.1.setBlock st.2 0 (l.getD i DenseMatrix.empty).rows number_of_cols
            (l.getD i DenseMatrix.empty),
          st.2 + (l.getD i DenseMatrix.empty).rows)) (result, 0)).1.rows = result.rows ∧
    (forEach l.length (fun (st : DenseMatrix × Nat) i =>
        (st.1.setBlock st.2 0 (l.getD i DenseMatrix.empty).rows number_of_cols
            (l.getD i DenseMatrix.empty),
          st.2 + (l.getD i DenseMatrix.empty).rows)) (result, 0)).1.cols = result.cols ∧
    ∀ p < l.length, ∀ r < (l.getD p DenseMatrix.empty).rows, ∀ c < number_of_cols,
      (forEach l.length (fun (st : DenseMatrix × Nat) i =>
        (st.1.setBlock st.2 0 (l.getD i DenseMatrix.empty).rows number_of_cols
            (l.getD i DenseMatrix.empty),
          st.2 + (l.getD i DenseMatrix.empty).rows)) (result, 0)).1.coeff
          (stackedRowIndex l p + r) c = (l.getD p DenseMatrix.empty).coeff r c := by
  have h := forEach_indexed (fun (st : DenseMatrix × Nat) i =>
        (st.1.setBlock st.2 0 (l.getD i DenseMatrix.empty).rows number_of_cols
            (l.getD i DenseMatrix.empty),
          st.2 + (l.getD i DenseMatrix.empty).rows))
      (fun k (st : DenseMatrix × Nat) => st.2 = stackedRowIndex l k ∧
        st.1.rows = result.rows ∧ st.1.cols = result.cols ∧
        ∀ p < k, ∀ r < (l.getD p DenseMatrix.empty).rows, ∀ c < number_of_cols,
          st.1.coeff (stackedRowIndex l p + r) c = (l.getD p DenseMatrix.empty).coeff r c)
      l.length
      (fun k st _ hP => by
        obtain ⟨h1, h2, h3, h4⟩ := hP
        refine ⟨by simp only [stackedRowIndex, h1], h2, h3, ?_⟩
        intro p hp r hr c hc
        simp only [DenseMatrix.setBlock, h1]
        by_cases hpk : p = k
        · subst hpk
          rw [if_pos ⟨by omega, by omega, Nat.zero_le _, by omega⟩]
          congr 1
          omega
        · have hp2 : p < k := by omega
          have hm := stackedRowIndex_mono l (show p + 1 ≤ k by omega)
          simp only [stackedRowIndex] at hm
          rw [if_neg (by omega)]
          exact h4 p hp2 r hr c hc)
      (result, 0) ⟨rfl, rfl, rfl, fun p hp => absurd hp (Nat.not_lt_zero p)⟩
  exact ⟨h.2.1, h.2.2.1, h.2.2.2⟩

/-- On a list in which no two members without coefficients are adjacent and the members
with coefficients have the same number of columns, `concatenateMatricesVertically` returns
and leaves in `result` the members with coefficients, stacked from the top in the order of
the list. -/
theorem concatenateMatricesVertically_stacks (result : DenseMatrix)
    (matrices : List DenseMatrix)
    (hadj : List.Chain' (fun a b : DenseMatrix => ¬ (a.size = 0 ∧ b.size = 0)) matrices)
    (hcols : ∀ a ∈ matrices, ∀ b ∈ matrices, a.size ≠ 0 → b.size ≠ 0 → a.cols = b.cols) :
    ∃ out, concatenateMatricesVertically result matrices = (.ok (), out) ∧
      out.rows = stackedRowIndex (matrices.filter (fun m => decide (m.size ≠ 0)))
        (matrices.filter (fun m => decide (m.size ≠ 0))).length ∧
      out.cols
        = ((matrices.filter (fun m => decide (m.size ≠ 0))).getD 0 DenseMatrix.empty).cols ∧
      ∀ p < (matrices.filter (fun m => decide (m.size ≠ 0))).length,
        ∀ r < ((matrices.filter (fun m => decide (m.size ≠ 0))).getD p DenseMatrix.empty).rows,
        ∀ c < out.cols,
          out.coeff (stackedRowIndex (matrices.filter (fun m => decide (m.size ≠ 0))) p + r) c
            = ((matrices.filter (fun m => decide (m.size ≠ 0))).getD p
                DenseMatrix.empty).coeff r c := by
  generalize hL : matrices.filter (fun m => decide (m.size ≠ 0)) = L
  by_cases hpos : matrices.length > 0
  · have herase : eraseEmptyLoop matrices.length 0 matrices matrices.length = (L, L.length) := by
      have := eraseEmptyLoop_filter matrices.length [] matrices (Nat.le_refl _) hadj
      simp only [List.length_nil, List.nil_append, Nat.zero_add, hL] at this
      exact this
    by_cases hn0 : L.length = 0
    · have hnil : L = [] := List.length_eq_zero.1 hn0
      refine ⟨result.resize 0 0, ?_, ?_, ?_, ?_⟩
      · simp only [concatenateMatricesVertically, hpos, if_true, herase, hn0]
      · rw [hnil]; rfl
      · rw [hnil]; rfl
      · intro p hp
        rw [hn0] at hp
        exact absurd hp (Nat.not_lt_zero p)
    · have hLcols : ∀ m ∈ L, m.cols = (L.getD 0 DenseMatrix.empty).cols := by
        intro m hm
        have h0 : 0 < L.length := by omega
        have hmem0 : L.getD 0 DenseMatrix.empty ∈ L := by
          rw [List.getD_eq_getElem L DenseMatrix.empty h0]
          exact List.getElem_mem h0
        rw [← hL] at hm hmem0
        have a1 := List.mem_filter.1 hm
        have a2 := List.mem_filter.1 hmem0
        rw [hL] at a2
        exact hcols m a1.1 _ a2.1 (of_decide_eq_true a1.2) (of_decide_eq_true a2.2)
      have hcount := countRowsLoop_spec L (L.getD 0 DenseMatrix.empty).cols hLcols
      obtain ⟨f1, f2, f3⟩ := fillRowsLoop_spec L (L.getD 0 DenseMatrix.empty).cols
        (result.resize (stackedRowIndex L L.length) (L.getD 0 DenseMatrix.empty).cols)
      refine ⟨_, ?_, f1, f2, ?_⟩
      swap
      · intro p hp r hr c hc
        exact f3 p hp r hr c (by rw [f2] at hc; exact hc)
      · simp only [concatenateMatricesVertically, hpos, if_true, herase, hn0, if_false, hcount]
  · have hnil : matrices = [] := List.length_eq_zero.1 (by omega)
    subst hnil
    simp only [List.filter_nil] at hL
    subst hL
    exact ⟨result.resize 0 0, rfl, rfl, rfl, fun p hp => absurd hp (Nat.not_lt_zero p)⟩

/-- The loop that erases the matrices without coefficients ends within
`number_of_matrices - i` passes: more passes than that change nothing. -/
theorem eraseEmptyLoop_enough_fuel (fuel extra : Nat) :
    ∀ (i : Nat) (nonempty_matrices : List DenseMatrix) (number_of_matrices : Nat),
      number_of_matrices ≤ i + fuel →
      eraseEmptyLoop (fuel + extra) i nonempty_matrices number_of_matrices
        = eraseEmptyLoop fuel i nonempty_matrices number_of_matrices := by
  induction fuel with
  | zero =>
    intro i l n h
    cases extra with
    | zero => rfl
    | succ e =>
      have : ¬ i < n := by omega
      simp only [Nat.zero_add, eraseEmptyLoop, this, if_false]
  | succ f ih =>
    intro i l n h
    have e : f + 1 + extra = (f + extra) + 1 := by omega
    rw [e]
    simp only [eraseEmptyLoop]
    by_cases h1 : i < n
    · simp only [h1, if_true]
      by_cases h2 : (l.getD i DenseMatrix.empty).size = 0
      · simp only [h2, if_true]
        exact ih (i + 1) _ _ (by omega)
      · simp only [h2, if_false]
        exact ih (i + 1) _ _ (by omega)
    · simp only [h1, if_false]

/-- C25, the code at the failing input `[empty, empty, sampleRowPair]`: the only member
with coefficients is `[[1, 2]]`, and `concatenateMatricesVertically` throws and leaves
`result` as it was. The loop that erases the empty members passes over the second one:
after it the list is `[empty, sampleRowPair]`, and the number of columns is taken from the
empty matrix. With one empty member between the others the call returns the stacked
matrices. -/
theorem concatenateMatricesVertically_keeps_second_empty :
    (∀ m ∈ [DenseMatrix.empty, DenseMatrix.empty, sampleRowPair], m.size ≠ 0 → m.cols = 2) ∧
    eraseEmptyLoop 3 0 [DenseMatrix.empty, DenseMatrix.empty, sampleRowPair] 3
      = ([DenseMatrix.empty, sampleRowPair], 2) ∧
    concatenateMatricesVertically sampleResult
        [DenseMatrix.empty, DenseMatrix.empty, sampleRowPair]
      = (.error "Inconsistent size of input matrices.", sampleResult) ∧
    concatenateMatricesVertically sampleResult
        [sampleRowPair, DenseMatrix.empty, DenseMatrix.empty]
      = (.error "Inconsistent size of input matrices.", sampleResult) ∧
    (concatenateMatricesVertically sampleResult
        [DenseMatrix.empty, sampleRowPair, DenseMatrix.empty, sampleSquare]).1 = .ok () ∧
    (concatenateMatricesVertically sampleResult
        [DenseMatrix.empty, sampleRowPair, DenseMatrix.empty, sampleSquare]).2.rows = 3 := by
  refine ⟨?_, rfl, rfl, rfl, rfl, rfl⟩
  intro m hm hne
  simp only [List.mem_cons, List.mem_singleton, List.not_mem_nil, or_false] at hm
  rcases hm with rfl | rfl | rfl
  · exact absurd rfl hne
  · exact absurd rfl hne
  · rfl

/-! ### Matrix utilities: symmetric completion, block-diagonal replication, selection of
rows, concatenation of three matrices -/

/-- What `convertLLTtoSymmetric(matrix)` leaves: the shape is kept, the coefficient `(i, j)`
right of the diagonal and inside the columns is the old coefficient `(j, i)`, and every
other coefficient is kept. -/
theorem convertLLTtoSymmetric_coeff (L : DenseMatrix) :
    (convertLLTtoSymmetric L).rows = L.rows ∧ (convertLLTtoSymmetric L).cols = L.cols ∧
    ∀ i j, (convertLLTtoSymmetric L).coeff i j
      = if i < j ∧ j < L.cols then L.coeff j i else L.coeff i j := by
  have h := forEach_indexed (fun matrix i =>
        matrix.setBlock i (i + 1) 1 (L.cols - i - 1)
          (matrix.transpose.block i (i + 1) 1 (L.cols - i - 1)))
      (fun k (st : DenseMatrix) => st.rows = L.rows ∧ st.cols = L.cols ∧
        ∀ i j, st.coeff i j = if i < k ∧ i < j ∧ j < L.cols then L.coeff j i else L.coeff i j)
      (L.cols - 1)
      (fun k st hk hP => by
        obtain ⟨h1, h2, h3⟩ := hP
        refine ⟨h1, h2, ?_⟩
        intro i j
        simp only [DenseMatrix.setBlock, DenseMatrix.block, DenseMatrix.transpose]
        by_cases hreg : k ≤ i ∧ i < k + 1 ∧ k + 1 ≤ j ∧ j < k + 1 + (L.cols - k - 1)
        · obtain ⟨a1, a2, a3, a4⟩ := hreg
          have hik : i = k := by omega
          subst hik
          rw [if_pos ⟨a1, a2, a3, a4⟩, if_pos ⟨by omega, by omega, by omega⟩, h3]
          have e1 : i + 1 + (j - (i + 1)) = j := by omega
          have e2 : i + (i - i) = i := by omega
          rw [e1, e2, if_neg (by omega)]
        · rw [if_neg hreg, h3]
          by_cases hc : i < k ∧ i < j ∧ j < L.cols
          · rw [if_pos hc, if_pos ⟨by omega, hc.2.1, hc.2.2⟩]
          · rw [if_neg hc, if_neg]
            rintro ⟨b1, b2, b3⟩
            by_cases hik : i = k
            · exact hreg ⟨by omega, by omega, by omega, by omega⟩
            · exact hc ⟨by omega, b2, b3⟩)
      L ⟨rfl, rfl, fun i j => by simp⟩
  refine ⟨h.1, h.2.1, ?_⟩
  intro i j
  show (forEach (L.cols - 1) _ L).coeff i j = _
  rw [h.2.2 i j]
  by_cases hc : i < j ∧ j < L.cols
  · rw [if_pos hc, if_pos ⟨by omega, hc.1, hc.2⟩]
  · rw [if_neg hc, if_neg]
    rintro ⟨_, b2, b3⟩
    exact hc ⟨b2, b3⟩

/-- C31: for a square matrix `L`, `convertLLTtoSymmetric(L)` leaves a matrix `S` of the same
shape with `S[i][j] = L[max(i,j)][min(i,j)]` for all `i` and `j` inside the shape: `S` is
symmetric, and on and below the diagonal it is `L`. -/
theorem convertLLTtoSymmetric_mirrors_lower_triangle (L : DenseMatrix)
    (hsq : L.rows = L.cols) :
    (convertLLTtoSymmetric L).rows = L.rows ∧ (convertLLTtoSymmetric L).cols = L.cols ∧
    (∀ i < L.rows, ∀ j < L.cols,
      (convertLLTtoSymmetric L).coeff i j = L.coeff (max i j) (min i j)) ∧
    (∀ i < L.rows, ∀ j < L.cols,
      (convertLLTtoSymmetric L).coeff i j = (convertLLTtoSymmetric L).coeff j i) ∧
    (∀ i < L.rows, ∀ j ≤ i, (convertLLTtoSymmetric L).coeff i j = L.coeff i j) := by
  obtain ⟨h1, h2, h3⟩ := convertLLTtoSymmetric_coeff L
  have key : ∀ i < L.rows, ∀ j < L.cols,
      (convertLLTtoSymmetric L).coeff i j = L.coeff (max i j) (min i j) := by
    intro i _ j hj
    rw [h3]
    by_cases hij : i < j
    · rw [if_pos ⟨hij, hj⟩, max_eq_right (by omega), min_eq_left (by omega)]
    · rw [if_neg (fun h => hij h.1), max_eq_left (by omega), min_eq_right (by omega)]
  refine ⟨h1, h2, key, ?_, ?_⟩
  · intro i hi j hj
    rw [key i hi j hj, key j (by omega) i (by omega), max_comm, min_comm]
  · intro i _ j hj
    rw [h3, if_neg (by omega)]

/-- Witness of C31 on `sampleSquare`: the coefficient `(0, 1)` becomes `3`. -/
theorem convertLLTtoSymmetric_mirrors_lower_triangle_witness :
    sampleSquare.rows = sampleSquare.cols ∧
    (∀ i < sampleSquare.rows, ∀ j < sampleSquare.cols,
      (convertLLTtoSymmetric sampleSquare).coeff i j
        = sampleSquare.coeff (max i j) (min i j)) ∧
    (convertLLTtoSymmetric sampleSquare).coeff 0 1 = 3 :=
  ⟨rfl, (convertLLTtoSymmetric_mirrors_lower_triangle sampleSquare rfl).2.2.1, rfl⟩

/-- C39: `getATA(result, A)` followed by `convertLLTtoSymmetric(result)` leaves in `result`
the matrix `A^T * A`, every coefficient of it, and the coefficients `(i, j)` and `(j, i)` of
`result` are equal. -/
theorem getATA_then_convertLLTtoSymmetric (result A : DenseMatrix) :
    DenseMatrix.Same (convertLLTtoSymmetric (getATA result A)) (A.transpose.mul A) ∧
    (∀ i < A.cols, ∀ j < A.cols,
      (convertLLTtoSymmetric (getATA result A)).coeff i j
        = ∑ k in Finset.range A.rows, A.coeff k i * A.coeff k j) ∧
    (∀ i < A.cols, ∀ j < A.cols,
      (convertLLTtoSymmetric (getATA result A)).coeff i j
        = (convertLLTtoSymmetric (getATA result A)).coeff j i) := by
  obtain ⟨h1, h2, h3⟩ := convertLLTtoSymmetric_coeff (getATA result A)
  obtain ⟨g1, g2, g3, _⟩ := getATA_coeff result A
  have key : ∀ i < A.cols, ∀ j < A.cols,
      (convertLLTtoSymmetric (getATA result A)).coeff i j
        = ∑ k in Finset.range A.rows, A.coeff k i * A.coeff k j := by
    intro i hi j hj
    rw [h3, g2]
    by_cases hij : i < j
    · rw [if_pos ⟨hij, hj⟩, (g3 j hj i (by omega)).1]
      exact Finset.sum_congr rfl (fun k _ => Int.mul_comm _ _)
    · rw [if_neg (fun h => hij h.1), (g3 i hi j (by omega)).1]
  refine ⟨⟨h1.trans g1, h2.trans g2, ?_⟩, key, ?_⟩
  · intro i hi j hj
    rw [h1, g1] at hi
    rw [h2, g2] at hj
    rw [key i hi j hj]
    rfl
  · intro i hi j hj
    rw [key i hi j hj, key j hj i hi]
    exact Finset.sum_congr rfl (fun k _ => Int.mul_comm _ _)

/-- C32: for every input matrix of shape `r x c` and every number of copies `n`,
`makeBlockDiagonal(input, n)` returns a matrix of shape `(n*r) x (n*c)` whose coefficient
`(a*r + p, b*c + q)` is `input[p][q]` when `a = b` and zero otherwise; for `n = 0` it is the
empty matrix and for `n = 1` the input. -/
theorem makeBlockDiagonal_all_copies (input_matrix : DenseMatrix) (num_copies : Nat) :
    (makeBlockDiagonal input_matrix num_copies).rows = num_copies * input_matrix.rows ∧
    (makeBlockDiagonal input_matrix num_copies).cols = num_copies * input_matrix.cols ∧
    (∀ a < num_copies, ∀ b < num_copies, ∀ p < input_matrix.rows, ∀ q < input_matrix.cols,
      (makeBlockDiagonal input_matrix num_copies).coeff (a * input_matrix.rows + p)
          (b * input_matrix.cols + q) =
        if a = b then input_matrix.coeff p q else 0) ∧
    makeBlockDiagonal input_matrix 0 = DenseMatrix.empty ∧
    makeBlockDiagonal input_matrix 1 = input_matrix := by
  refine ⟨?_, ?_, ?_, rfl, rfl⟩
  · match num_copies with
    | 0 => simp [makeBlockDiagonal, DenseMatrix.empty]
    | 1 => simp [makeBlockDiagonal]
    | n + 2 => exact (makeBlockDiagonal_spec input_matrix (n + 2) (by omega)).1
  · match num_copies with
    | 0 => simp [makeBlockDiagonal, DenseMatrix.empty]
    | 1 => simp [makeBlockDiagonal]
    | n + 2 => exact (makeBlockDiagonal_spec input_matrix (n + 2) (by omega)).2.1
  · match num_copies with
    | 0 => intro a ha; omega
    | 1 =>
      intro a ha b hb p _ q _
      have ha0 : a = 0 := by omega
      have hb0 : b = 0 := by omega
      subst ha0 hb0
      simp [makeBlockDiagonal]
    | n + 2 => exact (makeBlockDiagonal_spec input_matrix (n + 2) (by omega)).2.2

/-- The ceiling of a quotient of naturals. -/
theorem ceil_div_nat (d s : Nat) (hs : 1 ≤ s) :
    (Int.ceil ((d : ℚ) / (s : ℚ))).toNat = (d + s - 1) / s := by
  have hs0 : (0 : ℚ) < (s : ℚ) := by exact_mod_cast hs
  have h1 : (d + s - 1) / s * s < d + s := by
    have := Nat.div_mul_le_self (d + s - 1) s
    omega
  have h2 : d ≤ (d + s - 1) / s * s := by
    have := Nat.div_add_mod (d + s - 1) s
    have := Nat.mod_lt (d + s - 1) (show 0 < s by omega)
    have e : s * ((d + s - 1) / s) = (d + s - 1) / s * s := Nat.mul_comm _ _
    omega
  generalize (d + s - 1) / s = q at h1 h2 ⊢
  have h : Int.ceil ((d : ℚ) / (s : ℚ)) = (q : Int) := by
    rw [Int.ceil_eq_iff]
    constructor
    · rw [lt_div_iff₀ hs0]
      have h3 : ((q : ℚ)) * (s : ℚ) < (d : ℚ) + (s : ℚ) := by exact_mod_cast h1
      push_cast
      linarith
    · rw [div_le_iff₀ hs0]
      exact_mod_cast h2
  rw [h, Int.toNat_ofNat]

/-- C33: for a column-major matrix with `R` rows (a size of the machine), `row_step >= 1`
and `first_row <= R`, `selectRows(matrix, row_step, first_row)` has
`ceil((R - first_row) / row_step)` rows and the columns of `matrix`; its row `i` is the row
`first_row + i*row_step` of `matrix`, which exists, and every row
`first_row + k*row_step` of `matrix` is one of its rows. The product of
`SelectionMatrix(row_step, first_row)` with `matrix` is the same matrix. -/
theorem selectRows_spec (matrix : DenseMatrix) (row_step first_row : Nat)
    (hstep : 1 ≤ row_step) (hfirst : first_row ≤ matrix.rows) (hsize : matrix.rows < 2 ^ 64) :
    (selectRows matrix row_step first_row).rows
      = (matrix.rows - first_row + row_step - 1) / row_step ∧
    ((selectRows matrix row_step first_row).rows : ℚ)
      = Int.ceil (((matrix.rows - first_row : Nat) : ℚ) / (row_step : ℚ)) ∧
    (selectRows matrix row_step first_row).cols = matrix.cols ∧
    (∀ i < (selectRows matrix row_step first_row).rows,
      first_row + i * row_step < matrix.rows ∧
      ∀ j < matrix.cols, (selectRows matrix row_step first_row).coeff i j
        = matrix.coeff (first_row + i * row_step) j) ∧
    (∀ k, first_row + k * row_step < matrix.rows →
      k < (selectRows matrix row_step first_row).rows) ∧
    (SelectionMatrix.construct row_step first_row).mul matrix
      = selectRows matrix row_step first_row := by
  have hdiff : (((matrix.rows : Int) - (first_row : Int)) % 2 ^ 64).toNat
      = matrix.rows - first_row := by
    rw [Int.emod_eq_of_lt (by omega) (by omega)]
    omega
  have hrows : (selectRows matrix row_step first_row).rows
      = (matrix.rows - first_row + row_step - 1) / row_step := by
    simp only [selectRows, hdiff]
    exact ceil_div_nat _ _ hstep
  have hceil : ((selectRows matrix row_step first_row).rows : ℚ)
      = Int.ceil (((matrix.rows - first_row : Nat) : ℚ) / (row_step : ℚ)) := by
    have hnn : 0 ≤ Int.ceil (((matrix.rows - first_row : Nat) : ℚ) / (row_step : ℚ)) :=
      Int.ceil_nonneg (div_nonneg (Nat.cast_nonneg _) (Nat.cast_nonneg _))
    simp only [selectRows, hdiff]
    have := Int.toNat_of_nonneg hnn
    exact_mod_cast this
  have hlow : (matrix.rows - first_row + row_step - 1) / row_step * row_step
      < matrix.rows - first_row + row_step := by
    have := Nat.div_mul_le_self (matrix.rows - first_row + row_step - 1) row_step
    omega
  have hhigh : matrix.rows - first_row
      ≤ (matrix.rows - first_row + row_step - 1) / row_step * row_step := by
    have := Nat.div_add_mod (matrix.rows - first_row + row_step - 1) row_step
    have := Nat.mod_lt (matrix.rows - first_row + row_step - 1) (show 0 < row_step by omega)
    have e : row_step * ((matrix.rows - first_row + row_step - 1) / row_step)
        = (matrix.rows - first_row + row_step - 1) / row_step * row_step := Nat.mul_comm _ _
    omega
  refine ⟨hrows, hceil, rfl, ?_, ?_, rfl⟩
  · intro i hi
    rw [hrows] at hi
    have h1 : (i + 1) * row_step
        ≤ (matrix.rows - first_row + row_step - 1) / row_step * row_step :=
      Nat.mul_le_mul_right _ hi
    rw [Nat.add_mul, Nat.one_mul] at h1
    have hin : first_row + i * row_step < matrix.rows := by omega
    refine ⟨hin, ?_⟩
    intro j _
    show matrix.data (first_row + i * row_step + j * matrix.rows) = _
    simp only [DenseMatrix.data]
    rw [Nat.add_mul_mod_self_right, Nat.mod_eq_of_lt hin,
      Nat.add_mul_div_right _ _ (by omega : 0 < matrix.rows), Nat.div_eq_of_lt hin,
      Nat.zero_add]
  · intro k hk
    rw [hrows]
    have h1 : k * row_step
        < (matrix.rows - first_row + row_step - 1) / row_step * row_step := by omega
    exact Nat.lt_of_mul_lt_mul_right h1

/-- Witness of C33: every third row of `sampleRaw` from row `1` on is the row `1`. -/
theorem selectRows_spec_witness :
    1 ≤ 3 ∧ 1 ≤ sampleRaw.rows ∧ sampleRaw.rows < 2 ^ 64 ∧
    (selectRows sampleRaw 3 1).rows = (sampleRaw.rows - 1 + 3 - 1) / 3 ∧
    ∀ i < (selectRows sampleRaw 3 1).rows,
      1 + i * 3 < sampleRaw.rows ∧
      ∀ j < sampleRaw.cols, (selectRows sampleRaw 3 1).coeff i j
        = sampleRaw.coeff (1 + i * 3) j :=
  ⟨by decide, by decide, by decide,
    (selectRows_spec sampleRaw 3 1 (by decide) (by decide) (by decide)).1,
    (selectRows_spec sampleRaw 3 1 (by decide) (by decide) (by decide)).2.2.2.1⟩

/-- C38: the overload of `concatenateMatricesHorizontally` with three inputs returns or
throws as the overload with two inputs applied twice does, first to `A` and `B` with the
temporary `T`, then to `T` and `C`; the error is the same, and when both return they leave
the same matrix in `result`. -/
theorem concatenateMatricesHorizontally3_eq_twice (result temporary A B C : DenseMatrix) :
    ((concatenateMatricesHorizontally3 result A B C).1 = .ok () ↔
      ((concatenateMatricesHorizontally temporary A B).1 = .ok () ∧
        (concatenateMatricesHorizontally result
          (concatenateMatricesHorizontally temporary A B).2 C).1 = .ok ())) ∧
    ((concatenateMatricesHorizontally3 result A B C).1 = .ok () →
      DenseMatrix.Same (concatenateMatricesHorizontally3 result A B C).2
        (concatenateMatricesHorizontally result
          (concatenateMatricesHorizontally temporary A B).2 C).2) ∧
    ((concatenateMatricesHorizontally3 result A B C).1 ≠ .ok () →
      (concatenateMatricesHorizontally3 result A B C)
        = (.error "Inconsistent size of input matrices.", result) ∧
      ((concatenateMatricesHorizontally temporary A B).1
          = .error "Inconsistent size of input matrices." ∨
        (concatenateMatricesHorizontally result
          (concatenateMatricesHorizontally temporary A B).2 C).1
          = .error "Inconsistent size of input matrices.")) := by
  have hsame : ∀ m : DenseMatrix, DenseMatrix.Same m m := fun m => ⟨rfl, rfl, fun _ _ _ _ => rfl⟩
  by_cases hA : A.rows = 0
  · have e1 : concatenateMatricesHorizontally temporary A B = (.ok (), B) := by
      simp only [concatenateMatricesHorizontally, hA, if_true]
    have e3 : concatenateMatricesHorizontally3 result A B C
        = concatenateMatricesHorizontally result B C := by
      simp only [concatenateMatricesHorizontally3, hA, if_true]
    rw [e1, e3]
    refine ⟨⟨fun h => ⟨rfl, h⟩, fun h => h.2⟩, fun _ => hsame _, ?_⟩
    intro hne
    by_cases hB : B.rows = 0
    · exact absurd (by simp only [concatenateMatricesHorizontally, hB, if_true]) hne
    · by_cases hC : C.rows = 0
      · exact absurd (by simp only [concatenateMatricesHorizontally, hB, hC, if_true,
          if_false]) hne
      · by_cases hBC : B.rows = C.rows
        · exact absurd (by simp only [concatenateMatricesHorizontally, hB, hC, hBC, if_false,
            ne_eq, not_true_eq_false]) hne
        · have : concatenateMatricesHorizontally result B C
              = (.error "Inconsistent size of input matrices.", result) := by
            simp only [concatenateMatricesHorizontally, hB, hC, hBC, if_false, ne_eq,
              not_false_eq_true, if_true]
          rw [this]
          exact ⟨rfl, Or.inr rfl⟩
  · by_cases hB : B.rows = 0
    · have e1 : concatenateMatricesHorizontally temporary A B = (.ok (), A) := by
        simp only [concatenateMatricesHorizontally, hA, hB, if_true, if_false]
      have e3 : concatenateMatricesHorizontally3 result A B C
          = concatenateMatricesHorizontally result A C := by
        simp only [concatenateMatricesHorizontally3, hA, hB, if_true, if_false]
      rw [e1, e3]
      refine ⟨⟨fun h => ⟨rfl, h⟩, fun h => h.2⟩, fun _ => hsame _, ?_⟩
      intro hne
      by_cases hC : C.rows = 0
      · exact absurd (by simp only [concatenateMatricesHorizontally, hA, hC, if_true,
          if_false]) hne
      · by_cases hAC : A.rows = C.rows
        · exact absurd (by simp only [concatenateMatricesHorizontally, hA, hC, hAC, if_false,
            ne_eq, not_true_eq_false]) hne
        · have : concatenateMatricesHorizontally result A C
              = (.error "Inconsistent size of input matrices.", result) := by
            simp only [concatenateMatricesHorizontally, hA, hC, hAC, if_false, ne_eq,
              not_false_eq_true, if_true]
          rw [this]
          exact ⟨rfl, Or.inr rfl⟩
    · by_cases hAB : A.rows = B.rows
      · have e1 : concatenateMatricesHorizontally temporary A B
            = (.ok (), ((temporary.resize A.rows (A.cols + B.cols)).setBlock 0 0 A.rows A.cols
                A).setBlock 0 A.cols B.rows B.cols B) := by
          simp only [concatenateMatricesHorizontally, hA, hB, if_false, ne_eq, hAB,
            not_true_eq_false]
        rw [e1]
        by_cases hC : C.rows = 0
        · have e3 : concatenateMatricesHorizontally3 result A B C
              = (.ok (), ((result.resize A.rows (A.cols + B.cols)).setBlock 0 0 A.rows A.cols
                  A).setBlock 0 A.cols B.rows B.cols B) := by
            simp only [concatenateMatricesHorizontally3, concatenateMatricesHorizontally, hA,
              hB, hC, if_true, if_false, ne_eq, hAB, not_true_eq_false]
          have e2 : concatenateMatricesHorizontally result
              (((temporary.resize A.rows (A.cols + B.cols)).setBlock 0 0 A.rows A.cols
                A).setBlock 0 A.cols B.rows B.cols B) C
              = (.ok (), ((temporary.resize A.rows (A.cols + B.cols)).setBlock 0 0 A.rows A.cols
                A).setBlock 0 A.cols B.rows B.cols B) := by
            have hT : ¬ A.rows = 0 := hA
            simp only [concatenateMatricesHorizontally, DenseMatrix.setBlock,
              DenseMatrix.resize, hT, hC, if_true, if_false]
          rw [e3, e2]
          refine ⟨⟨fun _ => ⟨rfl, rfl⟩, fun _ => rfl⟩, fun _ => ⟨rfl, rfl, ?_⟩,
            fun hne => absurd rfl hne⟩
          intro i hi j hj
          simp only [DenseMatrix.setBlock, DenseMatrix.resize] at hi hj ⊢
          by_cases h1 : 0 ≤ i ∧ i < 0 + B.rows ∧ A.cols ≤ j ∧ j < A.cols + B.cols
          · rw [if_pos h1, if_pos h1]
          · rw [if_neg h1, if_neg h1]
            have h2 : 0 ≤ i ∧ i < 0 + A.rows ∧ 0 ≤ j ∧ j < 0 + A.cols := by
              refine ⟨Nat.zero_le _, by omega, Nat.zero_le _, ?_⟩
              by_contra hcon
              exact h1 ⟨Nat.zero_le _, by omega, by omega, hj⟩
            rw [if_pos h2, if_pos h2]
        · by_cases hAC : A.rows = C.rows
          · have e3 : concatenateMatricesHorizontally3 result A B C
                = (.ok (), (((result.resize A.rows (A.cols + B.cols + C.cols)).setBlock 0 0
                    A.rows A.cols A).setBlock 0 A.cols B.rows B.cols B).setBlock
                    0 (A.cols + B.cols) C.rows C.cols C) := by
              simp only [concatenateMatricesHorizontally3, hA, hB, hC, if_false, ← hAB, ← hAC,
                and_self, not_true_eq_false]
            have hT : ¬ A.rows = 0 := hA
            have e2 : concatenateMatricesHorizontally result
                (((temporary.resize A.rows (A.cols + B.cols)).setBlock 0 0 A.rows A.cols
                  A).setBlock 0 A.cols B.rows B.cols B) C
                = (.ok (), ((result.resize A.rows (A.cols + B.cols + C.cols)).setBlock 0 0
                    A.rows (A.cols + B.cols)
                    (((temporary.resize A.rows (A.cols + B.cols)).setBlock 0 0 A.rows A.cols
                      A).setBlock 0 A.cols B.rows B.cols B)).setBlock
                    0 (A.cols + B.cols) C.rows C.cols C) := by
              simp only [concatenateMatricesHorizontally, DenseMatrix.setBlock,
                DenseMatrix.resize, hT, hC, if_false, ne_eq, hAC, not_true_eq_false]
            rw [e3, e2]
            refine ⟨⟨fun _ => ⟨rfl, rfl⟩, fun _ => rfl⟩, fun _ => ⟨rfl, rfl, ?_⟩,
              fun hne => absurd rfl hne⟩
            intro i hi j hj
            simp only [DenseMatrix.setBlock, DenseMatrix.resize] at hi hj ⊢
            by_cases h1 : 0 ≤ i ∧ i < 0 + C.rows ∧ A.cols + B.cols ≤ j
                ∧ j < A.cols + B.cols + C.cols
            · rw [if_pos h1, if_pos h1]
            · rw [if_neg h1, if_neg h1]
              have hj2 : j < A.cols + B.cols := by
                by_contra hcon
                exact h1 ⟨Nat.zero_le _, by omega, by omega, hj⟩
              rw [if_pos (show 0 ≤ i ∧ i < 0 + A.rows ∧ 0 ≤ j ∧ j < 0 + (A.cols + B.cols) from
                ⟨Nat.zero_le _, by omega, Nat.zero_le _, by omega⟩)]
              simp only [Nat.sub_zero]
              by_cases h2 : 0 ≤ i ∧ i < 0 + B.rows ∧ A.cols ≤ j ∧ j < A.cols + B.cols
              · rw [if_pos h2, if_pos h2]
              · rw [if_neg h2, if_neg h2]
                have h3 : 0 ≤ i ∧ i < 0 + A.rows ∧ 0 ≤ j ∧ j < 0 + A.cols := by
                  refine ⟨Nat.zero_le _, by omega, Nat.zero_le _, ?_⟩
                  by_contra hcon
                  exact h2 ⟨Nat.zero_le _, by omega, by omega, hj2⟩
                rw [if_pos h3, if_pos h3]
          · have e3 : concatenateMatricesHorizontally3 result A B C
                = (.error "Inconsistent size of input matrices.", result) := by
              have : ¬ (A.rows = B.rows ∧ A.rows = C.rows) := fun h => hAC h.2
              simp only [concatenateMatricesHorizontally3, hA, hB, hC, if_false, this,
                not_false_eq_true, if_true]
            have hT : ¬ A.rows = 0 := hA
            have e2 : concatenateMatricesHorizontally result
                (((temporary.resize A.rows (A.cols + B.cols)).setBlock 0 0 A.rows A.cols
                  A).setBlock 0 A.cols B.rows B.cols B) C
                = (.error "Inconsistent size of input matrices.", result) := by
              simp only [concatenateMatricesHorizontally, DenseMatrix.setBlock,
                DenseMatrix.resize, hT, hC, if_false, ne_eq, hAC, not_false_eq_true, if_true]
            rw [e3, e2]
            refine ⟨⟨fun h => (by cases h), fun h => (by cases h.2)⟩, fun h => (by cases h),
              fun _ => ⟨rfl, Or.inr rfl⟩⟩
      · have e1 : concatenateMatricesHorizontally temporary A B
            = (.error "Inconsistent size of input matrices.", temporary) := by
          simp only [concatenateMatricesHorizontally, hA, hB, if_false, ne_eq, hAB,
            not_false_eq_true, if_true]
        have e3 : concatenateMatricesHorizontally3 result A B C
            = (.error "Inconsistent size of input matrices.", result) := by
          by_cases hC : C.rows = 0
          · simp only [concatenateMatricesHorizontally3, concatenateMatricesHorizontally, hA,
              hB, hC, if_true, if_false, ne_eq, hAB, not_false_eq_true]
          · have : ¬ (A.rows = B.rows ∧ A.rows = C.rows) := fun h => hAB h.1
            simp only [concatenateMatricesHorizontally3, hA, hB, hC, if_false, this,
              not_false_eq_true, if_true]
        rw [e1, e3]
        refine ⟨⟨fun h => (by cases h), fun h => (by cases h.1)⟩, fun h => (by cases h),
          fun _ => ⟨rfl, Or.inl rfl⟩⟩

/-! ### `multiplyBlockKroneckerIdentity` and `evaluate()` -/

namespace BlockKroneckerProductBase

/-- The three nested loops of `multiplyBlockKroneckerIdentity` over the blocks of a block
matrix without sparsity: they keep the shape and leave at the coefficient `(r, c)` of the
expanded block `(i*s + k, j*s + k2)` the coefficient `(r, c)` of block `(i, j)` when
`k = k2`, and the old coefficient otherwise. -/
theorem blockKroneckerLoops_spec (K : BlockKroneckerProductBase)
    (hs : K.t_sparsity_type = MatrixSparsityType.NONE) (output : DenseMatrix) :
    (forEach K.num_blocks_vert_ (fun output i =>
      forEach K.num_blocks_hor_ (fun output j =>
        forEach K.identity_size_ (fun output k =>
          output.setBlock (i * (K.identity_size_ * K.block_rows_num_) + k * K.block_rows_num_)
            (j * (K.identity_size_ * K.block_cols_num_) + k * K.block_cols_num_)
            K.block_rows_num_ K.block_cols_num_
            (K.matrix_.block (i * K.block_rows_num_) (j * K.block_cols_num_) K.block_rows_num_
              K.block_cols_num_)) output) output) output).rows = output.rows ∧
    (forEach K.num_blocks_vert_ (fun output i =>
      forEach K.num_blocks_hor_ (fun output j =>
        forEach K.identity_size_ (fun output k =>
          output.setBlock (i * (K.identity_size_ * K.block_rows_num_) + k * K.block_rows_num_)
            (j * (K.identity_size_ * K.block_cols_num_) + k * K.block_cols_num_)
            K.block_rows_num_ K.block_cols_num_
            (K.matrix_.block (i * K.block_rows_num_) (j * K.block_cols_num_) K.block_rows_num_
              K.block_cols_num_)) output) output) output).cols = output.cols ∧
    ∀ i < K.num_blocks_vert_, ∀ j < K.num_blocks_hor_, ∀ k < K.identity_size_,
      ∀ k2 < K.identity_size_, ∀ r < K.block_rows_num_, ∀ c < K.block_cols_num_,
      (forEach K.num_blocks_vert_ (fun output i =>
        forEach K.num_blocks_hor_ (fun output j =>
          forEach K.identity_size_ (fun output k =>
            output.setBlock
              (i * (K.identity_size_ * K.block_rows_num_) + k * K.block_rows_num_)
              (j * (K.identity_size_ * K.block_cols_num_) + k * K.block_cols_num_)
              K.block_rows_num_ K.block_cols_num_
              (K.matrix_.block (i * K.block_rows_num_) (j * K.block_cols_num_)
                K.block_rows_num_ K.block_cols_num_)) output) output) output).coeff
          ((i * K.identity_size_ + k) * K.block_rows_num_ + r)
          ((j * K.identity_size_ + k2) * K.block_cols_num_ + c) =
        if k = k2 then
          K.matrix_.coeff (i * K.block_rows_num_ + r) (j * K.block_cols_num_ + c)
        else output.coeff ((i * K.identity_size_ + k) * K.block_rows_num_ + r)
          ((j * K.identity_size_ + k2) * K.block_cols_num_ + c) := by
  have hshape := forEach_inv (fun output i =>
      forEach K.num_blocks_hor_ (fun output j =>
        forEach K.identity_size_ (fun output k =>
          output.setBlock (i * (K.identity_size_ * K.block_rows_num_) + k * K.block_rows_num_)
            (j * (K.identity_size_ * K.block_cols_num_) + k * K.block_cols_num_)
            K.block_rows_num_ K.block_cols_num_
            (K.matrix_.block (i * K.block_rows_num_) (j * K.block_cols_num_) K.block_rows_num_
              K.block_cols_num_)) output) output)
    (fun st : DenseMatrix => st.rows = output.rows ∧ st.cols = output.cols) K.num_blocks_vert_
    (fun st hst i _ => by
      apply forEach_inv _ (fun st : DenseMatrix => st.rows = output.rows ∧ st.cols = output.cols)
      · intro st hst j _
        apply forEach_inv _
          (fun st : DenseMatrix => st.rows = output.rows ∧ st.cols = output.cols)
        · intro st hst k _
          exact hst
        · exact hst
      · exact hst) output ⟨rfl, rfl⟩
  refine ⟨hshape.1, hshape.2, ?_⟩
  intro i hi j hj k hk k2 hk2 r hr c hc
  generalize hI : (i * K.identity_size_ + k) * K.block_rows_num_ + r = I
  generalize hJ : (j * K.identity_size_ + k2) * K.block_cols_num_ + c = J
  have hstep : ∀ (i1 j1 k1 : Nat) (st : DenseMatrix), k1 < K.identity_size_ →
      (st.setBlock (i1 * (K.identity_size_ * K.block_rows_num_) + k1 * K.block_rows_num_)
        (j1 * (K.identity_size_ * K.block_cols_num_) + k1 * K.block_cols_num_)
        K.block_rows_num_ K.block_cols_num_
        (K.matrix_.block (i1 * K.block_rows_num_) (j1 * K.block_cols_num_) K.block_rows_num_
          K.block_cols_num_)).coeff I J =
      if k1 = k ∧ (i1 = i ∧ (j1 = j ∧ k = k2)) then
        K.matrix_.coeff (i * K.block_rows_num_ + r) (j * K.block_cols_num_ + c)
      else st.coeff I J := by
    intro i1 j1 k1 st hk1
    have hv : K.validCoordinate i1 j1 = true := by simp [BlockMatrixBase.validCoordinate, hs]
    obtain ⟨st1, h1, h2⟩ := K.evaluateStep_get i1 j1 k1 hv hk1 st hk hk2 hr hc hI.symm hJ.symm
    have hop := K.operatorCall_ok hv
    have e1 : i1 * (K.identity_size_ * K.block_rows_num_) + k1 * K.block_rows_num_
        = (i1 * K.identity_size_ + k1) * K.block_rows_num_ := by ring
    have e2 : j1 * (K.identity_size_ * K.block_cols_num_) + k1 * K.block_cols_num_
        = (j1 * K.identity_size_ + k1) * K.block_cols_num_ := by ring
    have h3 : K.evaluateStep i1 j1 st k1
        = (.ok (), st.setBlock ((i1 * K.identity_size_ + k1) * K.block_rows_num_)
            ((j1 * K.identity_size_ + k1) * K.block_cols_num_) K.block_rows_num_
            K.block_cols_num_
            (K.matrix_.block (i1 * K.block_rows_num_) (j1 * K.block_cols_num_)
              K.block_rows_num_ K.block_cols_num_)) := by
      simp only [evaluateStep, hop]
    have h4 : st1 = st.setBlock ((i1 * K.identity_size_ + k1) * K.block_rows_num_)
            ((j1 * K.identity_size_ + k1) * K.block_cols_num_) K.block_rows_num_
            K.block_cols_num_
            (K.matrix_.block (i1 * K.block_rows_num_) (j1 * K.block_cols_num_)
              K.block_rows_num_ K.block_cols_num_) :=
      (Prod.mk.inj (h1.symm.trans h3)).2
    rw [e1, e2, ← h4, h2]
  have houter := forEach_get (fun output i =>
      forEach K.num_blocks_hor_ (fun output j =>
        forEach K.identity_size_ (fun output k =>
          output.setBlock (i * (K.identity_size_ * K.block_rows_num_) + k * K.block_rows_num_)
            (j * (K.identity_size_ * K.block_cols_num_) + k * K.block_cols_num_)
            K.block_rows_num_ K.block_cols_num_
            (K.matrix_.block (i * K.block_rows_num_) (j * K.block_cols_num_) K.block_rows_num_
              K.block_cols_num_)) output) output)
    (fun st : DenseMatrix => st.coeff I J) K.num_blocks_vert_ i
    (K.matrix_.coeff (i * K.block_rows_num_ + r) (j * K.block_cols_num_ + c)) (k = k2)
    (fun st i1 _ => by
      have hmid := forEach_get (fun output j =>
          forEach K.identity_size_ (fun output k =>
            output.setBlock
              (i1 * (K.identity_size_ * K.block_rows_num_) + k * K.block_rows_num_)
              (j * (K.identity_size_ * K.block_cols_num_) + k * K.block_cols_num_)
              K.block_rows_num_ K.block_cols_num_
              (K.matrix_.block (i1 * K.block_rows_num_) (j * K.block_cols_num_)
                K.block_rows_num_ K.block_cols_num_)) output)
        (fun st : DenseMatrix => st.coeff I J) K.num_blocks_hor_ j
        (K.matrix_.coeff (i * K.block_rows_num_ + r) (j * K.block_cols_num_ + c))
        (i1 = i ∧ k = k2)
        (fun st j1 _ => by
          have hin := forEach_get (fun output k =>
              output.setBlock
                (i1 * (K.identity_size_ * K.block_rows_num_) + k * K.block_rows_num_)
                (j1 * (K.identity_size_ * K.block_cols_num_) + k * K.block_cols_num_)
                K.block_rows_num_ K.block_cols_num_
                (K.matrix_.block (i1 * K.block_rows_num_) (j1 * K.block_cols_num_)
                  K.block_rows_num_ K.block_cols_num_))
            (fun st : DenseMatrix => st.coeff I J) K.identity_size_ k
            (K.matrix_.coeff (i * K.block_rows_num_ + r) (j * K.block_cols_num_ + c))
            (i1 = i ∧ (j1 = j ∧ k = k2))
            (fun st k1 hk1 => hstep i1 j1 k1 st hk1) st
          dsimp only at hin ⊢
          rw [hin]
          by_cases a1 : i1 = i <;> by_cases a2 : j1 = j <;> by_cases a3 : k = k2 <;>
            simp [a1, a2, a3, hk, hk2]) st
      dsimp only at hmid ⊢
      rw [hmid]
      by_cases a1 : i1 = i <;> by_cases a3 : k = k2 <;> simp [a1, a3, hj]) output
  rw [houter]
  simp only [hi, true_and]

end BlockKroneckerProductBase

/-- C37: for block dimensions `br, bc >= 1` and an identity size `s >= 2`,
`multiplyBlockKroneckerIdentity(M, br, bc, s)` returns, when `br` divides the rows and `bc`
the columns of `M`, the matrix that `evaluate()` returns for the Kronecker product over `M`
without sparsity, with blocks of size `br x bc` and the identity size `s`; and it throws when
`br` does not divide the rows or `bc` does not divide the columns. -/
theorem multiplyBlockKroneckerIdentity_eq_evaluate (M : DenseMatrix) (br bc s : Nat)
    (hbr : 1 ≤ br) (hbc : 1 ≤ bc) (hs : 2 ≤ s) :
    ((br ∣ M.rows ∧ bc ∣ M.cols) →
      ∃ K E out,
        BlockKroneckerProductBase.construct .DYNAMIC .DYNAMIC .NONE M (s : Int)
          (some (br : Int)) (some (bc : Int)) = .ok K ∧
        K.evaluate = .ok E ∧ multiplyBlockKroneckerIdentity M br bc s = .ok out ∧
        DenseMatrix.Same out E) ∧
    ((¬ br ∣ M.rows ∨ ¬ bc ∣ M.cols) →
      multiplyBlockKroneckerIdentity M br bc s = .error "Wrong block size.") := by
  constructor
  · rintro ⟨hdr, hdc⟩
    have hr0 : M.rows % br = 0 := Nat.mod_eq_zero_of_dvd hdr
    have hc0 : M.cols % bc = 0 := Nat.mod_eq_zero_of_dvd hdc
    have hcons : BlockKroneckerProductBase.construct .DYNAMIC .DYNAMIC .NONE M (s : Int)
        (some (br : Int)) (some (bc : Int))
        = .ok ⟨⟨.DYNAMIC, .DYNAMIC, .NONE, M, br, bc, M.rows / br, M.cols / bc⟩, s⟩ := by
      have h1 : (0 : Int) < (br : Int) := by omega
      have h2 : (0 : Int) < (bc : Int) := by omega
      have h3 : (s : Int) > 1 := by omega
      simp [BlockKroneckerProductBase.construct, BlockMatrixBase.construct, resolve, h1, h2,
        h3, hr0, hc0]
    obtain ⟨E, hE, hEr, hEc, hcoef⟩ := BlockKroneckerProductBase.evaluate_spec
      ⟨⟨.DYNAMIC, .DYNAMIC, .NONE, M, br, bc, M.rows / br, M.cols / bc⟩, s⟩ rfl
    obtain ⟨l1, l2, l3⟩ := BlockKroneckerProductBase.blockKroneckerLoops_spec
      ⟨⟨.DYNAMIC, .DYNAMIC, .NONE, M, br, bc, M.rows / br, M.cols / bc⟩, s⟩ rfl
      (DenseMatrix.empty.setZero (s * M.rows) (s * M.cols))
    refine ⟨⟨⟨.DYNAMIC, .DYNAMIC, .NONE, M, br, bc, M.rows / br, M.cols / bc⟩, s⟩, E,
      forEach (M.rows / br) (fun output i =>
        forEach (M.cols / bc) (fun output j =>
          forEach s (fun output k =>
            output.setBlock (i * (s * br) + k * br) (j * (s * bc) + k * bc) br bc
              (M.block (i * br) (j * bc) br bc)) output) output)
        (DenseMatrix.empty.setZero (s * M.rows) (s * M.cols)), hcons, hE, ?_, ?_⟩
    · simp only [multiplyBlockKroneckerIdentity, hr0, hc0, ne_eq, not_true_eq_false, if_false]
    · refine ⟨l1.trans hEr.symm, l2.trans hEc.symm, ?_⟩
      intro I hI J hJ
      rw [l1] at hI
      rw [l2] at hJ
      have hI2 : I < s * (M.rows / br * br) := by
        rw [Nat.div_mul_cancel hdr]; exact hI
      have hJ2 : J < s * (M.cols / bc * bc) := by
        rw [Nat.div_mul_cancel hdc]; exact hJ
      obtain ⟨i, hi, k, hk, r, hr, rfl⟩ := index_decompose hI2
      obtain ⟨j, hj, k2, hk2, c, hc, rfl⟩ := index_decompose hJ2
      rw [l3 i hi j hj k hk k2 hk2 r hr c hc, hcoef i hi j hj k hk k2 hk2 r hr c hc]
      rfl
  · intro h
    rcases h with h | h
    · have : M.rows % br ≠ 0 := fun h0 => h (Nat.dvd_of_mod_eq_zero h0)
      simp only [multiplyBlockKroneckerIdentity, this, ne_eq, not_false_eq_true, if_true]
    · have : M.cols % bc ≠ 0 := fun h0 => h (Nat.dvd_of_mod_eq_zero h0)
      by_cases h1 : M.rows % br ≠ 0
      · simp only [multiplyBlockKroneckerIdentity, h1, ne_eq, not_false_eq_true, if_true]
      · simp only [multiplyBlockKroneckerIdentity, h1, this, ne_eq, not_false_eq_true, if_true,
          if_false]

/-- Witness of C37: `sampleRaw` in blocks of size `2 x 1` with the identity size `2`. -/
theorem multiplyBlockKroneckerIdentity_eq_evaluate_witness :
    1 ≤ 2 ∧ 1 ≤ 1 ∧ 2 ≤ 2 ∧ 2 ∣ sampleRaw.rows ∧ 1 ∣ sampleRaw.cols ∧
    ∃ K E out,
      BlockKroneckerProductBase.construct .DYNAMIC .DYNAMIC .NONE sampleRaw ((2 : Nat) : Int)
        (some ((2 : Nat) : Int)) (some ((1 : Nat) : Int)) = .ok K ∧
      K.evaluate = .ok E ∧ multiplyBlockKroneckerIdentity sampleRaw 2 1 2 = .ok out ∧
      DenseMatrix.Same out E :=
  ⟨by decide, by decide, by decide, by decide, by decide,
    (multiplyBlockKroneckerIdentity_eq_evaluate sampleRaw 2 1 2 (by decide) (by decide)
      (by decide)).1 ⟨by decide, by decide⟩⟩

/-! ### The permutation of `multiplyRight` with a diagonal block matrix -/

namespace BlockKroneckerProductBase

/-- A position `(j*s + i)*br + r` of the index sequence is inside it. -/
theorem permutation_position_lt {s nv br i j r : Nat} (hi : i < s) (hj : j < nv)
    (hr : r < br) : (j * s + i) * br + r < s * (nv * br) := by
  have h1 : (j + 1) * s ≤ nv * s := Nat.mul_le_mul_right s hj
  rw [Nat.add_mul, Nat.one_mul] at h1
  have h2 : (j * s + i + 1) * br ≤ nv * s * br := Nat.mul_le_mul_right br (by omega)
  rw [Nat.add_mul, Nat.one_mul] at h2
  have h3 : nv * s * br = s * (nv * br) := by ring
  omega

/-- A value `i*rows + j*br + r` of the index sequence is below its length. -/
theorem permutation_value_lt {s nv br i j r : Nat} (hi : i < s) (hj : j < nv)
    (hr : r < br) : i * (nv * br) + j * br + r < s * (nv * br) := by
  have h1 : (j + 1) * br ≤ nv * br := Nat.mul_le_mul_right br hj
  rw [Nat.add_mul, Nat.one_mul] at h1
  have h2 : (i + 1) * (nv * br) ≤ s * (nv * br) := Nat.mul_le_mul_right _ hi
  rw [Nat.add_mul, Nat.one_mul] at h2
  omega

/-- C36: the index sequence that `multiplyRight(result, dbm)` builds, in the primary
template and in the lower-triangular specialisation, has the length `s*rows`; its entry at
`(j*s + i)*br + r` is `i*rows + j*br + r` for every copy `i < s`, block row `j` and `r < br`;
every position below the length is one of these in a single way, every entry is a row
number below the length, no two positions hold the same entry and every row number is held
by a position. So the reordered buffer has `s*rows` rows and every row of the striped
buffer is exactly one of them. -/
theorem permutationIndices_bijection (K : BlockKroneckerProductBase)
    (hK : K.toBlockMatrixBase.Valid) :
    K.permutationIndices.size = K.identity_size_ * K.matrix_.rows ∧
    (∀ i < K.identity_size_, ∀ j < K.num_blocks_vert_, ∀ r < K.block_rows_num_,
      K.permutationIndices.coeff ((j * K.identity_size_ + i) * K.block_rows_num_ + r) =
        ((i * K.matrix_.rows + j * K.block_rows_num_ + r : Nat) : Int)) ∧
    (∀ p < K.identity_size_ * K.matrix_.rows,
      ∃ i < K.identity_size_, ∃ j < K.num_blocks_vert_, ∃ r < K.block_rows_num_,
        p = (j * K.identity_size_ + i) * K.block_rows_num_ + r ∧
        ∀ i2 < K.identity_size_, ∀ j2 < K.num_blocks_vert_, ∀ r2 < K.block_rows_num_,
          p = (j2 * K.identity_size_ + i2) * K.block_rows_num_ + r2 →
          i2 = i ∧ j2 = j ∧ r2 = r) ∧
    (∀ p < K.identity_size_ * K.matrix_.rows,
      0 ≤ K.permutationIndices.coeff p ∧
      K.permutationIndices.coeff p < ((K.identity_size_ * K.matrix_.rows : Nat) : Int)) ∧
    (∀ p < K.identity_size_ * K.matrix_.rows, ∀ q < K.identity_size_ * K.matrix_.rows,
      K.permutationIndices.coeff p = K.permutationIndices.coeff q → p = q) ∧
    (∀ v < K.identity_size_ * K.matrix_.rows,
      ∃ p < K.identity_size_ * K.matrix_.rows, K.permutationIndices.coeff p = (v : Int)) ∧
    (∀ striped : DenseMatrix,
      (applyTransposedPermutation K.permutationIndices striped).rows
        = K.identity_size_ * K.matrix_.rows ∧
      ∀ v < K.identity_size_ * K.matrix_.rows,
        ∃ p < K.identity_size_ * K.matrix_.rows,
          (∀ J, (applyTransposedPermutation K.permutationIndices striped).coeff p J
            = striped.coeff v J) ∧
          ∀ q < K.identity_size_ * K.matrix_.rows,
            K.permutationIndices.coeff q = (v : Int) → q = p) := by
  obtain ⟨hsize, hform⟩ := K.permutationIndices_spec
  obtain ⟨_, _, hrows, _⟩ := hK
  have hdec : ∀ p < K.identity_size_ * K.matrix_.rows,
      ∃ i < K.identity_size_, ∃ j < K.num_blocks_vert_, ∃ r < K.block_rows_num_,
        p = (j * K.identity_size_ + i) * K.block_rows_num_ + r := by
    intro p hp
    rw [hrows] at hp
    obtain ⟨j, hj, i, hi, r, hr, rfl⟩ := index_decompose hp
    exact ⟨i, hi, j, hj, r, hr, rfl⟩
  have hinj : ∀ p < K.identity_size_ * K.matrix_.rows,
      ∀ q < K.identity_size_ * K.matrix_.rows,
      K.permutationIndices.coeff p = K.permutationIndices.coeff q → p = q := by
    intro p hp q hq hpq
    obtain ⟨i, hi, j, hj, r, hr, rfl⟩ := hdec p hp
    obtain ⟨i2, hi2, j2, hj2, r2, hr2, rfl⟩ := hdec q hq
    rw [hform i hi j hj r hr, hform i2 hi2 j2 hj2 r2 hr2] at hpq
    have hnat : i * K.matrix_.rows + j * K.block_rows_num_ + r
        = i2 * K.matrix_.rows + j2 * K.block_rows_num_ + r2 := by exact_mod_cast hpq
    have b1 : j * K.block_rows_num_ + r < K.matrix_.rows := by
      have := Nat.mul_le_mul_right K.block_rows_num_ (show j + 1 ≤ K.num_blocks_vert_ from hj)
      rw [Nat.add_mul, Nat.one_mul] at this
      omega
    have b2 : j2 * K.block_rows_num_ + r2 < K.matrix_.rows := by
      have := Nat.mul_le_mul_right K.block_rows_num_ (show j2 + 1 ≤ K.num_blocks_vert_ from hj2)
      rw [Nat.add_mul, Nat.one_mul] at this
      omega
    have c1 := (@pair_index_eq K.matrix_.rows i2 (j2 * K.block_rows_num_ + r2) i
      (j * K.block_rows_num_ + r) b2 b1).1 (by omega)
    have c2 := (@pair_index_eq K.block_rows_num_ j2 r2 j r hr2 hr).1 c1.2
    rw [c1.1, c2.1, c2.2]
  have hsur : ∀ v < K.identity_size_ * K.matrix_.rows,
      ∃ p < K.identity_size_ * K.matrix_.rows, K.permutationIndices.coeff p = (v : Int) := by
    intro v hv
    obtain ⟨i, hi, m, hm, rfl⟩ := col_decompose hv
    rw [hrows] at hm
    obtain ⟨j, hj, r, hr, rfl⟩ := col_decompose hm
    refine ⟨(j * K.identity_size_ + i) * K.block_rows_num_ + r, ?_, ?_⟩
    · rw [hrows]
      exact permutation_position_lt hi hj hr
    · rw [hform i hi j hj r hr, Nat.add_assoc]
  refine ⟨hsize, hform, ?_, ?_, hinj, hsur, ?_⟩
  · intro p hp
    obtain ⟨i, hi, j, hj, r, hr, rfl⟩ := hdec p hp
    refine ⟨i, hi, j, hj, r, hr, rfl, ?_⟩
    intro i2 hi2 j2 hj2 r2 hr2 h
    have c1 := (@block_region_iff K.block_rows_num_ (j2 * K.identity_size_ + i2)
      (j * K.identity_size_ + i) r2 hr2).1 ⟨by omega, by omega⟩
    have c2 := (@pair_index_eq K.identity_size_ j2 i2 j i hi2 hi).1 c1
    exact ⟨c2.2.symm, c2.1.symm, by rw [c1] at h; omega⟩
  · intro p hp
    obtain ⟨i, hi, j, hj, r, hr, rfl⟩ := hdec p hp
    rw [hform i hi j hj r hr]
    refine ⟨Int.natCast_nonneg _, ?_⟩
    have := @permutation_value_lt K.identity_size_ K.num_blocks_vert_ K.block_rows_num_ i j r
      hi hj hr
    rw [← hrows] at this
    exact_mod_cast this
  · intro striped
    refine ⟨hsize, ?_⟩
    intro v hv
    obtain ⟨p, hp, hpv⟩ := hsur v hv
    refine ⟨p, hp, ?_, ?_⟩
    · intro J
      simp only [applyTransposedPermutation, hpv, Int.toNat_ofNat]
    · intro q hq hqv
      exact hinj q hq p hp (hqv.trans hpv.symm)

/-- Witness of C36 on `sampleFull`: the index sequence is `0, 1, 4, 5, 2, 3, 6, 7`. -/
theorem permutationIndices_bijection_witness :
    sampleFull.toBlockMatrixBase.Valid ∧
    sampleFull.permutationIndices.size = sampleFull.identity_size_ * sampleFull.matrix_.rows ∧
    (∀ p < sampleFull.identity_size_ * sampleFull.matrix_.rows,
      ∀ q < sampleFull.identity_size_ * sampleFull.matrix_.rows,
      sampleFull.permutationIndices.coeff p = sampleFull.permutationIndices.coeff q → p = q) ∧
    sampleFull.permutationIndices.coeff 2 = 4 :=
  ⟨by decide, (permutationIndices_bijection sampleFull (by decide)).1,
    (permutationIndices_bijection sampleFull (by decide)).2.2.2.2.1, by decide⟩

end BlockKroneckerProductBase

/-! ### The specialisation for `1 x 1` blocks against the primary template -/

/-- A `for` loop from `0` whose passes all return: an invariant indexed by the pass that
holds before the first pass holds, at the bound, after the last one. -/
theorem forLoop_indexed {σ : Type} (body : σ → Nat → Outcome σ) (P : Nat → σ → Prop) (n : Nat)
    (st : σ) (h0 : P 0 st)
    (hstep : ∀ k st, k < n → P k st → ∃ st1, body st k = (.ok (), st1) ∧ P (k + 1) st1) :
    ∃ st1, forLoop 0 n body st = (.ok (), st1) ∧ P n st1 := by
  obtain ⟨st1, h1, g1⟩ := forLoopAux_indexed body P n 0 st h0
    (fun k st _ hk hP => hstep k st (by omega) hP)
  refine ⟨st1, ?_, ?_⟩
  · simp only [forLoop, Nat.sub_zero, h1]
  · rw [Nat.zero_add] at g1
    exact g1

/-- Being the same matrix is symmetric. -/
theorem DenseMatrix.same_symm {a b : DenseMatrix} (h : DenseMatrix.Same a b) :
    DenseMatrix.Same b a :=
  ⟨h.1.symm, h.2.1.symm, fun i hi j hj =>
    (h.2.2 i (by rw [h.1]; exact hi) j (by rw [h.2.1]; exact hj)).symm⟩

/-- Being the same matrix is transitive. -/
theorem DenseMatrix.same_trans {a b c : DenseMatrix} (h1 : DenseMatrix.Same a b)
    (h2 : DenseMatrix.Same b c) : DenseMatrix.Same a c :=
  ⟨h1.1.trans h2.1, h1.2.1.trans h2.2.1, fun i hi j hj =>
    (h1.2.2 i hi j hj).trans (h2.2.2 i (by rw [← h1.1]; exact hi) j (by rw [← h1.2.1]; exact hj))⟩

/-- Being the same vector is symmetric. -/
theorem DenseVector.vector_same_symm {a b : DenseVector} (h : DenseVector.Same a b) :
    DenseVector.Same b a :=
  ⟨h.1.symm, fun i hi => (h.2 i (by rw [h.1]; exact hi)).symm⟩

/-- Being the same vector is transitive. -/
theorem DenseVector.vector_same_trans {a b c : DenseVector} (h1 : DenseVector.Same a b)
    (h2 : DenseVector.Same b c) : DenseVector.Same a c :=
  ⟨h1.1.trans h2.1, fun i hi => (h1.2 i hi).trans (h2.2 i (by rw [← h1.1]; exact hi))⟩

namespace BlockKroneckerProductBase

/-- The specialisation for `1 x 1` blocks, `multiplyRight(result, vector)` on a matrix
without sparsity: the call returns, and the entry `i*s + k` of `result` is the sum over the
block columns `j` of the scalar `(*this)(i, j)` times the entry `j*s + k` of `vector`. -/
theorem Block1x1.multiplyRightVector_spec_scalar (K : BlockKroneckerProductBase)
    (hs : K.t_sparsity_type = MatrixSparsityType.NONE) (result vector : DenseVector) :
    ∃ R, Block1x1.multiplyRightVector K result vector = (.ok (), R) ∧
      R.size = K.identity_size_ * K.matrix_.rows ∧
      ∀ i < K.num_blocks_vert_, ∀ k < K.identity_size_,
        R.coeff (i * K.identity_size_ + k) =
          ∑ j in Finset.range K.num_blocks_hor_,
            K.matrix_.coeff (i * K.block_rows_num_) (j * K.block_cols_num_) *
              vector.coeff (j * K.identity_size_ + k) := by
  have hstep : ∀ (j i1 : Nat) (st : DenseVector),
      Block1x1.multiplyRightVectorStep K vector j st i1
        = (.ok (), st.addSegment (i1 * K.identity_size_) K.identity_size_
            (DenseVector.scale (K.matrix_.coeff (i1 * K.block_rows_num_) (j * K.block_cols_num_))
              (vector.segment (j * K.identity_size_) K.identity_size_))) := by
    intro j i1 st
    have hop := @BlockMatrixBase.operatorCall_ok K.toBlockMatrixBase i1 j
      (by simp [BlockMatrixBase.validCoordinate, hs])
    simp only [Block1x1.multiplyRightVectorStep, Block1x1.scalarAt, hop, DenseMatrix.block,
      Nat.add_zero]
  obtain ⟨R, hR, hsize, hcoef⟩ := forLoop_indexed (fun result j =>
      forLoop 0 K.num_blocks_vert_ (Block1x1.multiplyRightVectorStep K vector j) result)
    (fun j (st : DenseVector) => st.size = K.identity_size_ * K.matrix_.rows ∧
      ∀ i < K.num_blocks_vert_, ∀ k < K.identity_size_,
        st.coeff (i * K.identity_size_ + k) =
          ∑ j1 in Finset.range j,
            K.matrix_.coeff (i * K.block_rows_num_) (j1 * K.block_cols_num_) *
              vector.coeff (j1 * K.identity_size_ + k))
    K.num_blocks_hor_ (result.setZero (K.identity_size_ * K.matrix_.rows))
    ⟨rfl, fun i _ k _ => by simp [DenseVector.setZero]⟩
    (fun j st _ hP => by
      obtain ⟨p1, p2⟩ := hP
      obtain ⟨st1, h1, q1, q2⟩ := forLoop_indexed (Block1x1.multiplyRightVectorStep K vector j)
        (fun i1 (st1 : DenseVector) => st1.size = K.identity_size_ * K.matrix_.rows ∧
          ∀ i < K.num_blocks_vert_, ∀ k < K.identity_size_,
            st1.coeff (i * K.identity_size_ + k) = st.coeff (i * K.identity_size_ + k) +
              if i < i1 then
                K.matrix_.coeff (i * K.block_rows_num_) (j * K.block_cols_num_) *
                  vector.coeff (j * K.identity_size_ + k)
              else 0)
        K.num_blocks_vert_ st ⟨p1, fun i _ k _ => by simp⟩
        (fun i1 st1 _ hQ => by
          obtain ⟨q1, q2⟩ := hQ
          refine ⟨_, hstep j i1 st1, q1, ?_⟩
          intro i hi k hk
          simp only [DenseVector.addSegment, DenseVector.scale, DenseVector.segment]
          have e := @block_region_iff K.identity_size_ i i1 k hk
          by_cases hii : i1 = i
          · subst hii
            have hreg := e.2 rfl
            rw [if_pos hreg, q2 i1 hi k hk, if_neg (Nat.lt_irrefl _),
              if_pos (Nat.lt_succ_self _)]
            have : i1 * K.identity_size_ + k - i1 * K.identity_size_ = k := by omega
            rw [this]
            ring
          · rw [if_neg (fun h => hii (e.1 h)), q2 i hi k hk]
            by_cases hlt : i < i1
            · rw [if_pos hlt, if_pos (by omega)]
            · rw [if_neg hlt, if_neg (by omega)])
      refine ⟨st1, h1, q1, ?_⟩
      intro i hi k hk
      rw [q2 i hi k hk, if_pos hi, p2 i hi k hk, Finset.sum_range_succ])
  exact ⟨R, hR, hsize, hcoef⟩

/-- C34: for `1 x 1` blocks without sparsity, an identity size `s >= 2` and a vector of
length `s*cols`, `multiplyRight(result, vector)` of the specialisation returns and leaves in
`result` the vector of length `s*rows` with
`result[i*s + k] = sum over j of M[i][j] * vector[j*s + k]`; this is `evaluate() * vector`,
and it is what `multiplyRight(result, vector)` of the primary template leaves for the same
block matrix. -/
theorem Block1x1.multiplyRightVector_eq_general (K : BlockKroneckerProductBase) (hK : K.Valid)
    (hs : K.t_sparsity_type = MatrixSparsityType.NONE)
    (hbr : K.block_rows_num_ = 1) (hbc : K.block_cols_num_ = 1)
    (result vector : DenseVector)
    (_hlen : vector.size = K.identity_size_ * K.matrix_.cols) :
    ∃ E R G, Block1x1.evaluate K = .ok E ∧
      Block1x1.multiplyRightVector K result vector = (.ok (), R) ∧
      K.multiplyRightVector result vector = (.ok (), G) ∧
      R.size = K.identity_size_ * K.matrix_.rows ∧
      (∀ i < K.matrix_.rows, ∀ k < K.identity_size_,
        R.coeff (i * K.identity_size_ + k) =
          ∑ j in Finset.range K.matrix_.cols,
            K.matrix_.coeff i j * vector.coeff (j * K.identity_size_ + k)) ∧
      DenseVector.Same R (E.mulVec vector) ∧ DenseVector.Same R G := by
  obtain ⟨E, hE, hEr, hEc, hcoef⟩ := K.evaluate_spec hs
  obtain ⟨R, hR, hRs, hRc⟩ := Block1x1.multiplyRightVector_spec_scalar K hs result vector
  obtain ⟨G, hG, hGs, hGc⟩ := K.multiplyRightVector_spec hK.1 result vector
  have hprod := K.mulVec_coeff hK.1 E hEc hcoef vector
  obtain ⟨_, _, hrows, hcols⟩ := hK.1
  rw [hbr, Nat.mul_one] at hrows
  rw [hbc, Nat.mul_one] at hcols
  have hform : ∀ i < K.matrix_.rows, ∀ k < K.identity_size_,
      R.coeff (i * K.identity_size_ + k) =
        ∑ j in Finset.range K.matrix_.cols,
          K.matrix_.coeff i j * vector.coeff (j * K.identity_size_ + k) := by
    intro i hi k hk
    rw [hrows] at hi
    rw [hRc i hi k hk, hcols]
    simp only [hbr, hbc, Nat.mul_one]
  have hdec : ∀ I < K.identity_size_ * K.matrix_.rows,
      ∃ i < K.num_blocks_vert_, ∃ k < K.identity_size_, I = i * K.identity_size_ + k := by
    intro I hI
    rw [hrows, Nat.mul_comm] at hI
    exact col_decompose hI
  refine ⟨E, R, G, (Block1x1.evaluate_eq K hbr hbc).trans hE, hR, hG, hRs, hform, ?_, ?_⟩
  · refine ⟨hRs.trans hEr.symm, ?_⟩
    intro I hI
    rw [hRs] at hI
    obtain ⟨i, hi, k, hk, rfl⟩ := hdec I hI
    have h1 := hprod i hi k hk 0 (by rw [hbr]; exact Nat.one_pos)
    simp only [hbr, hbc, Nat.mul_one, Nat.add_zero, Finset.sum_range_one] at h1
    rw [h1, hRc i hi k hk]
    simp only [hbr, hbc, Nat.mul_one]
  · refine ⟨hRs.trans hGs.symm, ?_⟩
    intro I hI
    rw [hRs] at hI
    obtain ⟨i, hi, k, hk, rfl⟩ := hdec I hI
    have h1 := hGc i hi k hk 0 (by rw [hbr]; exact Nat.one_pos)
    simp only [hbr, hbc, Nat.mul_one, Nat.add_zero, Finset.sum_range_one] at h1
    rw [h1, hRc i hi k hk]
    simp only [hbr, hbc, Nat.mul_one]

/-- Witness of C34 on `sampleScalarFull` and `sampleVector`. -/
theorem Block1x1.multiplyRightVector_eq_general_witness :
    sampleScalarFull.Valid ∧
    sampleVector.size = sampleScalarFull.identity_size_ * sampleScalarFull.matrix_.cols ∧
    ∃ E R G, Block1x1.evaluate sampleScalarFull = .ok E ∧
      Block1x1.multiplyRightVector sampleScalarFull DenseVector.empty sampleVector
        = (.ok (), R) ∧
      sampleScalarFull.multiplyRightVector DenseVector.empty sampleVector = (.ok (), G) ∧
      DenseVector.Same R (E.mulVec sampleVector) ∧ DenseVector.Same R G :=
  ⟨by decide, rfl,
    (Block1x1.multiplyRightVector_eq_general sampleScalarFull (by decide) rfl rfl rfl
      DenseVector.empty sampleVector rfl).imp
      (fun _ h => h.imp (fun _ g => g.imp (fun _ f => ⟨f.1, f.2.1, f.2.2.1, f.2.2.2.2.2⟩)))⟩

/-- The loops of `multiplyRight(result, dbm)` of the specialisation for `1 x 1` blocks, run
over the first `n` block columns: they return, keep the shape of the buffer of `result_bmi`,
and leave `(*this)(i, j) * dbm(j)` in the block `(i, j)` of it. -/
theorem Block1x1.multiplyRight_loops_spec (K : BlockKroneckerProductBase)
    (hs : K.t_sparsity_type = MatrixSparsityType.NONE) (dbm rb : BlockMatrixBase) (n : Nat) :
    ∃ out, forLoop 0 n (fun result_bmi j =>
        forLoop 0 K.num_blocks_vert_ (Block1x1.multiplyRightStep K dbm j) result_bmi) rb
          = (.ok (), out) ∧
      out.matrix_.rows = rb.matrix_.rows ∧ out.matrix_.cols = rb.matrix_.cols ∧
      ∀ i < K.num_blocks_vert_, ∀ j < n, ∀ k < rb.block_rows_num_, ∀ c < rb.block_cols_num_,
        out.matrix_.coeff (i * rb.block_rows_num_ + k) (j * rb.block_cols_num_ + c) =
          K.matrix_.coeff (i * K.block_rows_num_) (j * K.block_cols_num_) *
            (dbm.operatorCallDiagonal j).coeff k c := by
  have hstep : ∀ (j i1 : Nat) (st : BlockMatrixBase),
      Block1x1.multiplyRightStep K dbm j st i1
        = (.ok (), st.assignBlock i1 j
            (DenseMatrix.scale (K.matrix_.coeff (i1 * K.block_rows_num_) (j * K.block_cols_num_))
              (dbm.operatorCallDiagonal j))) := by
    intro j i1 st
    have hop := @BlockMatrixBase.operatorCall_ok K.toBlockMatrixBase i1 j
      (by simp [BlockMatrixBase.validCoordinate, hs])
    simp only [Block1x1.multiplyRightStep, Block1x1.scalarAt, hop, DenseMatrix.block,
      Nat.add_zero]
  obtain ⟨out, hout, -, -, g3, g4, g5⟩ := forLoop_indexed (fun result_bmi j =>
      forLoop 0 K.num_blocks_vert_ (Block1x1.multiplyRightStep K dbm j) result_bmi)
    (fun j (st : BlockMatrixBase) =>
      st.block_rows_num_ = rb.block_rows_num_ ∧ st.block_cols_num_ = rb.block_cols_num_ ∧
      st.matrix_.rows = rb.matrix_.rows ∧ st.matrix_.cols = rb.matrix_.cols ∧
      ∀ i0 < K.num_blocks_vert_, ∀ j0 < j, ∀ k < rb.block_rows_num_,
        ∀ c < rb.block_cols_num_,
          st.matrix_.coeff (i0 * rb.block_rows_num_ + k) (j0 * rb.block_cols_num_ + c) =
            K.matrix_.coeff (i0 * K.block_rows_num_) (j0 * K.block_cols_num_) *
              (dbm.operatorCallDiagonal j0).coeff k c)
    n rb ⟨rfl, rfl, rfl, rfl, fun _ _ _ h => absurd h (Nat.not_lt_zero _)⟩
    (fun j st _ hP => by
      obtain ⟨p1, p2, p3, p4, p5⟩ := hP
      obtain ⟨st1, h1, q1, q2, q3, q4, q5⟩ := forLoop_indexed
        (Block1x1.multiplyRightStep K dbm j)
        (fun i1 (st1 : BlockMatrixBase) =>
          st1.block_rows_num_ = rb.block_rows_num_ ∧
          st1.block_cols_num_ = rb.block_cols_num_ ∧
          st1.matrix_.rows = rb.matrix_.rows ∧ st1.matrix_.cols = rb.matrix_.cols ∧
          ∀ i0 < K.num_blocks_vert_, ∀ j0, (j0 < j ∨ (j0 = j ∧ i0 < i1)) →
            ∀ k < rb.block_rows_num_, ∀ c < rb.block_cols_num_,
              st1.matrix_.coeff (i0 * rb.block_rows_num_ + k) (j0 * rb.block_cols_num_ + c) =
                K.matrix_.coeff (i0 * K.block_rows_num_) (j0 * K.block_cols_num_) *
                  (dbm.operatorCallDiagonal j0).coeff k c)
        K.num_blocks_vert_ st
        ⟨p1, p2, p3, p4, fun i0 hi0 j0 hj0 k hk c hc => by
          rcases hj0 with h | ⟨_, h⟩
          · exact p5 i0 hi0 j0 h k hk c hc
          · exact absurd h (Nat.not_lt_zero _)⟩
        (fun i1 st1 _ hQ => by
          obtain ⟨q1, q2, q3, q4, q5⟩ := hQ
          refine ⟨_, hstep j i1 st1, q1, q2, q3, q4, ?_⟩
          intro i0 hi0 j0 hj0 k hk c hc
          simp only [BlockMatrixBase.assignBlock, DenseMatrix.setBlock, DenseMatrix.scale,
            q1, q2]
          have e1 := @block_region_iff rb.block_rows_num_ i0 i1 k hk
          have e2 := @block_region_iff rb.block_cols_num_ j0 j c hc
          by_cases hreg : i1 = i0 ∧ j = j0
          · obtain ⟨rfl, rfl⟩ := hreg
            have r1 := e1.2 rfl
            have r2 := e2.2 rfl
            rw [if_pos ⟨r1.1, r1.2, r2.1, r2.2⟩]
            have a1 : i1 * rb.block_rows_num_ + k - i1 * rb.block_rows_num_ = k := by omega
            have a2 : j * rb.block_cols_num_ + c - j * rb.block_cols_num_ = c := by omega
            rw [a1, a2]
          · rw [if_neg (fun h => hreg ⟨e1.1 ⟨h.1, h.2.1⟩, e2.1 ⟨h.2.2.1, h.2.2.2⟩⟩)]
            refine q5 i0 hi0 j0 ?_ k hk c hc
            rcases hj0 with h | ⟨h1, h2⟩
            · exact Or.inl h
            · refine Or.inr ⟨h1, ?_⟩
              rcases Nat.lt_succ_iff_lt_or_eq.1 h2 with h3 | h3
              · exact h3
              · exact absurd ⟨h3.symm, h1.symm⟩ hreg)
      refine ⟨st1, h1, q1, q2, q3, q4, ?_⟩
      intro i0 hi0 j0 hj0 k hk c hc
      refine q5 i0 hi0 j0 ?_ k hk c hc
      rcases Nat.lt_succ_iff_lt_or_eq.1 hj0 with h | h
      · exact Or.inl h
      · exact Or.inr ⟨h, hi0⟩)
  exact ⟨out, hout, g3, g4, g5⟩

/-- C35 as amended: for `1 x 1` blocks without sparsity, a diagonal block matrix `D` that
passes the three checks, has as many block columns as block rows and has the block
dimensions of its type, and a `result` whose shape on entry is a multiple of these block
dimensions (so that the block view `result_bmi` over `result` is constructed),
`multiplyRight(result, D)` of the specialisation returns and leaves in `result` a matrix of
`s*rows x cols(D)` whose block `(i, j)`, of size `s x blockCols(D)`, is `M[i][j] * D_j`;
this is `evaluate() * D.evaluate()`, and it is what `multiplyRight(result, D)` of the
primary template leaves for the same block matrix. -/
theorem Block1x1.multiplyRight_eq_general (K : BlockKroneckerProductBase) (hK : K.Valid)
    (hs : K.t_sparsity_type = MatrixSparsityType.NONE)
    (hbr : K.block_rows_num_ = 1) (hbc : K.block_cols_num_ = 1)
    (dbm : BlockMatrixBase) (hD : dbm.ValidDiagonal) (result : DenseMatrix)
    (h1 : dbm.getBlockRowsNum = K.identity_size_)
    (h2 : K.num_blocks_hor_ = dbm.getNumberOfBlocksVertical)
    (h3 : K.num_blocks_hor_ * K.identity_size_ = dbm.getNumberOfRows)
    (hT1 : resolve dbm.t_block_rows_num none = .ok dbm.block_rows_num_)
    (hT2 : resolve dbm.t_block_cols_num none = .ok dbm.block_cols_num_)
    (hR1 : result.rows % dbm.block_rows_num_ = 0)
    (hR2 : result.cols % dbm.block_cols_num_ = 0) :
    ∃ E R G, Block1x1.evaluate K = .ok E ∧
      Block1x1.multiplyRight K result dbm = (.ok (), R) ∧
      K.multiplyRight result dbm = (.ok (), G) ∧
      R.rows = K.identity_size_ * K.matrix_.rows ∧ R.cols = dbm.getNumberOfColumns ∧
      (∀ i < K.matrix_.rows, ∀ j < K.matrix_.cols, ∀ k < K.identity_size_,
        ∀ c < dbm.getBlockColsNum,
          R.coeff (i * K.identity_size_ + k) (j * dbm.getBlockColsNum + c) =
            K.matrix_.coeff i j * (dbm.operatorCallDiagonal j).coeff k c) ∧
      DenseMatrix.Same R (E.mul dbm.evaluateDiagonal) ∧ DenseMatrix.Same R G := by
  have c1 : ¬ dbm.getBlockRowsNum ≠ K.identity_size_ := not_not.2 h1
  have c2 : ¬ K.num_blocks_hor_ ≠ dbm.getNumberOfBlocksVertical := not_not.2 h2
  have c3 : ¬ K.num_blocks_hor_ * K.identity_size_ ≠ dbm.getNumberOfRows := not_not.2 h3
  obtain ⟨E, G, hE, hG, -, -, hGsame⟩ := K.multiplyRight_none_eq_product hK hs dbm hD
    result (by rw [hbc, Nat.one_mul]; exact h1) h2 (by rw [hbc, Nat.mul_one]; exact h3)
  simp only [BlockMatrixBase.getBlockRowsNum, BlockMatrixBase.getNumberOfBlocksVertical,
    BlockMatrixBase.getNumberOfRows, BlockMatrixBase.getNumberOfColumns,
    BlockMatrixBase.getBlockColsNum] at h1 h2 h3 ⊢
  obtain ⟨E2, hE2, hEr, hEc, hcoef⟩ := K.evaluate_spec hs
  have hEE : E = E2 := by
    rw [hE] at hE2
    exact Except.ok.inj hE2
  subst hEE
  have hprod := K.product_coeff hK dbm (by rw [hbc, Nat.one_mul]; exact h1) E hEc
    (fun _ => 0) (by
      intro i hi j hj k hk k2 hk2 r hr c hc
      rw [hcoef i hi j hj k hk k2 hk2 r hr c hc]
      simp)
  obtain ⟨⟨hDbr, hDbc, hDrows, hDcols⟩, _, hDsq⟩ := hD
  obtain ⟨_, _, hrows, hcols⟩ := hK.1
  rw [hbr, Nat.mul_one] at hrows
  rw [hbc, Nat.mul_one] at hcols
  -- the loops over the block view of `result`
  obtain ⟨out, hout, o1, o2, o3⟩ := Block1x1.multiplyRight_loops_spec K hs dbm
    ((⟨dbm.t_block_rows_num, dbm.t_block_cols_num, MatrixSparsityType.NONE, result,
        dbm.block_rows_num_, dbm.block_cols_num_, result.rows / dbm.block_rows_num_,
        result.cols / dbm.block_cols_num_⟩ : BlockMatrixBase).resize K.num_blocks_vert_
      dbm.num_blocks_hor_) dbm.num_blocks_hor_
  simp only [BlockMatrixBase.resize, DenseMatrix.resize] at hout o1 o2 o3
  have hrun : ∃ R, Block1x1.multiplyRight K result dbm = (.ok (), R) ∧
      R.rows = K.num_blocks_vert_ * dbm.block_rows_num_ ∧
      R.cols = dbm.num_blocks_hor_ * dbm.block_cols_num_ ∧
      ∀ i < K.num_blocks_vert_, ∀ j < dbm.num_blocks_hor_, ∀ k < dbm.block_rows_num_,
        ∀ c < dbm.block_cols_num_,
          R.coeff (i * dbm.block_rows_num_ + k) (j * dbm.block_cols_num_ + c) =
            K.matrix_.coeff (i * K.block_rows_num_) (j * K.block_cols_num_) *
              (dbm.operatorCallDiagonal j).coeff k c := by
    by_cases hn : K.num_blocks_hor_ = 0
    · refine ⟨(⟨K.num_blocks_vert_ * dbm.block_rows_num_,
          dbm.num_blocks_hor_ * dbm.block_cols_num_, result.coeff⟩ : DenseMatrix),
        ?_, rfl, rfl, ?_⟩
      · simp only [Block1x1.multiplyRight, if_neg c1, if_neg c2, if_neg c3]
        simp only [BlockMatrixBase.getNumberOfBlocksHorizontal,
          BlockMatrixBase.construct_of_resolved MatrixSparsityType.NONE result hT1 hT2,
          hR1, hR2, hn, BlockMatrixBase.resize, DenseMatrix.resize, ne_eq,
          not_true_eq_false, if_false]
      · intro i _ j hj
        rw [hDsq, ← h2, hn] at hj
        exact absurd hj (Nat.not_lt_zero _)
    · refine ⟨out.matrix_, ?_, o1, o2, o3⟩
      simp only [Block1x1.multiplyRight, if_neg c1, if_neg c2, if_neg c3,
          BlockMatrixBase.getNumberOfBlocksHorizontal,
          BlockMatrixBase.construct_of_resolved MatrixSparsityType.NONE result hT1 hT2,
          hR1, hR2, BlockMatrixBase.resize, DenseMatrix.resize, ne_eq,
          not_true_eq_false, if_false, hn, not_false_eq_true, if_true, hout]
  obtain ⟨R, hR, hRr, hRc, hRcoef⟩ := hrun
  have hnh : dbm.num_blocks_hor_ = K.num_blocks_hor_ := by rw [hDsq, h2]
  have hshape1 : R.rows = K.identity_size_ * K.matrix_.rows := by
    rw [hRr, h1, hrows, Nat.mul_comm]
  have hform : ∀ i < K.num_blocks_vert_, ∀ j < K.num_blocks_hor_, ∀ k < K.identity_size_,
      ∀ c < dbm.block_cols_num_,
        R.coeff (i * K.identity_size_ + k) (j * dbm.block_cols_num_ + c) =
          K.matrix_.coeff i j * (dbm.operatorCallDiagonal j).coeff k c := by
    intro i hi j hj k hk c hc
    have := hRcoef i hi j (by rw [hnh]; exact hj) k (by rw [h1]; exact hk) c hc
    rw [h1, hbr, hbc, Nat.mul_one, Nat.mul_one] at this
    exact this
  have hsame : DenseMatrix.Same R (E.mul dbm.evaluateDiagonal) := by
    refine ⟨?_, ?_, ?_⟩
    · rw [hshape1]
      exact hEr.symm
    · rw [hRc]
      exact hDcols.symm
    · intro I hI J hJ
      rw [hRr, h1] at hI
      rw [hRc, hnh] at hJ
      obtain ⟨i, hi, k, hk, rfl⟩ := col_decompose hI
      obtain ⟨j, hj, c, hc, rfl⟩ := col_decompose hJ
      have p := hprod i hi k hk 0 (by rw [hbr]; exact Nat.one_pos) j hj c hc
      simp only [hbr, hbc, Nat.mul_one, Nat.add_zero, Finset.sum_range_one, Nat.zero_le,
        if_true] at p
      rw [p, hform i hi j hj k hk c hc]
      simp only [BlockMatrixBase.operatorCallDiagonal, DenseMatrix.block]
  refine ⟨E, R, G, (Block1x1.evaluate_eq K hbr hbc).trans hE, hR, hG, hshape1, ?_, ?_, hsame,
    DenseMatrix.same_trans hsame (DenseMatrix.same_symm hGsame)⟩
  · rw [hRc]
    exact hDcols.symm
  · intro i hi j hj k hk c hc
    rw [hrows] at hi
    rw [hcols] at hj
    exact hform i hi j hj k hk c hc

/-- Witness of C35 as amended, on `sampleScalarFull` and `sampleDiagonal`, with an empty `result`. -/
theorem Block1x1.multiplyRight_eq_general_witness :
    sampleScalarFull.Valid ∧ sampleDiagonal.ValidDiagonal ∧
    ∃ E R G, Block1x1.evaluate sampleScalarFull = .ok E ∧
      Block1x1.multiplyRight sampleScalarFull DenseMatrix.empty sampleDiagonal = (.ok (), R) ∧
      sampleScalarFull.multiplyRight DenseMatrix.empty sampleDiagonal = (.ok (), G) ∧
      DenseMatrix.Same R (E.mul sampleDiagonal.evaluateDiagonal) ∧ DenseMatrix.Same R G :=
  ⟨by decide, by decide,
    (Block1x1.multiplyRight_eq_general sampleScalarFull (by decide) rfl rfl rfl
      sampleDiagonal (by decide) DenseMatrix.empty rfl rfl rfl rfl rfl rfl rfl).imp
      (fun _ h => h.imp (fun _ g => g.imp
        (fun _ f => ⟨f.1, f.2.1, f.2.2.1, f.2.2.2.2.2.2⟩)))⟩

/-- Counterexample to C35, on `sampleScalarFull`. With `sampleDiagonal`, which passes the
three checks, and a `result` that holds `[7]`, `multiplyRight(result, dbm)` of the
specialisation for `1 x 1` blocks throws, because the block view over `result` is
constructed before `result` is reshaped, while the primary template returns. With
`sampleDynamicDiagonal`, the same matrix with dynamic block dimensions, it throws for an
empty `result` too, the view being given no block size. With `sampleDiagonalOneColumn`
(two block rows, one block column) both return, and the results differ at `(0, 0)`. -/
theorem Block1x1.multiplyRight_differs_from_general :
    sampleScalarFull.Valid ∧ sampleScalarFull.t_sparsity_type = MatrixSparsityType.NONE ∧
    sampleScalarFull.block_rows_num_ = 1 ∧ sampleScalarFull.block_cols_num_ = 1 ∧
    sampleDiagonal.ValidDiagonal ∧
    BlockMatrixBase.construct .DYNAMIC .DYNAMIC .DIAGONAL sampleDynamicDiagonal.matrix_
      (some 2) (some 1) = .ok sampleDynamicDiagonal ∧
    sampleDynamicDiagonal.ValidDiagonal ∧
    BlockMatrixBase.construct (.FIXED 2) (.FIXED 1) .DIAGONAL
      sampleDiagonalOneColumn.matrix_ none none = .ok sampleDiagonalOneColumn ∧
    (∀ D ∈ [sampleDiagonal, sampleDynamicDiagonal, sampleDiagonalOneColumn],
      D.getBlockRowsNum = sampleScalarFull.identity_size_ ∧
      sampleScalarFull.num_blocks_hor_ = D.getNumberOfBlocksVertical ∧
      sampleScalarFull.num_blocks_hor_ * sampleScalarFull.identity_size_
        = D.getNumberOfRows) ∧
    Block1x1.multiplyRight sampleScalarFull sampleResult sampleDiagonal
      = (.error "ConfigurationError: wrong block size", sampleResult) ∧
    (sampleScalarFull.multiplyRight sampleResult sampleDiagonal).1 = .ok () ∧
    Block1x1.multiplyRight sampleScalarFull DenseMatrix.empty sampleDynamicDiagonal
      = (.error "ConfigurationError: block size is not set", DenseMatrix.empty) ∧
    (sampleScalarFull.multiplyRight DenseMatrix.empty sampleDynamicDiagonal).1 = .ok () ∧
    (Block1x1.multiplyRight sampleScalarFull DenseMatrix.empty sampleDiagonalOneColumn).1
      = .ok () ∧
    (sampleScalarFull.multiplyRight DenseMatrix.empty sampleDiagonalOneColumn).1 = .ok () ∧
    (Block1x1.multiplyRight sampleScalarFull DenseMatrix.empty
      sampleDiagonalOneColumn).2.coeff 0 0 = 1 ∧
    (sampleScalarFull.multiplyRight DenseMatrix.empty sampleDiagonalOneColumn).2.coeff 0 0
      = 0 ∧
    ¬ DenseMatrix.Same
      (Block1x1.multiplyRight sampleScalarFull DenseMatrix.empty sampleDiagonalOneColumn).2
      (sampleScalarFull.multiplyRight DenseMatrix.empty sampleDiagonalOneColumn).2 := by
  refine ⟨by decide, rfl, rfl, rfl, by decide, rfl, by decide, rfl, ?_, rfl, rfl, rfl, rfl,
    rfl, rfl, rfl, rfl, ?_⟩
  · intro D hD
    simp only [List.mem_cons, List.mem_singleton, List.not_mem_nil, or_false] at hD
    rcases hD with rfl | rfl | rfl
    · exact ⟨rfl, rfl, rfl⟩
    · exact ⟨rfl, rfl, rfl⟩
    · exact ⟨rfl, rfl, rfl⟩
  · intro h
    have := h.2.2 0 (by decide) 0 (by decide)
    revert this
    decide

end BlockKroneckerProductBase

end eigenut
